import Mathlib

/-
Verification development for the cloudlet-placement repository.

The repository solves a capacitated facility-location problem with a hybrid
genetic algorithm.  The embedding below translates the two core source files:

  * src/cloudlet_placement/solution.py  (PlacementSolution and its evaluator)
  * src/cloudlet_placement/ga.py        (HybridGeneticAlgorithm)

Modelling conventions:

  * Python floats are modelled as exact numbers.  Every quantity the code
    manipulates is rational except the fitness, whose latency normalizer is
    the constant `1000 * math.sqrt(2)`.  Fitness values therefore live in
    `Q2`, the computable field ℚ[√2] (pairs `a + b·√2`), whose order and
    field structure are proved below to agree with ℝ via `Q2.toReal`.
  * The float value `inf` (used for infeasible fitness, and for distance
    lookups of unknown pairs) is modelled by `Option`: `none` is `+∞`.
  * Python dicts keyed by entity ids are association lists
    `List (Nat × Option Nat)`; `dget` mirrors `dict.get(k)` (which conflates
    a missing key with a stored `None`), `dmem` mirrors `k in d`, and `dset`
    mirrors `d[k] = v` (update if present, append otherwise).
  * Randomness is an explicit oracle (`Orc`): a stream of naturals and a
    stream of rationals consumed through a counter.  Stochastic primitives
    (`randint`, `choice`, `sample`, `shuffle`, `random`) read the oracle;
    every outcome the Python RNG can produce is produced by some oracle.
  * Exceptions (e.g. `random.sample` with too small a population) are
    modelled by the `Option` layer of the monad `M`: a `none` result is a
    raised exception.
  * The Metropolis test of simulated annealing compares a random float with
    `exp(-delta/temperature)`; this is modelled with `Real.exp` and a
    classical decision, the only noncomputable point of the model.
-/

/-- Real square root of 2, the constant hard-coded in the latency
normalization of `PlacementSolution.evaluate`. -/
noncomputable def sqrt2R : ℝ := Real.sqrt 2

/-- The computable field ℚ[√2]: `⟨a, b⟩` denotes `a + b·√2`.  Fitness values
computed by `evaluate` live here. -/
structure Q2 where
  a : ℚ
  b : ℚ
deriving DecidableEq, Repr

namespace Q2

/-- Embed a rational number. -/
def ofQ (q : ℚ) : Q2 := ⟨q, 0⟩

/-- The element √2. -/
def sqrt2 : Q2 := ⟨0, 1⟩

def add (x y : Q2) : Q2 := ⟨x.a + y.a, x.b + y.b⟩

def mul (x y : Q2) : Q2 := ⟨x.a * y.a + 2 * (x.b * y.b), x.a * y.b + x.b * y.a⟩

def neg (x : Q2) : Q2 := ⟨-x.a, -x.b⟩

def sub (x y : Q2) : Q2 := add x (neg y)

/-- Multiplicative inverse (conjugate trick); `inv 0 = 0`. -/
def inv (x : Q2) : Q2 :=
  ⟨x.a / (x.a ^ 2 - 2 * x.b ^ 2), -x.b / (x.a ^ 2 - 2 * x.b ^ 2)⟩

instance : Add Q2 := ⟨add⟩
instance : Mul Q2 := ⟨mul⟩
instance : Neg Q2 := ⟨neg⟩
instance : Sub Q2 := ⟨sub⟩
instance : Inv Q2 := ⟨inv⟩
instance : Div Q2 := ⟨fun x y => x * y⁻¹⟩
instance : Zero Q2 := ⟨⟨0, 0⟩⟩
instance : One Q2 := ⟨⟨1, 0⟩⟩

/-- Decidable strict order of ℚ[√2] (proved below to agree with the real
order): `x < y` iff `(x.a - y.a) < (y.b - x.b)·√2`. -/
def ltB (x y : Q2) : Bool :=
  if 0 ≤ x.a - y.a then
    decide (0 < y.b - x.b) && decide ((x.a - y.a) ^ 2 < 2 * (y.b - x.b) ^ 2)
  else
    decide (0 ≤ y.b - x.b) || decide (2 * (y.b - x.b) ^ 2 < (x.a - y.a) ^ 2)

/-- Interpretation into the real numbers. -/
noncomputable def toReal (x : Q2) : ℝ := (x.a : ℝ) + (x.b : ℝ) * sqrt2R

end Q2

/-- Fitness values as the code stores them: `none` is the float `inf`
assigned to infeasible solutions. -/
abbrev Fit := Option Q2

/-- Comparison `f < g` on fitness values, matching IEEE float comparison
with `inf` (`inf < inf` is false, `finite < inf` is true). -/
def fitLtB : Fit → Fit → Bool
  | some x, some y => Q2.ltB x y
  | some _, none => true
  | none, _ => false

/-- Propositional version of `fitLtB`, through the real interpretation. -/
def fitLtP : Fit → Fit → Prop
  | some x, some y => x.toReal < y.toReal
  | some _, none => True
  | none, _ => False

/-- Non-strict fitness order (again with `none` as `+∞`). -/
def fitLeP (x y : Fit) : Prop := ¬ fitLtP y x

/-
Data model (src/cloudlet_placement/problem.py).

Positions and the derived distance table:  `precompute_distances` fills a
dict with Euclidean distances and `get_distance` reads it with a `+inf`
default.  The table is input data for everything the claims are about, so
the problem carries the table directly as a function `dist`; `none` is the
`float("inf")` sentinel returned for unknown pairs.
-/

structure Device where
  id : Nat
  x : ℚ
  y : ℚ
  cpu_demand : ℚ
  memory_demand : ℚ
  storage_demand : ℚ
deriving DecidableEq, Repr

structure CloudletType where
  id : Nat
  cpu_capacity : ℚ
  memory_capacity : ℚ
  storage_capacity : ℚ
  coverage_radius : ℚ
  base_cost : ℚ
deriving DecidableEq, Repr

structure CandidatePoint where
  id : Nat
  x : ℚ
  y : ℚ
  placement_cost_factor : ℚ
deriving DecidableEq, Repr

structure Problem where
  devices : List Device
  candidate_points : List CandidatePoint
  cloudlet_types : List CloudletType
  dist : Nat → Nat → Option ℚ

/-- `get_distance(device_id, candidate_id)`: table lookup with the `inf`
(`none`) default. -/
def Problem.get_distance (P : Problem) (device_id candidate_id : Nat) : Option ℚ :=
  P.dist device_id candidate_id

/-- The source's `self.problem.cloudlet_types[i]` list indexing.  An
out-of-range index raises `IndexError` in Python while this lookup is
total; every theorem whose truth would differ on the out-of-range paths
(in particular the exception-freedom claim) carries the hypothesis that
each type id is a valid index, under which the default is never
produced. -/
def typeIdx (P : Problem) (i : Nat) : CloudletType :=
  P.cloudlet_types.getD i ⟨0, 0, 0, 0, 0, 0⟩

/-- The source's `next(c for c in self.problem.candidate_points if c.id ==
candidate_id)`; `StopIteration` for an absent id is likewise excluded by
well-formedness hypotheses. -/
def siteFind (P : Problem) (cid : Nat) : CandidatePoint :=
  (P.candidate_points.find? (fun c => c.id == cid)).getD ⟨0, 0, 0, 0⟩

/-
Python dict operations on the two solution mappings.  A mapping is an
association list in insertion order.  `dget` mirrors `d.get(k)` with default
`None`, which conflates a missing key with a stored `None`; `dmem` mirrors
`k in d`; `dset` mirrors `d[k] = v` (update in place if the key exists,
append otherwise).
-/

def dget (m : List (Nat × Option Nat)) (k : Nat) : Option Nat :=
  match m.find? (fun p => p.1 == k) with
  | some p => p.2
  | none => none

def dmem (m : List (Nat × Option Nat)) (k : Nat) : Bool :=
  (m.find? (fun p => p.1 == k)).isSome

def dset (m : List (Nat × Option Nat)) (k : Nat) (v : Option Nat) :
    List (Nat × Option Nat) :=
  if dmem m k then m.map (fun p => if p.1 == k then (p.1, v) else p)
  else m ++ [(k, v)]

/-
Candidate solution (src/cloudlet_placement/solution.py, PlacementSolution).
Python mutates the object in place; the model passes the record.  The
`fitness` field is `Option Q2`: `none` is the `float("inf")` stored for
infeasible solutions.
-/

structure Sol where
  placement_map : List (Nat × Option Nat)
  assignment_map : List (Nat × Option Nat)
  total_cost : ℚ
  total_latency : ℚ
  fitness : Fit
  is_feasible : Bool
deriving DecidableEq, Repr

/-- `PlacementSolution.__init__`. -/
def newSolution (P : Problem) : Sol :=
  { placement_map := P.candidate_points.map (fun c => (c.id, none))
    assignment_map := P.devices.map (fun d => (d.id, none))
    total_cost := 0
    total_latency := 0
    fitness := some (Q2.ofQ 0)
    is_feasible := false }

/-- `PlacementSolution.clone`: copies both mappings and the derived
fields. -/
def Sol.clone (s : Sol) : Sol :=
  { placement_map := s.placement_map
    assignment_map := s.assignment_map
    total_cost := s.total_cost
    total_latency := s.total_latency
    fitness := s.fitness
    is_feasible := s.is_feasible }

/-- `PlacementSolution.place_cloudlet`. -/
def place_cloudlet (s : Sol) (candidate_id cloudlet_type_id : Nat) : Sol :=
  if dmem s.placement_map candidate_id then
    { s with placement_map := dset s.placement_map candidate_id (some cloudlet_type_id) }
  else s

/-- `PlacementSolution.remove_cloudlet`: clears the placement and cascades
the unassignment of every device served by the site. -/
def remove_cloudlet (s : Sol) (candidate_id : Nat) : Sol :=
  if dmem s.placement_map candidate_id then
    { s with
      placement_map := dset s.placement_map candidate_id none
      assignment_map := s.assignment_map.map
        (fun p => if p.2 == some candidate_id then (p.1, none) else p) }
  else s

/-- `PlacementSolution.assign_device`: effective only when the target site
currently holds a placement; note the device id itself is not validated, so
`assignment_map[device_id] = candidate_id` inserts a fresh key when the id
is unknown. -/
def assign_device (s : Sol) (device_id candidate_id : Nat) : Sol :=
  if dmem s.placement_map candidate_id && (dget s.placement_map candidate_id).isSome then
    { s with assignment_map := dset s.assignment_map device_id (some candidate_id) }
  else s

/-- `PlacementSolution.get_devices_assigned_to`. -/
def get_devices_assigned_to (P : Problem) (s : Sol) (candidate_id : Nat) :
    List Device :=
  let ids := (s.assignment_map.filter (fun p => p.2 == some candidate_id)).map (·.1)
  P.devices.filter (fun d => d.id ∈ ids)

/-- Per-device feasibility checks of the evaluator's device loop: the
device is assigned, the target site is occupied, and the serving distance
is within the coverage radius of the placed type. -/
def devOkB (P : Problem) (s : Sol) (d : Device) : Bool :=
  match dget s.assignment_map d.id with
  | none => false
  | some cid =>
    match dget s.placement_map cid with
    | none => false
    | some tid =>
      match P.get_distance d.id cid with
      | none => false
      | some q => decide (q ≤ (typeIdx P tid).coverage_radius)

/-- Resource-usage accumulation entry update of the device loop. -/
def uAdd (usage : List (Nat × ℚ × ℚ × ℚ)) (cid : Nat) (d : Device) :
    List (Nat × ℚ × ℚ × ℚ) :=
  usage.map (fun e =>
    if e.1 == cid then
      (e.1, e.2.1 + d.cpu_demand, e.2.2.1 + d.memory_demand, e.2.2.2 + d.storage_demand)
    else e)

/-- One iteration of the evaluator's device loop (lines 62-82 of
solution.py): flag updates, demand accumulation and latency accumulation.
A device violating one of the checks flips the flag and is skipped
(`continue`), so it contributes neither usage nor latency. -/
def evalStep (P : Problem) (s : Sol) (st : Bool × List (Nat × ℚ × ℚ × ℚ) × ℚ)
    (d : Device) : Bool × List (Nat × ℚ × ℚ × ℚ) × ℚ :=
  match dget s.assignment_map d.id with
  | none => (false, st.2.1, st.2.2)
  | some cid =>
    match dget s.placement_map cid with
    | none => (false, st.2.1, st.2.2)
    | some tid =>
      match P.get_distance d.id cid with
      | none => (false, st.2.1, st.2.2)
      | some q =>
        if (typeIdx P tid).coverage_radius < q then (false, st.2.1, st.2.2)
        else (st.1, uAdd st.2.1 cid d, st.2.2 + q)

/-- Pass 1 of `evaluate` (lines 51-53): every assignment entry must name a
site whose placement lookup is not `None` (`dict.get` conflates a missing
site with an empty one). -/
def evalFeas1 (s : Sol) : Bool :=
  s.assignment_map.all
    (fun p => (p.2.bind (fun cid => dget s.placement_map cid)).isSome)

/-- The occupied sites with their placed types, in placement order (the
iteration domain of the cost pass and the keys of `resource_usage`). -/
def evalOcc (s : Sol) : List (Nat × Nat) :=
  s.placement_map.filterMap (fun p => p.2.map (fun tid => (p.1, tid)))

/-- Pass 2 of `evaluate` (lines 55-60): total deployment cost, the sum over
occupied sites of base cost times the site's cost factor. -/
def evalCost (P : Problem) (s : Sol) : ℚ :=
  (evalOcc s).foldl
    (fun acc p => acc + (typeIdx P p.2).base_cost * (siteFind P p.1).placement_cost_factor) 0

/-- Pass 3 of `evaluate`: the device loop folded over the scenario's
devices, starting from pass 1's flag, zeroed usage entries for the occupied
sites, and zero latency. -/
def evalR3 (P : Problem) (s : Sol) : Bool × List (Nat × ℚ × ℚ × ℚ) × ℚ :=
  P.devices.foldl (evalStep P s)
    (evalFeas1 s, (evalOcc s).map (fun p => (p.1, 0, 0, 0)), 0)

/-- Pass 4 of `evaluate` (lines 84-91): one resource-usage entry respects
the three capacities of the type placed at its site. -/
def capEntryOk (P : Problem) (s : Sol) (e : Nat × ℚ × ℚ × ℚ) : Bool :=
  match dget s.placement_map e.1 with
  | some tid =>
    !(decide ((typeIdx P tid).cpu_capacity < e.2.1)
      || decide ((typeIdx P tid).memory_capacity < e.2.2.1)
      || decide ((typeIdx P tid).storage_capacity < e.2.2.2))
  | none => true

/-- The final feasibility flag of `evaluate`: the device-loop flag, the
capacity pass, and the `None in assignment_map.values()` check (lines
93-94). -/
def evalFeas5 (P : Problem) (s : Sol) : Bool :=
  ((evalR3 P s).1 && (evalR3 P s).2.1.all (capEntryOk P s))
    && !(s.assignment_map.any (fun p => p.2 == none))

/-- `sum(ct.base_cost * 1.2 for ct in self.problem.cloudlet_types)`: the
hard-coded cost normalizer (line 97). -/
def maxPossibleCost (P : Problem) : ℚ :=
  P.cloudlet_types.foldl (fun acc ct => acc + ct.base_cost * (6 / 5)) 0

/-- `PlacementSolution.evaluate(alpha)`: recomputes cost, latency, the
feasibility flag and the fitness from the two mappings.  Mirrors the five
passes of the source; the final fitness is `alpha·cost/maxCost +
(1-alpha)·latency/(n·1000·√2)` when feasible (line 98 hard-codes the
latency normalizer `len(devices) * 1000 * math.sqrt(2)`) and `inf`
(`none`) otherwise.  The two divisions are the field's total divisions:
the source instead raises `ZeroDivisionError` when a normalizer is zero
(an empty device list, or all base costs zero), so every theorem whose
truth would differ on those paths carries nonzero-normalizer
hypotheses. -/
def evaluate (P : Problem) (s : Sol) (alpha : ℚ) : Sol :=
  { s with
    total_cost := evalCost P s
    total_latency := (evalR3 P s).2.2
    fitness :=
      if evalFeas5 P s then
        some (Q2.ofQ alpha * (Q2.ofQ (evalCost P s) / Q2.ofQ (maxPossibleCost P))
          + (Q2.ofQ 1 - Q2.ofQ alpha)
            * (Q2.ofQ (evalR3 P s).2.2
              / (Q2.ofQ ((P.devices.length : ℚ) * 1000) * Q2.sqrt2)))
      else none
    is_feasible := evalFeas5 P s }

/-- The site a device's demands are accumulated at by the device loop:
its assigned site when every check passes, none otherwise. -/
def devTarget (P : Problem) (s : Sol) (d : Device) : Option Nat :=
  if devOkB P s d then dget s.assignment_map d.id else none

/-- Cpu demand accumulated at a site by the device loop over `ds`. -/
def cSum (P : Problem) (s : Sol) (ds : List Device) (cid : Nat) : ℚ :=
  ((ds.filter (fun d => devTarget P s d == some cid)).map (·.cpu_demand)).sum

/-- Memory demand accumulated at a site by the device loop over `ds`. -/
def mSum (P : Problem) (s : Sol) (ds : List Device) (cid : Nat) : ℚ :=
  ((ds.filter (fun d => devTarget P s d == some cid)).map (·.memory_demand)).sum

/-- Storage demand accumulated at a site by the device loop over `ds`. -/
def sSum (P : Problem) (s : Sol) (ds : List Device) (cid : Nat) : ℚ :=
  ((ds.filter (fun d => devTarget P s d == some cid)).map (·.storage_demand)).sum

/-
Spec-side predicates for the claims about the evaluator and repair, written
from the specification's wording (feasibility characterization, capacity
non-violation, and the normalized-fitness formula).
-/

/-- The claimed per-device feasibility condition: the device is assigned to
a site that holds a placed facility type, within its coverage radius. -/
def AssignedSiteOk (P : Problem) (s : Sol) (d : Device) : Prop :=
  ∃ cid tid q,
    dget s.assignment_map d.id = some cid ∧
    dget s.placement_map cid = some tid ∧
    P.get_distance d.id cid = some q ∧
    q ≤ (typeIdx P tid).coverage_radius

/-- Summed cpu demand of the devices assigned to a site. -/
def cpuLoad (P : Problem) (s : Sol) (cid : Nat) : ℚ :=
  ((P.devices.filter (fun d => dget s.assignment_map d.id == some cid)).map
    (fun d => d.cpu_demand)).sum

/-- Summed memory demand of the devices assigned to a site. -/
def memLoad (P : Problem) (s : Sol) (cid : Nat) : ℚ :=
  ((P.devices.filter (fun d => dget s.assignment_map d.id == some cid)).map
    (fun d => d.memory_demand)).sum

/-- Summed storage demand of the devices assigned to a site. -/
def storLoad (P : Problem) (s : Sol) (cid : Nat) : ℚ :=
  ((P.devices.filter (fun d => dget s.assignment_map d.id == some cid)).map
    (fun d => d.storage_demand)).sum

/-- The claimed capacity condition: no occupied site's aggregated demand
exceeds the three capacities of the facility type placed there. -/
def SiteCapOk (P : Problem) (s : Sol) : Prop :=
  ∀ p ∈ s.placement_map, ∀ tid, p.2 = some tid →
    cpuLoad P s p.1 ≤ (typeIdx P tid).cpu_capacity ∧
    memLoad P s p.1 ≤ (typeIdx P tid).memory_capacity ∧
    storLoad P s p.1 ≤ (typeIdx P tid).storage_capacity

/-- The feasibility characterization claimed for `evaluate`: every device
is assigned, assigned sites are occupied and within radius, and occupied
sites respect capacity. -/
def FeasibleSpec (P : Problem) (s : Sol) : Prop :=
  (∀ d ∈ P.devices, AssignedSiteOk P s d) ∧ SiteCapOk P s

/-- Well-formedness of a candidate solution's mappings relative to its
problem, as maintained by the constructor and all solution operations in
the genetic algorithm: the assignment keys are exactly the device ids and
the placement keys exactly the site ids, in declaration order. -/
def WFSol (P : Problem) (s : Sol) : Prop :=
  s.assignment_map.map (·.1) = P.devices.map (·.id) ∧
  s.placement_map.map (·.1) = P.candidate_points.map (·.id) ∧
  (P.devices.map (·.id)).Nodup ∧
  (P.candidate_points.map (·.id)).Nodup

/-- Modelled from the spec: the maximum site cost multiplier of the actual
scenario ("the sum of all facility types' base cost at maximum site
multiplier"). -/
def maxSiteMultiplier (P : Problem) : ℚ :=
  (P.candidate_points.map (·.placement_cost_factor)).foldl max 0

/-- Modelled from the spec: the scenario's bounding-box diagonal length
("compute the normalization bound from the actual scenario's bounding-box
diagonal"), over the coordinates of its devices and candidate sites. -/
noncomputable def scenarioDiagonal (P : Problem) : ℝ :=
  let xs := P.devices.map (·.x) ++ P.candidate_points.map (·.x)
  let ys := P.devices.map (·.y) ++ P.candidate_points.map (·.y)
  Real.sqrt (((xs.foldl max 0 - xs.foldl min 0 : ℚ) : ℝ) ^ 2
    + ((ys.foldl max 0 - ys.foldl min 0 : ℚ) : ℝ) ^ 2)

/-- Modelled from the spec: the claimed fitness formula of C2, with the
cost normalizer taken at the scenario's own maximum site multiplier and the
latency normalizer at the scenario's own diagonal. -/
noncomputable def specFitness (P : Problem) (s : Sol) (alpha : ℚ) : ℝ :=
  (alpha : ℝ) * ((s.total_cost : ℝ)
      / ((P.cloudlet_types.map (fun ct => ct.base_cost * maxSiteMultiplier P)).sum : ℝ))
    + (1 - (alpha : ℝ)) * ((s.total_latency : ℝ)
      / ((P.devices.length : ℝ) * scenarioDiagonal P))

/-
Hybrid genetic algorithm (src/cloudlet_placement/ga.py).

Randomness is an oracle `Orc` consumed through a counter; exceptions raised
by the Python RNG helpers (`random.sample` with a sample larger than the
population, `random.randint` on an empty range, `random.choice` on an empty
sequence) are the `none` results of the monad `M`.
-/

structure Orc where
  onat : Nat → Nat
  oq : Nat → ℚ

/-- State-and-exception monad threading the oracle counter; a `none` result
is a raised exception. -/
def M (α : Type) : Type := Nat → Option (α × Nat)

def mPure {α : Type} (a : α) : M α := fun n => some (a, n)

def mBind {α β : Type} (x : M α) (f : α → M β) : M β := fun n =>
  match x n with
  | none => none
  | some (a, n2) => f a n2

instance : Monad M where
  pure := mPure
  bind := mBind

/-- An exception (`ValueError`, `IndexError`, ...). -/
def mFail {α : Type} : M α := fun _ => none

/-- `random.random()`: the next float of the oracle's rational stream. -/
def randomM (g : Orc) : M ℚ := fun n => some (g.oq n, n + 1)

/-- `random.randint(lo, hi)` (both ends inclusive); raises on an empty
range. -/
def randintM (g : Orc) (lo hi : Nat) : M Nat := fun n =>
  if hi < lo then none else some (lo + g.onat n % (hi - lo + 1), n + 1)

/-- `random.choice(l)`; raises on an empty sequence. -/
def choiceM {α : Type} (g : Orc) (l : List α) : M α := fun n =>
  match l with
  | [] => none
  | x :: xs => some ((x :: xs).getD (g.onat n % (x :: xs).length) x, n + 1)

/-- Draw `k` distinct positions without replacement, oracle-driven. -/
def pickSeq {α : Type} (g : Orc) : Nat → List α → Nat → List α × Nat
  | 0, _, n => ([], n)
  | _ + 1, [], n => ([], n)
  | k + 1, x :: xs, n =>
    let i := g.onat n % (x :: xs).length
    let chosen := (x :: xs).getD i x
    let rest := (x :: xs).eraseIdx i
    let r := pickSeq g k rest (n + 1)
    (chosen :: r.1, r.2)

/-- `random.sample(l, k)`: `k` distinct elements; raises when `k` exceeds
the length. -/
def sampleM {α : Type} (g : Orc) (l : List α) (k : Nat) : M (List α) := fun n =>
  if l.length < k then none else some (pickSeq g k l n)

/-- `random.shuffle(l)` (as the permuted copy the caller iterates). -/
def shuffleM {α : Type} (g : Orc) (l : List α) : M (List α) := fun n =>
  some (pickSeq g l.length l n)

/-- Engine configuration (`HybridGeneticAlgorithm.__init__`). -/
structure GAConfig where
  population_size : Nat
  generations : Nat
  crossover_rate : ℚ
  mutation_rate : ℚ
  alpha : ℚ
  use_sa : Bool
deriving Repr

/-- Comparison of optional distances, `none` being `float("inf")`. -/
def optLtB : Option ℚ → Option ℚ → Bool
  | some a, some b => decide (a < b)
  | some _, none => true
  | none, _ => false

/-- Python's `min(candidates, key=distance)`: first element achieving the
minimal distance; `none` on the empty list (where Python would raise, every
call site guards non-emptiness). -/
def minByDist (P : Problem) (did : Nat) : List CandidatePoint → Option CandidatePoint
  | [] => none
  | c :: cs => some (cs.foldl (fun b c2 =>
      if optLtB (P.get_distance did c2.id) (P.get_distance did b.id) then c2 else b) c)

/-- Python's `min(solutions, key=fitness)`: first solution achieving the
minimal fitness. -/
def minByFit : List Sol → Option Sol
  | [] => none
  | x :: xs => some (xs.foldl (fun b y => if fitLtB y.fitness b.fitness then y else b) x)

/-- Python's `min(s.fitness for s in solutions)`. -/
def minFitVal : List Sol → Fit
  | [] => none
  | x :: xs => xs.foldl (fun b y => if fitLtB y.fitness b then y.fitness else b) x.fitness

/-- Insert into a fitness-sorted list, after existing elements of equal
fitness (stability). -/
def insFit (x : Sol) : List Sol → List Sol
  | [] => [x]
  | y :: ys => if fitLtB y.fitness x.fitness then y :: insFit x ys else x :: y :: ys

/-- Python's stable `sorted(solutions, key=fitness)`. -/
def sortFit : List Sol → List Sol
  | [] => []
  | x :: xs => insFit x (sortFit xs)

/-- The covered-and-occupied site filter of `create_random_solution`'s
greedy assignment pass (capacity deliberately ignored there). -/
def crsFeasibleSites (P : Problem) (s : Sol) (d : Device) : List CandidatePoint :=
  P.candidate_points.filter (fun c =>
    match dget s.placement_map c.id with
    | none => false
    | some tid =>
      match P.get_distance d.id c.id with
      | none => false
      | some q => decide (q ≤ (typeIdx P tid).coverage_radius))

/-- The site filter of `repair_solution`'s primary branch: occupied, within
radius, and with spare capacity in all three dimensions after adding the
device's demand to the currently assigned load. -/
def repairPrimary (P : Problem) (s : Sol) (d : Device) : List CandidatePoint :=
  (P.candidate_points.filter (fun c => (dget s.placement_map c.id).isSome)).filter
    (fun c =>
      match dget s.placement_map c.id with
      | none => false
      | some tid =>
        match P.get_distance d.id c.id with
        | none => false
        | some q =>
          decide (q ≤ (typeIdx P tid).coverage_radius) &&
          decide (((get_devices_assigned_to P s c.id).map (·.cpu_demand)).sum
              + d.cpu_demand ≤ (typeIdx P tid).cpu_capacity) &&
          decide (((get_devices_assigned_to P s c.id).map (·.memory_demand)).sum
              + d.memory_demand ≤ (typeIdx P tid).memory_capacity) &&
          decide (((get_devices_assigned_to P s c.id).map (·.storage_demand)).sum
              + d.storage_demand ≤ (typeIdx P tid).storage_capacity))

/-- The forced-placement fallback of `repair_solution` (lines 86-93): for
every still-unoccupied candidate site, the first facility type whose radius
covers the device is placed there and the device is (re)assigned there.
The `break` in the source leaves only the inner type loop, so the scan over
candidate sites continues and the device ends at the last such site. -/
def repairFallback (P : Problem) (d : Device) (s : Sol) : Sol :=
  P.candidate_points.foldl (fun s c =>
    if (dget s.placement_map c.id).isNone then
      match P.cloudlet_types.find? (fun ct =>
        match P.get_distance d.id c.id with
        | none => false
        | some q => decide (q ≤ ct.coverage_radius)) with
      | some ct => assign_device (place_cloudlet s c.id ct.id) d.id c.id
      | none => s
    else s) s

/-- `HybridGeneticAlgorithm.repair_solution`: greedily assign each
unassigned device to the nearest occupied site with radius and spare
capacity, falling back to forcing fresh placements; the result is
re-evaluated. -/
def repair_solution (P : Problem) (alpha : ℚ) (solution : Sol) : Sol :=
  let repaired := solution.clone
  let unassigned := P.devices.filter (fun d => (dget repaired.assignment_map d.id).isNone)
  let repaired := unassigned.foldl (fun s d =>
    match minByDist P d.id (repairPrimary P s d) with
    | some best => assign_device s d.id best.id
    | none => repairFallback P d s) repaired
  evaluate P repaired alpha

/-- `HybridGeneticAlgorithm.create_random_solution`. -/
def create_random_solution (P : Problem) (cfg : GAConfig) (g : Orc) : M Sol := do
  let s := newSolution P
  let num_cloudlets ← randintM g 1
    (min P.candidate_points.length (P.cloudlet_types.length * 2))
  let selected ← sampleM g P.candidate_points num_cloudlets
  let s ← selected.foldlM (fun s c => do
    let ct ← choiceM g P.cloudlet_types
    pure (place_cloudlet s c.id ct.id)) s
  let devs ← shuffleM g P.devices
  let s := devs.foldl (fun s d =>
    match minByDist P d.id (crsFeasibleSites P s d) with
    | some best => assign_device s d.id best.id
    | none => s) s
  let s := evaluate P s cfg.alpha
  pure (if s.is_feasible then s else repair_solution P cfg.alpha s)

/-- `HybridGeneticAlgorithm.tournament_selection`: `random.sample` raises
when the population is smaller than the tournament size. -/
def tournament_selection (g : Orc) (pop : List Sol) (tournament_size : Nat) : M Sol := do
  let t ← sampleM g pop tournament_size
  match minByFit t with
  | some s => pure s
  | none => mFail

/-- One device of `reassign_devices`' scan: nearest occupied site covering
the device whose accumulated usage plus the device's demand stays within
capacity. -/
def reassignStep (P : Problem) (s : Sol) (d : Device) : Sol :=
  let best := P.candidate_points.foldl (fun (b : Option Nat × Option ℚ) c =>
    match dget s.placement_map c.id with
    | none => b
    | some tid =>
      match P.get_distance d.id c.id with
      | none => b
      | some q =>
        if q ≤ (typeIdx P tid).coverage_radius then
          if ((get_devices_assigned_to P s c.id).map (·.cpu_demand)).sum
                + d.cpu_demand ≤ (typeIdx P tid).cpu_capacity
              ∧ ((get_devices_assigned_to P s c.id).map (·.memory_demand)).sum
                + d.memory_demand ≤ (typeIdx P tid).memory_capacity
              ∧ ((get_devices_assigned_to P s c.id).map (·.storage_demand)).sum
                + d.storage_demand ≤ (typeIdx P tid).storage_capacity then
            if optLtB (some q) b.2 then (some c.id, some q) else b
          else b
        else b) (none, none)
  match best.1 with
  | some cid => assign_device s d.id cid
  | none => s

/-- `HybridGeneticAlgorithm.reassign_devices`: clear every assignment, then
greedily reconnect the devices in declaration order. -/
def reassign_devices (P : Problem) (solution : Sol) : Sol :=
  let new_solution := solution.clone
  let new_solution := { new_solution with
    assignment_map := new_solution.assignment_map.map (fun p => (p.1, none)) }
  P.devices.foldl (fun s d => reassignStep P s d) new_solution

/-- `HybridGeneticAlgorithm.crossover`: two-point segment swap on the
placement gene, assignments rebuilt from scratch; children are clones when
the probability check fails, and are evaluated in every case. -/
def crossover (P : Problem) (cfg : GAConfig) (g : Orc) (parent1 parent2 : Sol) :
    M (Sol × Sol) := do
  let child1 := parent1.clone
  let child2 := parent2.clone
  let r ← randomM g
  let cpair ←
    if r < cfg.crossover_rate then
      let keys := parent1.placement_map.map (·.1)
      if 2 ≤ keys.length then do
        let p1 ← randintM g 0 (keys.length - 2)
        let p2 ← randintM g (p1 + 1) (keys.length - 1)
        let seg := (keys.drop p1).take (p2 - p1 + 1)
        let c1 := seg.foldl (fun s k =>
          { s with placement_map := dset s.placement_map k (dget parent2.placement_map k) }) child1
        let c2 := seg.foldl (fun s k =>
          { s with placement_map := dset s.placement_map k (dget parent1.placement_map k) }) child2
        pure (reassign_devices P c1, reassign_devices P c2)
      else pure (child1, child2)
    else pure (child1, child2)
  pure (evaluate P cpair.1 cfg.alpha, evaluate P cpair.2 cfg.alpha)

/-- The four mutation operators of `HybridGeneticAlgorithm.mutate`. -/
inductive MutKind
  | add
  | remove
  | change
  | swap
deriving DecidableEq, Repr

/-- `HybridGeneticAlgorithm.mutate`: with probability `mutation_rate`, one
of the four operators followed by a full greedy reassignment; the result is
evaluated in every case. -/
def mutate (P : Problem) (cfg : GAConfig) (g : Orc) (solution : Sol) : M Sol := do
  let mutated := solution.clone
  let r ← randomM g
  let mutated ←
    if r < cfg.mutation_rate then do
      let mt ← choiceM g [MutKind.add, MutKind.remove, MutKind.change, MutKind.swap]
      let mutated ←
        match mt with
        | MutKind.add => do
          let unused := P.candidate_points.filter
            (fun c => (dget mutated.placement_map c.id).isNone)
          if unused.isEmpty then pure mutated
          else do
            let c ← choiceM g unused
            let ct ← choiceM g P.cloudlet_types
            pure (place_cloudlet mutated c.id ct.id)
        | MutKind.remove => do
          let used := (mutated.placement_map.filter (fun p => p.2.isSome)).map (·.1)
          if used.isEmpty then pure mutated
          else do
            let cid ← choiceM g used
            pure (remove_cloudlet mutated cid)
        | MutKind.change => do
          let used := (mutated.placement_map.filter (fun p => p.2.isSome)).map (·.1)
          if used.isEmpty then pure mutated
          else do
            let cid ← choiceM g used
            let avail := (P.cloudlet_types.filter
              (fun ct => !((some ct.id : Option Nat) == dget mutated.placement_map cid))).map (·.id)
            if avail.isEmpty then pure mutated
            else do
              let tid ← choiceM g avail
              pure (place_cloudlet mutated cid tid)
        | MutKind.swap => do
          let used := (mutated.placement_map.filter (fun p => p.2.isSome)).map (·.1)
          if used.length < 2 then pure mutated
          else do
            let pair ← sampleM g used 2
            match pair with
            | [c1, c2] =>
              let t1 := dget mutated.placement_map c1
              let t2 := dget mutated.placement_map c2
              pure { mutated with
                placement_map := dset (dset mutated.placement_map c1 t2) c2 t1 }
            | _ => mFail
      pure (reassign_devices P mutated)
    else pure mutated
  pure (evaluate P mutated cfg.alpha)

/-- The Metropolis acceptance test `random.random() <
math.exp(-delta/temperature)` of the simulated-annealing walk.  The `none`
cases mirror the float semantics: an infeasible neighbor gives `delta =
inf`, `exp(-inf) = 0` and no acceptance (both infinite: `delta = nan`,
comparison false); a finite neighbor against an infinite current fitness is
unreachable (the improving branch catches it) and would accept. -/
noncomputable def metAccept (r : ℚ) (nf cf : Fit) (temperature : ℚ) : Bool :=
  match nf, cf with
  | some n, some c =>
    @decide ((r : ℝ) < Real.exp (-(n.toReal - c.toReal) / (temperature : ℝ)))
      (Classical.propDecidable _)
  | none, _ => false
  | some _, none => true

/-- One local step of the simulated-annealing walk: mutate, accept an
improving neighbor unconditionally, otherwise accept with the Metropolis
probability. -/
noncomputable def saStep (P : Problem) (cfg : GAConfig) (g : Orc) (temperature : ℚ)
    (current : Sol) : M Sol := do
  let neighbor ← mutate P cfg g current
  if fitLtB neighbor.fitness current.fitness then pure neighbor
  else do
    let r ← randomM g
    if metAccept r neighbor.fitness current.fitness temperature then pure neighbor
    else pure current

/-- `HybridGeneticAlgorithm.simulated_annealing_improvement`: the input
itself when disabled or below the temperature threshold, otherwise the
state of the 5-step Metropolis walk started from a clone. -/
noncomputable def simulated_annealing_improvement (P : Problem) (cfg : GAConfig)
    (g : Orc) (solution : Sol) (temperature : ℚ) : M Sol :=
  if !cfg.use_sa || decide (temperature < 1 / 10) then pure solution
  else (List.range 5).foldlM (fun cur _ => saStep P cfg g temperature cur) solution.clone

/-- `HybridGeneticAlgorithm.update_best_solution`: replace the incumbent by
a defensive copy of the generation's first-minimal feasible member when it
strictly improves (or when no incumbent exists). -/
def update_best_solution (pop : List Sol) (best : Option Sol) : Option Sol :=
  match minByFit (pop.filter (·.is_feasible)) with
  | none => best
  | some current_best =>
    match best with
    | none => some current_best.clone
    | some b =>
      if fitLtB current_best.fitness b.fitness then some current_best.clone else best

/-- Engine state across generations: population, incumbent, and the three
history series (`none` entries are the `float("inf")` sentinel). -/
structure GAState where
  population : List Sol
  best_solution : Option Sol
  fitness_history : List Fit
  cost_history : List (Option ℚ)
  latency_history : List (Option ℚ)
deriving DecidableEq, Repr

/-- The child-production `while` loop of `evolve` (lines 212-225): each
iteration appends exactly two children, so the loop terminates. -/
noncomputable def buildLoop (P : Problem) (cfg : GAConfig) (g : Orc) (pop : List Sol)
    (temperature : ℚ) (new_population : List Sol) : M (List Sol) :=
  if h : cfg.population_size ≤ new_population.length then pure new_population
  else do
    let p1 ← tournament_selection g pop 3
    let p2 ← tournament_selection g pop 3
    let cpair ← crossover P cfg g p1 p2
    let c1 ← mutate P cfg g cpair.1
    let c2 ← mutate P cfg g cpair.2
    let cpair2 ←
      if cfg.use_sa then do
        let c1s ← simulated_annealing_improvement P cfg g c1 temperature
        let c2s ← simulated_annealing_improvement P cfg g c2 temperature
        pure (c1s, c2s)
      else pure (c1, c2)
    let c1r := if cpair2.1.is_feasible then cpair2.1 else repair_solution P cfg.alpha cpair2.1
    let c2r := if cpair2.2.is_feasible then cpair2.2 else repair_solution P cfg.alpha cpair2.2
    buildLoop P cfg g pop temperature (new_population ++ [c1r, c2r])
termination_by cfg.population_size - new_population.length
decreasing_by
  simp only [List.length_append, List.length_cons, List.length_nil]
  omega

/-- History recording against the already-truncated population and
already-updated incumbent (lines 228-238): the feasible branch appends the
generation's best feasible fitness always, but cost and latency only under
`if self.best_solution:` (then from the incumbent, not from the
generation's best individual). -/
def genRecordCore (st : GAState) (population : List Sol) (best : Option Sol) : GAState :=
  if (population.filter (·.is_feasible)).isEmpty then
    { population := population, best_solution := best
      fitness_history := st.fitness_history ++ [none]
      cost_history := st.cost_history ++ [none]
      latency_history := st.latency_history ++ [none] }
  else
    match best with
    | some b =>
      { population := population, best_solution := best
        fitness_history :=
          st.fitness_history ++ [minFitVal (population.filter (·.is_feasible))]
        cost_history := st.cost_history ++ [some b.total_cost]
        latency_history := st.latency_history ++ [some b.total_latency] }
    | none =>
      { population := population, best_solution := best
        fitness_history :=
          st.fitness_history ++ [minFitVal (population.filter (·.is_feasible))]
        cost_history := st.cost_history
        latency_history := st.latency_history }

/-- The deterministic tail of one generation of `evolve` (lines 226-238):
truncation of the produced population, incumbent update, and history
recording. -/
def genRecord (cfg : GAConfig) (st : GAState) (new_population : List Sol) : GAState :=
  genRecordCore st (new_population.take cfg.population_size)
    (update_best_solution (new_population.take cfg.population_size) st.best_solution)

/-- One generation of `evolve` (lines 206-238): elitism, child production,
then the deterministic recording tail `genRecord`. -/
noncomputable def genStep (P : Problem) (cfg : GAConfig) (g : Orc) (generation : Nat)
    (st : GAState) : M GAState := do
  let temperature : ℚ := 1 - (generation : ℚ) / (cfg.generations : ℚ)
  let elite_size := max 2 (cfg.population_size / 10)
  let sorted_pop := sortFit (st.population.filter (·.is_feasible))
  let new_population ← buildLoop P cfg g st.population temperature (sorted_pop.take elite_size)
  pure (genRecord cfg st new_population)

/-- `HybridGeneticAlgorithm.initialize_population`. -/
def initialize_population (P : Problem) (cfg : GAConfig) (g : Orc) : M GAState := do
  let pop ← (List.range cfg.population_size).foldlM (fun acc _ => do
    let s ← create_random_solution P cfg g
    pure (acc ++ [s])) ([] : List Sol)
  pure { population := pop, best_solution := update_best_solution pop none
         fitness_history := [], cost_history := [], latency_history := [] }

/-- `evolve` truncated after `k` generations (used to name the state each
history entry was recorded from). -/
noncomputable def evolvePre (P : Problem) (cfg : GAConfig) (g : Orc) (k : Nat) :
    M GAState := do
  let st ← initialize_population P cfg g
  (List.range k).foldlM (fun st gen => genStep P cfg g gen st) st

/-- `HybridGeneticAlgorithm.evolve`: the full generational loop; the final
state carries the tracked incumbent and the three history series. -/
noncomputable def evolve (P : Problem) (cfg : GAConfig) (g : Orc) : M GAState :=
  evolvePre P cfg g cfg.generations

/-
Concrete instances used by counterexamples and witnesses.
-/

/-- A solution whose assignment map knows only device id 5, over a
placement map whose site 0 is occupied. -/
def c8Sol : Sol :=
  { placement_map := [(0, some 0), (2, none)]
    assignment_map := [(5, none)]
    total_cost := 0
    total_latency := 0
    fitness := some (Q2.ofQ 0)
    is_feasible := false }

/-- The facility type of the witness scenario. -/
def w1Type : CloudletType := ⟨0, 10, 10, 10, 15, 100⟩

/-- Witness scenario: one device at distance 10 from the single candidate
site, covered by the single facility type. -/
def w1P : Problem :=
  { devices := [⟨0, 0, 0, 1, 1, 1⟩]
    candidate_points := [⟨0, 10, 0, 1⟩]
    cloudlet_types := [w1Type]
    dist := fun d c => if d = 0 ∧ c = 0 then some 10 else none }

/-- Witness solution: the facility placed at the site, the device assigned
there. -/
def w1Sol : Sol :=
  { placement_map := [(0, some 0)]
    assignment_map := [(0, some 0)]
    total_cost := 0
    total_latency := 0
    fitness := some (Q2.ofQ 0)
    is_feasible := false }

/-- Counterexample scenario for the fitness normalizers: its single site's
cost multiplier is 2, larger than the hard-coded 1.2, so the scenario's
maximum site multiplier differs from the constant used by `evaluate`. -/
def c2P : Problem :=
  { devices := [⟨0, 0, 0, 1, 1, 1⟩]
    candidate_points := [⟨0, 5, 0, 2⟩]
    cloudlet_types := [⟨0, 10, 10, 10, 10, 100⟩]
    dist := fun d c => if d = 0 ∧ c = 0 then some 5 else none }

/-- A feasible solution of `c2P`. -/
def c2Sol : Sol :=
  { placement_map := [(0, some 0)]
    assignment_map := [(0, some 0)]
    total_cost := 0
    total_latency := 0
    fitness := some (Q2.ofQ 0)
    is_feasible := false }

/-- An oracle whose streams are constantly zero. -/
def g7 : Orc := { onat := fun _ => 0, oq := fun _ => 0 }

/-- A configuration with both stochastic-operator rates zero. -/
def cfg7 : GAConfig :=
  { population_size := 1
    generations := 1
    crossover_rate := 0
    mutation_rate := 0
    alpha := 1 / 2
    use_sa := false }

/-- The witness solution with its derived fields consistent with its own
evaluation. -/
def s7 : Sol := evaluate w1P w1Sol (1 / 2)

/-- Generic aggregated demand of the devices assigned to a site, for a
demand dimension `f`. -/
def siteLoadF (P : Problem) (am : List (Nat × Option Nat)) (f : Device → ℚ)
    (cid : Nat) : ℚ :=
  ((P.devices.filter (fun d => dget am d.id == some cid)).map f).sum

/-- The invariant repair maintains: well-formed mapping keys, assignments
only to occupied sites, and no occupied site over capacity. -/
def RepairInv (P : Problem) (s : Sol) : Prop :=
  s.assignment_map.map (·.1) = P.devices.map (·.id) ∧
  s.placement_map.map (·.1) = P.candidate_points.map (·.id) ∧
  (∀ p ∈ s.assignment_map, ∀ cid, p.2 = some cid →
    (dget s.placement_map cid).isSome = true) ∧
  SiteCapOk P s

/-- Counterexample scenario (pre-existing violation): two devices of cpu
demand 1 each, a single site, a type of cpu capacity 1. -/
def c4aP : Problem :=
  { devices := [⟨0, 0, 0, 1, 0, 0⟩, ⟨1, 0, 0, 1, 0, 0⟩]
    candidate_points := [⟨0, 1, 0, 1⟩]
    cloudlet_types := [⟨0, 1, 10, 10, 10, 1⟩]
    dist := fun _ c => if c = 0 then some 1 else none }

/-- Both devices already assigned to the single site: its cpu load 2
exceeds the capacity 1, and repair has no unassigned device to process. -/
def c4aSol : Sol :=
  { placement_map := [(0, some 0)]
    assignment_map := [(0, some 0), (1, some 0)]
    total_cost := 0
    total_latency := 0
    fitness := some (Q2.ofQ 0)
    is_feasible := false }

/-- Counterexample scenario (fallback overflow): one device whose cpu
demand 10 exceeds the single type's cpu capacity 1. -/
def c4bP : Problem :=
  { devices := [⟨0, 0, 0, 10, 0, 0⟩]
    candidate_points := [⟨0, 1, 0, 1⟩]
    cloudlet_types := [⟨0, 1, 10, 10, 10, 1⟩]
    dist := fun _ c => if c = 0 then some 1 else none }

/-- The empty starting solution of `c4bP`: repair's fallback force-places
the type and force-assigns the oversized device. -/
def c4bSol : Sol :=
  { placement_map := [(0, none)]
    assignment_map := [(0, none)]
    total_cost := 0
    total_latency := 0
    fitness := some (Q2.ofQ 0)
    is_feasible := false }

/-- Counterexample scenario for the SA walk: one device, one site, a cheap
facility type (base cost 100) and an expensive one (base cost 300); with
alpha = 1 the fitness is the normalized placement cost. -/
def c5P : Problem :=
  { devices := [⟨0, 0, 0, 1, 1, 1⟩]
    candidate_points := [⟨0, 1, 0, 1⟩]
    cloudlet_types := [⟨0, 10, 10, 10, 10, 100⟩, ⟨1, 10, 10, 10, 10, 300⟩]
    dist := fun _ c => if c = 0 then some 1 else none }

/-- Scripted random streams of the counterexample walk: the float stream is
constantly 0 (every mutation fires, every Metropolis draw is 0); the index
stream selects the change mutation twice (indices 1 and 5) and the remove
mutation three times (indices 10, 14 and 18). -/
def c5g : Orc :=
  { onat := fun n => if n = 1 ∨ n = 5 then 2 else if n = 10 ∨ n = 14 ∨ n = 18 then 1 else 0
    oq := fun _ => 0 }

/-- SA enabled, mutation always fires, pure cost objective. -/
def c5cfg : GAConfig :=
  { population_size := 1, generations := 1, crossover_rate := 0, mutation_rate := 1,
    alpha := 1, use_sa := true }

/-- The same configuration with SA disabled. -/
def c5cfgOff : GAConfig := { c5cfg with use_sa := false }

/-- Start of the walk before evaluation: the expensive type placed at the
single site, the device assigned there. -/
def c5raw : Sol :=
  { placement_map := [(0, some 1)], assignment_map := [(0, some 0)],
    total_cost := 0, total_latency := 0, fitness := some (Q2.ofQ 0), is_feasible := false }

/-- Evaluated start of the walk (stored fitness consistent with the maps). -/
def c5s0 : Sol := evaluate c5P c5raw 1

/-- Maps after the first mutation (change to the cheap type). -/
def c5m1 : Sol := { c5s0 with placement_map := [(0, some 0)], assignment_map := [(0, some 0)] }

/-- First neighbor of the walk: cheap and feasible, strictly improving. -/
def c5n1 : Sol := evaluate c5P c5m1 1

/-- Maps after the second mutation (change back to the expensive type). -/
def c5m2 : Sol := { c5n1 with placement_map := [(0, some 1)], assignment_map := [(0, some 0)] }

/-- Second neighbor: expensive again, strictly worse, Metropolis-accepted
with draw 0. -/
def c5n2 : Sol := evaluate c5P c5m2 1

/-- Maps after a remove mutation: nothing placed, the device unassigned. -/
def c5m3 : Sol := { c5n2 with placement_map := [(0, none)], assignment_map := [(0, none)] }

/-- The infeasible neighbor of the last three steps, always rejected. -/
def c5n3 : Sol := evaluate c5P c5m3 1

/-- One iteration of `repair_solution`'s loop over an unassigned device:
the nearest feasible occupied site when one exists, otherwise the
forced-placement fallback. -/
def repairStep (P : Problem) (s : Sol) (d : Device) : Sol :=
  match minByDist P d.id (repairPrimary P s d) with
  | some best => assign_device s d.id best.id
  | none => repairFallback P d s

/-- Totality of an oracle computation: no exception from any counter. -/
def MTotal {α : Type} (x : M α) : Prop := ∀ n, ∃ r, x n = some r

/-- Counterexample scenario for `evolve`'s totality: the single device sits
at distance 5 from the single site, outside the type's coverage radius 1,
so every random solution is infeasible and repair cannot help. -/
def c9P : Problem :=
  { devices := [⟨0, 0, 0, 1, 1, 1⟩]
    candidate_points := [⟨0, 5, 0, 1⟩]
    cloudlet_types := [⟨0, 10, 10, 10, 1, 100⟩]
    dist := fun _ c => if c = 0 then some 5 else none }

/-- A configuration satisfying the claimed contract (positive sizes, rates
and alpha in [0,1]) whose population of 1 is smaller than the tournament
sample of 3. -/
def c9cfg : GAConfig :=
  { population_size := 1, generations := 1, crossover_rate := 0, mutation_rate := 0,
    alpha := 1, use_sa := false }

/-- The random solution built by `create_random_solution` on `c9P` before
its final evaluation: the type placed, the device unassignable. -/
def c9built : Sol :=
  { placement_map := [(0, some 0)], assignment_map := [(0, none)],
    total_cost := 0, total_latency := 0, fitness := some (Q2.ofQ 0), is_feasible := false }

/-- The (infeasible) member of the initial population of the `c9P` run. -/
def c9s : Sol := repair_solution c9P 1 (evaluate c9P c9built 1)

/-- A population size 3 configuration for the totality witness. -/
def cfg93 : GAConfig :=
  { population_size := 3, generations := 1, crossover_rate := 1, mutation_rate := 1,
    alpha := 1 / 2, use_sa := true }

/-- The state after initializing the one-member witness population. -/
def c3st0 : GAState :=
  { population := [s7], best_solution := some s7,
    fitness_history := [], cost_history := [], latency_history := [] }

/-- The state after the single witness generation. -/
def c3st1 : GAState := genRecord cfg7 c3st0 [s7]

/-
Object store for the aliasing claims (C10).  Python solutions are heap
objects; a reference is an index into a store of `Sol` cells, and an
allocation appends a cell.  Modelled from the source's object graph: each
operator begins with `solution.clone()` (a fresh `PlacementSolution`) and
mutates only objects it itself created, so the value it returns lives in a
fresh cell and every pre-existing cell keeps its value; the one exception
is `simulated_annealing_improvement`, whose guard `if not self.use_sa or
temperature < 0.1: return solution` passes the input reference through.
-/

/-- Read a store cell. -/
def sget (sigma : List Sol) (r : Nat) : Sol :=
  sigma.getD r
    { placement_map := [], assignment_map := [], total_cost := 0, total_latency := 0,
      fitness := none, is_feasible := false }

/-- `crossover` on the store: reads the two parents, allocates the two
children. -/
def crossoverH (P : Problem) (cfg : GAConfig) (g : Orc) (sigma : List Sol)
    (r1 r2 : Nat) : M (List Sol × Nat × Nat) := fun n =>
  match crossover P cfg g (sget sigma r1) (sget sigma r2) n with
  | none => none
  | some ((c1, c2), n2) => some ((sigma ++ [c1, c2], sigma.length, sigma.length + 1), n2)

/-- `mutate` on the store: reads the input, allocates the mutant. -/
def mutateH (P : Problem) (cfg : GAConfig) (g : Orc) (sigma : List Sol) (r : Nat) :
    M (List Sol × Nat) := fun n =>
  match mutate P cfg g (sget sigma r) n with
  | none => none
  | some (v, n2) => some ((sigma ++ [v], sigma.length), n2)

/-- `repair_solution` on the store (deterministic). -/
def repairH (P : Problem) (alpha : ℚ) (sigma : List Sol) (r : Nat) : List Sol × Nat :=
  (sigma ++ [repair_solution P alpha (sget sigma r)], sigma.length)

/-- `reassign_devices` on the store (deterministic). -/
def reassignH (P : Problem) (sigma : List Sol) (r : Nat) : List Sol × Nat :=
  (sigma ++ [reassign_devices P (sget sigma r)], sigma.length)

/-- `simulated_annealing_improvement` on the store: the early return hands
back the input reference itself; the active walk allocates its result. -/
noncomputable def saH (P : Problem) (cfg : GAConfig) (g : Orc) (sigma : List Sol) (r : Nat)
    (temperature : ℚ) : M (List Sol × Nat) := fun n =>
  if !cfg.use_sa || decide (temperature < 1 / 10) then some ((sigma, r), n)
  else
    match simulated_annealing_improvement P cfg g (sget sigma r) temperature n with
    | none => none
    | some (v, n2) => some ((sigma ++ [v], sigma.length), n2)

theorem sqrt2R_pos : 0 < sqrt2R := Real.sqrt_pos.mpr (by norm_num)

theorem sqrt2R_sq : sqrt2R ^ 2 = 2 := Real.sq_sqrt (by norm_num)

theorem sqrt2R_mul_self : sqrt2R * sqrt2R = 2 := by
  have h := sqrt2R_sq
  nlinarith [h]

namespace Q2

theorem toReal_mk (a b : ℚ) : toReal ⟨a, b⟩ = (a : ℝ) + (b : ℝ) * sqrt2R := rfl

theorem toReal_ofQ (q : ℚ) : toReal (ofQ q) = (q : ℝ) := by
  simp [ofQ, toReal]

theorem toReal_sqrt2 : toReal sqrt2 = sqrt2R := by
  simp [sqrt2, toReal]

theorem toReal_zero : toReal 0 = 0 := by
  show toReal ⟨0, 0⟩ = 0
  simp [toReal]

theorem toReal_one : toReal 1 = 1 := by
  show toReal ⟨1, 0⟩ = 1
  simp [toReal]

theorem toReal_add (x y : Q2) : toReal (x + y) = toReal x + toReal y := by
  show toReal (add x y) = _
  simp only [add, toReal]
  push_cast
  ring

theorem toReal_neg (x : Q2) : toReal (-x) = -toReal x := by
  show toReal (neg x) = _
  simp only [neg, toReal]
  push_cast
  ring

theorem toReal_sub (x y : Q2) : toReal (x - y) = toReal x - toReal y := by
  show toReal (sub x y) = _
  simp only [sub, add, neg, toReal]
  push_cast
  ring

theorem toReal_mul (x y : Q2) : toReal (x * y) = toReal x * toReal y := by
  show toReal (mul x y) = _
  simp only [mul, toReal]
  push_cast
  linear_combination (-(x.b : ℝ) * (y.b : ℝ)) * sqrt2R_mul_self

/-- Linear independence of 1 and √2 over ℚ. -/
theorem eq_zero_of_toReal_eq_zero (x : Q2) (h : toReal x = 0) : x = 0 := by
  rcases x with ⟨a, b⟩
  simp only [toReal] at h
  by_cases hb : b = 0
  · subst hb
    simp at h
    have ha : a = 0 := by exact_mod_cast h
    subst ha
    rfl
  · exfalso
    have hs : sqrt2R = ((-a / b : ℚ) : ℝ) := by
      have hbR : (b : ℝ) ≠ 0 := by exact_mod_cast hb
      push_cast
      field_simp
      linarith [h]
    exact irrational_sqrt_two ⟨(-a / b : ℚ), hs.symm⟩

theorem toReal_injective : Function.Injective toReal := by
  intro x y h
  have hz : toReal (x - y) = 0 := by rw [toReal_sub]; linarith
  have h0 := eq_zero_of_toReal_eq_zero _ hz
  rcases x with ⟨xa, xb⟩
  rcases y with ⟨ya, yb⟩
  have hsub : (⟨xa, xb⟩ - ⟨ya, yb⟩ : Q2) = ⟨xa - ya, xb - yb⟩ := by
    show sub _ _ = _
    simp only [sub, add, neg, mk.injEq]
    constructor <;> ring
  rw [hsub] at h0
  have ha := congrArg Q2.a h0
  have hb := congrArg Q2.b h0
  simp only at ha hb
  have h1 : xa = ya := by
    have : xa - ya = (0 : ℚ) := ha
    linarith
  have h2 : xb = yb := by
    have : xb - yb = (0 : ℚ) := hb
    linarith
  simp [h1, h2]

theorem toReal_ne_zero (x : Q2) (h : x ≠ 0) : toReal x ≠ 0 := by
  intro hc
  exact h (eq_zero_of_toReal_eq_zero x hc)

theorem denom_ne_zero (x : Q2) (h : x ≠ 0) : x.a ^ 2 - 2 * x.b ^ 2 ≠ 0 := by
  intro hc
  by_cases hb : x.b = 0
  · have h2 : x.a ^ 2 = 0 := by
      have := hc
      rw [hb] at this
      nlinarith [this]
    have ha : x.a = 0 := pow_eq_zero_iff (two_ne_zero) |>.mp h2
    apply h
    rcases x with ⟨a, b⟩
    simp only at ha hb
    subst ha
    subst hb
    rfl
  · have hQ : x.a ^ 2 = 2 * x.b ^ 2 := by linarith [hc]
    have hs : ((x.a / x.b : ℚ) : ℝ) ^ 2 = 2 := by
      have hbR : (x.b : ℝ) ≠ 0 := by exact_mod_cast hb
      have hR : (x.a : ℝ) ^ 2 = 2 * (x.b : ℝ) ^ 2 := by exact_mod_cast hQ
      push_cast
      field_simp
      linarith [hR]
    have habs : ((|x.a / x.b| : ℚ) : ℝ) = sqrt2R := by
      have h2 : ((|x.a / x.b| : ℚ) : ℝ) ^ 2 = 2 := by
        push_cast
        rw [sq_abs]
        push_cast at hs
        exact hs
      have hnn : (0 : ℝ) ≤ ((|x.a / x.b| : ℚ) : ℝ) := by positivity
      nlinarith [sqrt2R_sq, sqrt2R_pos, hnn, h2]
    exact irrational_sqrt_two ⟨|x.a / x.b|, habs⟩

theorem toReal_inv (x : Q2) (h : x ≠ 0) : toReal x⁻¹ = (toReal x)⁻¹ := by
  have hd : x.a ^ 2 - 2 * x.b ^ 2 ≠ 0 := denom_ne_zero x h
  have hdR : ((x.a : ℝ) ^ 2 - 2 * (x.b : ℝ) ^ 2) ≠ 0 := by
    intro hc
    apply hd
    have : ((x.a ^ 2 - 2 * x.b ^ 2 : ℚ) : ℝ) = 0 := by push_cast; linarith
    exact_mod_cast this
  have hmul : toReal x * toReal (inv x) = 1 := by
    have hexp : toReal (inv x) =
        ((x.a : ℝ) - (x.b : ℝ) * sqrt2R) / ((x.a : ℝ) ^ 2 - 2 * (x.b : ℝ) ^ 2) := by
      simp only [inv, toReal]
      push_cast
      ring
    rw [hexp]
    rw [mul_div_assoc', div_eq_one_iff_eq hdR]
    show ((x.a : ℝ) + (x.b : ℝ) * sqrt2R) * _ = _
    linear_combination (-(x.b : ℝ) ^ 2) * sqrt2R_mul_self
  exact (inv_eq_of_mul_eq_one_right hmul).symm

theorem toReal_div (x y : Q2) (h : y ≠ 0) : toReal (x / y) = toReal x / toReal y := by
  show toReal (x * y⁻¹) = _
  rw [toReal_mul, toReal_inv y h, div_eq_mul_inv]

theorem ltB_aux_pos (p q : ℝ) (hp : 0 ≤ p) :
    p < q * sqrt2R ↔ (0 < q ∧ p ^ 2 < 2 * q ^ 2) := by
  constructor
  · intro h
    have hq : 0 < q := by nlinarith [sqrt2R_pos, h, hp]
    refine ⟨hq, ?_⟩
    have h1 : (0 : ℝ) < q * sqrt2R - p := by linarith
    have h2 : (0 : ℝ) < q * sqrt2R + p := by linarith
    nlinarith [mul_pos h1 h2, sqrt2R_mul_self, sq_nonneg q]
  · rintro ⟨hq, hsq⟩
    have hqs : 0 ≤ q * sqrt2R := mul_nonneg hq.le sqrt2R_pos.le
    have hlt : p ^ 2 < (q * sqrt2R) ^ 2 := by nlinarith [hsq, sqrt2R_mul_self]
    exact lt_of_pow_lt_pow_left 2 hqs hlt

theorem ltB_aux_neg (p q : ℝ) (hp : p < 0) :
    p < q * sqrt2R ↔ (0 ≤ q ∨ 2 * q ^ 2 < p ^ 2) := by
  constructor
  · intro h
    by_cases hq : 0 ≤ q
    · exact Or.inl hq
    · right
      push_neg at hq
      have hsq : (q * sqrt2R) ^ 2 < (-p) ^ 2 := by
        apply sq_lt_sq'
        · linarith [h]
        · nlinarith [h, hq, sqrt2R_pos]
      nlinarith [hsq, sqrt2R_mul_self]
  · rintro (hq | hsq)
    · have : 0 ≤ q * sqrt2R := mul_nonneg hq sqrt2R_pos.le
      linarith
    · by_cases hq : 0 ≤ q
      · have : 0 ≤ q * sqrt2R := mul_nonneg hq sqrt2R_pos.le
        linarith
      · push_neg at hq
        have hqs : 0 ≤ -(q * sqrt2R) := by nlinarith [sqrt2R_pos]
        have hlt : (-(q * sqrt2R)) ^ 2 < (-p) ^ 2 := by
          nlinarith [hsq, sqrt2R_mul_self]
        have := lt_of_pow_lt_pow_left 2 (by linarith : (0 : ℝ) ≤ -p) hlt
        linarith

/-- The computable order of `Q2` agrees with the real order. -/
theorem ltB_iff (x y : Q2) : ltB x y = true ↔ toReal x < toReal y := by
  have hchar : toReal x < toReal y ↔
      ((x.a : ℝ) - y.a) < ((y.b : ℝ) - x.b) * sqrt2R := by
    simp only [toReal]
    constructor <;> intro h <;> nlinarith [h]
  rw [hchar]
  simp only [ltB]
  by_cases hp : (0 : ℚ) ≤ x.a - y.a
  · rw [if_pos hp]
    have hpR : (0 : ℝ) ≤ (x.a : ℝ) - y.a := by
      have : ((0 : ℚ) : ℝ) ≤ ((x.a - y.a : ℚ) : ℝ) := by exact_mod_cast hp
      push_cast at this
      linarith
    rw [ltB_aux_pos _ _ hpR]
    simp only [Bool.and_eq_true, decide_eq_true_eq]
    constructor
    · rintro ⟨h1, h2⟩
      constructor
      · have : ((0 : ℚ) : ℝ) < ((y.b - x.b : ℚ) : ℝ) := by exact_mod_cast h1
        push_cast at this
        linarith
      · have : (((x.a - y.a) ^ 2 : ℚ) : ℝ) < ((2 * (y.b - x.b) ^ 2 : ℚ) : ℝ) := by
          exact_mod_cast h2
        push_cast at this
        nlinarith [this]
    · rintro ⟨h1, h2⟩
      constructor
      · have hc : ((0 : ℚ) : ℝ) < ((y.b - x.b : ℚ) : ℝ) := by push_cast; linarith
        exact_mod_cast hc
      · have hc : (((x.a - y.a) ^ 2 : ℚ) : ℝ) < ((2 * (y.b - x.b) ^ 2 : ℚ) : ℝ) := by
          push_cast
          nlinarith [h2]
        exact_mod_cast hc
  · rw [if_neg hp]
    push_neg at hp
    have hpR : ((x.a : ℝ) - y.a) < 0 := by
      have : ((x.a - y.a : ℚ) : ℝ) < ((0 : ℚ) : ℝ) := by exact_mod_cast hp
      push_cast at this
      linarith
    rw [ltB_aux_neg _ _ hpR]
    simp only [Bool.or_eq_true, decide_eq_true_eq]
    constructor
    · rintro (h1 | h2)
      · left
        have : ((0 : ℚ) : ℝ) ≤ ((y.b - x.b : ℚ) : ℝ) := by exact_mod_cast h1
        push_cast at this
        linarith
      · right
        have : ((2 * (y.b - x.b) ^ 2 : ℚ) : ℝ) < (((x.a - y.a) ^ 2 : ℚ) : ℝ) := by
          exact_mod_cast h2
        push_cast at this
        nlinarith [this]
    · rintro (h1 | h2)
      · left
        have hc : ((0 : ℚ) : ℝ) ≤ ((y.b - x.b : ℚ) : ℝ) := by push_cast; linarith
        exact_mod_cast hc
      · right
        have hc : ((2 * (y.b - x.b) ^ 2 : ℚ) : ℝ) < (((x.a - y.a) ^ 2 : ℚ) : ℝ) := by
          push_cast
          nlinarith [h2]
        exact_mod_cast hc

end Q2

theorem fitLtB_iff (x y : Fit) : fitLtB x y = true ↔ fitLtP x y := by
  cases x <;> cases y <;> simp [fitLtB, fitLtP, Q2.ltB_iff]

theorem fitLtP_trans {x y z : Fit} (h1 : fitLtP x y) (h2 : fitLtP y z) : fitLtP x z := by
  cases x <;> cases y <;> cases z <;> simp_all [fitLtP] <;> linarith

theorem fitLtP_irrefl (x : Fit) : ¬ fitLtP x x := by
  cases x <;> simp [fitLtP]

/-
General lemmas about the dictionary operations, cloning and the evaluator's
untouched components.
-/

theorem Sol.clone_eq (s : Sol) : s.clone = s := rfl

theorem evaluate_placement_map (P : Problem) (s : Sol) (alpha : ℚ) :
    (evaluate P s alpha).placement_map = s.placement_map := rfl

theorem evaluate_assignment_map (P : Problem) (s : Sol) (alpha : ℚ) :
    (evaluate P s alpha).assignment_map = s.assignment_map := rfl

theorem dget_of_mem_nodup {m : List (Nat × Option Nat)} {p : Nat × Option Nat}
    (hp : p ∈ m) (hnd : (m.map (·.1)).Nodup) : dget m p.1 = p.2 := by
  induction m with
  | nil => cases hp
  | cons q m ih =>
    rcases List.mem_cons.mp hp with h | h
    · subst h
      simp [dget]
    · have hnd' : (q.1 :: m.map (·.1)).Nodup := by simpa using hnd
      have hq : q.1 ≠ p.1 := by
        intro he
        apply (List.nodup_cons.mp hnd').1
        rw [he]
        exact List.mem_map_of_mem _ h
      have hnd2 : (m.map (·.1)).Nodup := (List.nodup_cons.mp hnd').2
      simp only [dget, List.find?]
      have hbeq : (q.1 == p.1) = false := by
        simp [hq]
      rw [hbeq]
      exact ih h hnd2

theorem dmem_iff (m : List (Nat × Option Nat)) (k : Nat) :
    dmem m k = true ↔ k ∈ m.map (·.1) := by
  induction m with
  | nil => simp [dmem]
  | cons q m ih =>
    by_cases h : q.1 = k
    · subst h
      simp [dmem, List.find?]
    · simp only [dmem, List.find?] at ih ⊢
      have hbeq : (q.1 == k) = false := by simp [h]
      rw [hbeq]
      simp only [List.map_cons, List.mem_cons]
      rw [ih]
      constructor
      · exact Or.inr
      · rintro (he | hm)
        · exact absurd he.symm h
        · exact hm

/-- C8, counterexample: `assign_device` with a device id that is not a key
of the assignment mapping, targeting a known occupied site, silently
inserts the new key instead of no-opping: the mapping's key set changes. -/
theorem C8_unknown_id_counterexample :
    dmem c8Sol.assignment_map 7 = false ∧
    dmem c8Sol.placement_map 0 = true ∧
    (dget c8Sol.placement_map 0).isSome = true ∧
    (assign_device c8Sol 7 0).assignment_map = [(5, none), (7, some 0)] ∧
    (assign_device c8Sol 7 0).assignment_map.map (·.1) ≠
      c8Sol.assignment_map.map (·.1) := by
  refine ⟨by decide, by decide, by decide, by decide, by decide⟩

/-- C8 (amended): `place_cloudlet` with an unknown site id,
`assign_device` with an unknown site id, and `assign_device` with a known
but unoccupied site id (the key is present but holds no placement) are all
silent no-ops returning the solution unchanged, but `assign_device` with an
unknown device id and a known occupied site id appends the device id as a
fresh key of the assignment mapping. -/
theorem C8_unknown_id_behavior :
    (∀ (s : Sol) (cid tid : Nat), dmem s.placement_map cid = false →
      place_cloudlet s cid tid = s) ∧
    (∀ (s : Sol) (did cid : Nat), dmem s.placement_map cid = false →
      assign_device s did cid = s) ∧
    (∀ (s : Sol) (did cid : Nat), dmem s.placement_map cid = true →
      dget s.placement_map cid = none →
      assign_device s did cid = s) ∧
    (∀ (s : Sol) (did cid : Nat), dmem s.placement_map cid = true →
      (dget s.placement_map cid).isSome = true →
      dmem s.assignment_map did = false →
      (assign_device s did cid).assignment_map = s.assignment_map ++ [(did, some cid)] ∧
      (assign_device s did cid).placement_map = s.placement_map) := by
  refine ⟨?_, ?_, ?_, ?_⟩
  · intro s cid tid h
    simp [place_cloudlet, h]
  · intro s did cid h
    simp [assign_device, h]
  · intro s did cid h1 h2
    simp [assign_device, h2]
  · intro s did cid h1 h2 h3
    constructor
    · simp [assign_device, h1, h2, dset, h3]
    · simp [assign_device, h1, h2]

theorem C8_unknown_id_behavior_witness :
    place_cloudlet c8Sol 9 1 = c8Sol ∧
    assign_device c8Sol 3 9 = c8Sol ∧
    assign_device c8Sol 4 2 = c8Sol ∧
    (assign_device c8Sol 7 0).assignment_map = c8Sol.assignment_map ++ [(7, some 0)] := by
  refine ⟨C8_unknown_id_behavior.1 c8Sol 9 1 (by decide),
    C8_unknown_id_behavior.2.1 c8Sol 3 9 (by decide),
    C8_unknown_id_behavior.2.2.1 c8Sol 4 2 (by decide) (by decide),
    (C8_unknown_id_behavior.2.2.2 c8Sol 7 0 (by decide) (by decide) (by decide)).1⟩

/-
Characterization of the evaluator's device loop.
-/

theorem devOkB_iff (P : Problem) (s : Sol) (d : Device) :
    devOkB P s d = true ↔ AssignedSiteOk P s d := by
  constructor
  · intro h
    unfold devOkB at h
    split at h
    · exact absurd h (by simp)
    · next cid hcid =>
      split at h
      · exact absurd h (by simp)
      · next tid htid =>
        split at h
        · exact absurd h (by simp)
        · next q hq =>
          exact ⟨cid, tid, q, hcid, htid, hq, of_decide_eq_true h⟩
  · rintro ⟨cid, tid, q, h1, h2, h3, hle⟩
    unfold devOkB
    simp only [h1, h2, h3]
    exact decide_eq_true hle

theorem evalStep_false (P : Problem) (s : Sol) (st : Bool × List (Nat × ℚ × ℚ × ℚ) × ℚ)
    (d : Device) (h : devOkB P s d = false) :
    evalStep P s st d = (false, st.2.1, st.2.2) := by
  unfold devOkB at h
  unfold evalStep
  split at h
  · rfl
  · split at h
    · rfl
    · split at h
      · rfl
      · simp only [decide_eq_false_iff_not, not_le] at h
        rw [if_pos h]

theorem evalStep_true (P : Problem) (s : Sol) (st : Bool × List (Nat × ℚ × ℚ × ℚ) × ℚ)
    (d : Device) (cid : Nat) (h : devOkB P s d = true)
    (h1 : dget s.assignment_map d.id = some cid) :
    ∃ q, P.get_distance d.id cid = some q ∧
      evalStep P s st d = (st.1, uAdd st.2.1 cid d, st.2.2 + q) := by
  obtain ⟨cid2, tid, q, h1b, h2, h3, hle⟩ := (devOkB_iff P s d).mp h
  have hc : cid2 = cid := by
    rw [h1] at h1b
    exact (Option.some.inj h1b).symm
  subst hc
  refine ⟨q, h3, ?_⟩
  unfold evalStep
  simp only [h1, h2, h3]
  rw [if_neg (not_lt.mpr hle)]

theorem devOkB_some (P : Problem) (s : Sol) (d : Device) (h : devOkB P s d = true) :
    ∃ cid, dget s.assignment_map d.id = some cid := by
  obtain ⟨cid, tid, q, h1, h2, h3, hle⟩ := (devOkB_iff P s d).mp h
  exact ⟨cid, h1⟩

theorem devTarget_of_true (P : Problem) (s : Sol) (d : Device)
    (h : devOkB P s d = true) : devTarget P s d = dget s.assignment_map d.id := by
  unfold devTarget
  rw [h]
  rfl

theorem devTarget_of_false (P : Problem) (s : Sol) (d : Device)
    (h : devOkB P s d = false) : devTarget P s d = none := by
  unfold devTarget
  rw [h]
  rfl

theorem evalFold_fst (P : Problem) (s : Sol) (ds : List Device) :
    ∀ (b : Bool) (u : List (Nat × ℚ × ℚ × ℚ)) (l : ℚ),
    (ds.foldl (evalStep P s) (b, u, l)).1 = (b && ds.all (devOkB P s)) := by
  induction ds with
  | nil => intro b u l; simp
  | cons d ds ih =>
    intro b u l
    simp only [List.foldl_cons, List.all_cons]
    by_cases h : devOkB P s d = true
    · obtain ⟨cid, h1⟩ := devOkB_some P s d h
      obtain ⟨q, hq, hstep⟩ := evalStep_true P s (b, u, l) d cid h h1
      rw [hstep, ih, h]
      simp
    · have hf : devOkB P s d = false := by
        cases hx : devOkB P s d
        · rfl
        · exact absurd hx h
      rw [evalStep_false P s (b, u, l) d hf, ih, hf]
      simp

theorem cSum_cons (P : Problem) (s : Sol) (d : Device) (ds : List Device) (cid : Nat) :
    cSum P s (d :: ds) cid =
      (if devTarget P s d == some cid then d.cpu_demand else 0) + cSum P s ds cid := by
  unfold cSum
  rw [List.filter_cons]
  by_cases h : (devTarget P s d == some cid) = true
  · rw [if_pos h, if_pos h]
    simp
  · rw [if_neg h, if_neg h]
    simp

theorem mSum_cons (P : Problem) (s : Sol) (d : Device) (ds : List Device) (cid : Nat) :
    mSum P s (d :: ds) cid =
      (if devTarget P s d == some cid then d.memory_demand else 0) + mSum P s ds cid := by
  unfold mSum
  rw [List.filter_cons]
  by_cases h : (devTarget P s d == some cid) = true
  · rw [if_pos h, if_pos h]
    simp
  · rw [if_neg h, if_neg h]
    simp

theorem sSum_cons (P : Problem) (s : Sol) (d : Device) (ds : List Device) (cid : Nat) :
    sSum P s (d :: ds) cid =
      (if devTarget P s d == some cid then d.storage_demand else 0) + sSum P s ds cid := by
  unfold sSum
  rw [List.filter_cons]
  by_cases h : (devTarget P s d == some cid) = true
  · rw [if_pos h, if_pos h]
    simp
  · rw [if_neg h, if_neg h]
    simp

theorem evalFold_usage (P : Problem) (s : Sol) (ds : List Device) :
    ∀ (b : Bool) (u : List (Nat × ℚ × ℚ × ℚ)) (l : ℚ),
    (ds.foldl (evalStep P s) (b, u, l)).2.1 =
      u.map (fun e => (e.1, e.2.1 + cSum P s ds e.1,
        e.2.2.1 + mSum P s ds e.1, e.2.2.2 + sSum P s ds e.1)) := by
  induction ds with
  | nil =>
    intro b u l
    rw [List.foldl_nil]
    have h0 : ∀ e ∈ u, ((e.1, e.2.1 + cSum P s [] e.1, e.2.2.1 + mSum P s [] e.1,
        e.2.2.2 + sSum P s [] e.1) : Nat × ℚ × ℚ × ℚ) = e := by
      intro e he
      simp [cSum, mSum, sSum]
    rw [List.map_congr_left h0]
    simp
  | cons d ds ih =>
    intro b u l
    simp only [List.foldl_cons]
    by_cases h : devOkB P s d = true
    · obtain ⟨cid, h1⟩ := devOkB_some P s d h
      obtain ⟨q, hq, hstep⟩ := evalStep_true P s (b, u, l) d cid h h1
      have htar : devTarget P s d = some cid := by
        rw [devTarget_of_true P s d h, h1]
      rw [hstep, ih]
      unfold uAdd
      rw [List.map_map]
      apply List.map_congr_left
      intro e he
      simp only [Function.comp]
      by_cases he1 : (e.1 == cid) = true
      · have he1b : e.1 = cid := by simpa using he1
        rw [if_pos he1]
        simp only [cSum_cons, mSum_cons, sSum_cons, htar, he1b]
        simp only [beq_self_eq_true, if_true]
        refine congrArg (fun z => ((cid : Nat), z)) ?_
        refine Prod.ext ?_ (Prod.ext ?_ ?_) <;> simp <;> ring
      · rw [if_neg he1]
        simp only [cSum_cons, mSum_cons, sSum_cons, htar]
        have hne : (some cid == some e.1) = false := by
          have hne2 : ¬ (e.1 = cid) := fun hc => he1 (by simp [hc])
          simp only [beq_eq_false_iff_ne, ne_eq, Option.some.injEq]
          exact fun hc => hne2 hc.symm
        rw [hne]
        simp
    · have hf : devOkB P s d = false := by
        cases hx : devOkB P s d
        · rfl
        · exact absurd hx h
      have htar : devTarget P s d = none := devTarget_of_false P s d hf
      rw [evalStep_false P s (b, u, l) d hf, ih]
      apply List.map_congr_left
      intro e he
      simp only [cSum_cons, mSum_cons, sSum_cons, htar]
      simp

theorem evalR3_fst (P : Problem) (s : Sol) :
    (evalR3 P s).1 = (evalFeas1 s && P.devices.all (devOkB P s)) := by
  unfold evalR3
  rw [evalFold_fst]

theorem evalR3_usage (P : Problem) (s : Sol) :
    (evalR3 P s).2.1 = (evalOcc s).map (fun pp =>
      (pp.1, cSum P s P.devices pp.1, mSum P s P.devices pp.1,
        sSum P s P.devices pp.1)) := by
  unfold evalR3
  rw [evalFold_usage, List.map_map]
  apply List.map_congr_left
  intro pp hpp
  simp [Function.comp]

theorem cSum_eq_cpuLoad (P : Problem) (s : Sol)
    (hall : ∀ d ∈ P.devices, devOkB P s d = true) (cid : Nat) :
    cSum P s P.devices cid = cpuLoad P s cid := by
  unfold cSum cpuLoad
  have hfe : P.devices.filter (fun d => devTarget P s d == some cid) =
      P.devices.filter (fun d => dget s.assignment_map d.id == some cid) := by
    apply List.filter_congr
    intro d hd
    rw [devTarget_of_true P s d (hall d hd)]
  rw [hfe]

theorem mSum_eq_memLoad (P : Problem) (s : Sol)
    (hall : ∀ d ∈ P.devices, devOkB P s d = true) (cid : Nat) :
    mSum P s P.devices cid = memLoad P s cid := by
  unfold mSum memLoad
  have hfe : P.devices.filter (fun d => devTarget P s d == some cid) =
      P.devices.filter (fun d => dget s.assignment_map d.id == some cid) := by
    apply List.filter_congr
    intro d hd
    rw [devTarget_of_true P s d (hall d hd)]
  rw [hfe]

theorem sSum_eq_storLoad (P : Problem) (s : Sol)
    (hall : ∀ d ∈ P.devices, devOkB P s d = true) (cid : Nat) :
    sSum P s P.devices cid = storLoad P s cid := by
  unfold sSum storLoad
  have hfe : P.devices.filter (fun d => devTarget P s d == some cid) =
      P.devices.filter (fun d => dget s.assignment_map d.id == some cid) := by
    apply List.filter_congr
    intro d hd
    rw [devTarget_of_true P s d (hall d hd)]
  rw [hfe]

/-- C1: after `evaluate(alpha)`, the feasibility flag is true if and only
if every device has a non-empty assignment, every assigned site holds a
placed facility type, every assigned device is within the coverage radius
of its site's placed type, and every occupied site's aggregated cpu, memory
and storage demands respect the placed type's three capacities. -/
theorem C1_feasibility_characterization (P : Problem) (s : Sol) (alpha : ℚ)
    (hwf : WFSol P s) :
    ((evaluate P s alpha).is_feasible = true) ↔ FeasibleSpec P s := by
  obtain ⟨hamk, hpmk, hndd, hndc⟩ := hwf
  have hama : (s.assignment_map.map (·.1)).Nodup := by rw [hamk]; exact hndd
  have hpma : (s.placement_map.map (·.1)).Nodup := by rw [hpmk]; exact hndc
  have hflag : (evaluate P s alpha).is_feasible = evalFeas5 P s := rfl
  rw [hflag]
  unfold evalFeas5
  rw [evalR3_fst]
  simp only [Bool.and_eq_true, Bool.not_eq_true']
  constructor
  · rintro ⟨⟨⟨hf1, hallb⟩, hcap⟩, hnone⟩
    have hall : ∀ d ∈ P.devices, devOkB P s d = true := List.all_eq_true.mp hallb
    refine ⟨fun d hd => (devOkB_iff P s d).mp (hall d hd), ?_⟩
    intro p hp tid hptid
    have hocc : (p.1, tid) ∈ evalOcc s :=
      List.mem_filterMap.mpr ⟨p, hp, by rw [hptid]; rfl⟩
    have hentry : ((p.1, cSum P s P.devices p.1, mSum P s P.devices p.1,
        sSum P s P.devices p.1) : Nat × ℚ × ℚ × ℚ) ∈ (evalR3 P s).2.1 := by
      rw [evalR3_usage]
      exact List.mem_map_of_mem _ hocc
    have hcapE := List.all_eq_true.mp hcap _ hentry
    unfold capEntryOk at hcapE
    have hdg : dget s.placement_map p.1 = some tid := by
      have hx := dget_of_mem_nodup hp hpma
      rw [hptid] at hx
      exact hx
    simp only [hdg, Bool.not_eq_true', Bool.or_eq_false_iff,
      decide_eq_false_iff_not, not_lt] at hcapE
    obtain ⟨⟨hc, hm⟩, hsb⟩ := hcapE
    rw [cSum_eq_cpuLoad P s hall] at hc
    rw [mSum_eq_memLoad P s hall] at hm
    rw [sSum_eq_storLoad P s hall] at hsb
    exact ⟨hc, hm, hsb⟩
  · rintro ⟨hdev, hcap⟩
    have hall : ∀ d ∈ P.devices, devOkB P s d = true :=
      fun d hd => (devOkB_iff P s d).mpr (hdev d hd)
    have hkey : ∀ p ∈ s.assignment_map, ∃ d ∈ P.devices, d.id = p.1 := by
      intro p hp
      have hmem : p.1 ∈ s.assignment_map.map (·.1) := List.mem_map_of_mem _ hp
      rw [hamk] at hmem
      obtain ⟨d, hd, hdi⟩ := List.mem_map.mp hmem
      exact ⟨d, hd, hdi⟩
    have hpval : ∀ p ∈ s.assignment_map,
        ∃ cid, p.2 = some cid ∧ (dget s.placement_map cid).isSome = true := by
      intro p hp
      obtain ⟨d, hd, hdi⟩ := hkey p hp
      obtain ⟨cid, tid, q, h1, h2, h3, hle⟩ := hdev d hd
      have hdg : dget s.assignment_map p.1 = p.2 := dget_of_mem_nodup hp hama
      rw [← hdi, h1] at hdg
      exact ⟨cid, hdg.symm, by rw [h2]; rfl⟩
    refine ⟨⟨⟨?_, ?_⟩, ?_⟩, ?_⟩
    · unfold evalFeas1
      rw [List.all_eq_true]
      intro p hp
      obtain ⟨cid, hp2, hps⟩ := hpval p hp
      rw [hp2]
      simpa using hps
    · rw [List.all_eq_true]
      exact hall
    · rw [List.all_eq_true]
      intro e he
      rw [evalR3_usage] at he
      obtain ⟨pp, hppocc, hppe⟩ := List.mem_map.mp he
      obtain ⟨p, hp, hpf⟩ := List.mem_filterMap.mp hppocc
      cases hp2 : p.2 with
      | none => rw [hp2] at hpf; cases hpf
      | some tid =>
        rw [hp2] at hpf
        have hppv : pp = (p.1, tid) := by
          simpa using hpf.symm
        subst hppv
        subst hppe
        unfold capEntryOk
        have hdg : dget s.placement_map p.1 = some tid := by
          have hx := dget_of_mem_nodup hp hpma
          rw [hp2] at hx
          exact hx
        simp only [hdg]
        obtain ⟨hc, hm, hsb⟩ := hcap p hp tid hp2
        rw [← cSum_eq_cpuLoad P s hall] at hc
        rw [← mSum_eq_memLoad P s hall] at hm
        rw [← sSum_eq_storLoad P s hall] at hsb
        simp only [Bool.not_eq_true', Bool.or_eq_false_iff, decide_eq_false_iff_not,
          not_lt]
        exact ⟨⟨hc, hm⟩, hsb⟩
    · rw [List.any_eq_false]
      intro p hp
      obtain ⟨cid, hp2, hps⟩ := hpval p hp
      simp [hp2]

theorem C1_feasibility_characterization_witness :
    WFSol w1P w1Sol ∧
      (((evaluate w1P w1Sol (1 / 2)).is_feasible = true) ↔ FeasibleSpec w1P w1Sol) := by
  refine ⟨?_, ?_⟩
  · refine ⟨by decide, by decide, by decide, by decide⟩
  · exact C1_feasibility_characterization w1P w1Sol (1 / 2)
      ⟨by decide, by decide, by decide, by decide⟩

/-
Claim C2: the fitness formula and its normalizers.  Component lemmas for
the `Q2` operations let `norm_num` evaluate concrete fitness values.
-/

theorem Q2.hadd_def (x y : Q2) : x + y = ⟨x.a + y.a, x.b + y.b⟩ := rfl

theorem Q2.hmul_def (x y : Q2) :
    x * y = ⟨x.a * y.a + 2 * (x.b * y.b), x.a * y.b + x.b * y.a⟩ := rfl

theorem Q2.hsub_def (x y : Q2) : x - y = ⟨x.a + -y.a, x.b + -y.b⟩ := rfl

theorem Q2.hinv_def (x : Q2) :
    x⁻¹ = ⟨x.a / (x.a ^ 2 - 2 * x.b ^ 2), -x.b / (x.a ^ 2 - 2 * x.b ^ 2)⟩ := rfl

theorem Q2.hdiv_def (x y : Q2) : x / y = x * y⁻¹ := rfl

theorem Q2.ofQ_def (q : ℚ) : Q2.ofQ q = ⟨q, 0⟩ := rfl

theorem Q2.sqrt2_def : Q2.sqrt2 = ⟨0, 1⟩ := rfl

theorem foldl_add_eq_sum {α : Type} (f : α → ℚ) (l : List α) :
    ∀ a : ℚ, l.foldl (fun acc x => acc + f x) a = a + (l.map f).sum := by
  induction l with
  | nil => intro a; simp
  | cons x xs ih =>
    intro a
    simp only [List.foldl_cons, List.map_cons, List.sum_cons, ih]
    ring

theorem maxPossibleCost_eq_sum (P : Problem) :
    maxPossibleCost P = (P.cloudlet_types.map (fun ct => ct.base_cost * (6 / 5))).sum := by
  unfold maxPossibleCost
  rw [foldl_add_eq_sum]
  ring

theorem ofQ_ne_zero (q : ℚ) (h : q ≠ 0) : Q2.ofQ q ≠ 0 := by
  intro hc
  apply h
  have := congrArg Q2.a hc
  simpa [Q2.ofQ] using this

/-- C2 (amended): for every solution evaluated feasible (with a nonzero
cost normalizer and a nonempty device set, where the Python code would not
divide by zero), the fitness equals `alpha * totalCost / (Σ baseCost·1.2) +
(1-alpha) * totalLatency / (deviceCount·1000·√2)` — both normalizers
hard-coded constants of the code, independent of the scenario's actual
maximum site multiplier and bounding-box diagonal; for every solution
evaluated infeasible, the fitness is the +infinity sentinel, regardless of
alpha. -/
theorem C2_fitness_formula (P : Problem) (s : Sol) (alpha : ℚ)
    (hmc : maxPossibleCost P ≠ 0) (hn : P.devices.length ≠ 0) :
    ((evaluate P s alpha).is_feasible = true →
      ∃ f, (evaluate P s alpha).fitness = some f ∧
        f.toReal = (alpha : ℝ)
            * ((evaluate P s alpha).total_cost / (maxPossibleCost P : ℝ))
          + (1 - (alpha : ℝ)) * ((evaluate P s alpha).total_latency
            / ((P.devices.length : ℝ) * 1000 * sqrt2R))) ∧
    ((evaluate P s alpha).is_feasible = false →
      (evaluate P s alpha).fitness = none) := by
  have hre : (evaluate P s alpha).fitness =
      (if evalFeas5 P s then
        some (Q2.ofQ alpha * (Q2.ofQ (evalCost P s) / Q2.ofQ (maxPossibleCost P))
          + (Q2.ofQ 1 - Q2.ofQ alpha)
            * (Q2.ofQ (evalR3 P s).2.2
              / (Q2.ofQ ((P.devices.length : ℚ) * 1000) * Q2.sqrt2)))
      else none) := rfl
  have hflag : (evaluate P s alpha).is_feasible = evalFeas5 P s := rfl
  have hcost : (evaluate P s alpha).total_cost = evalCost P s := rfl
  have hlat : (evaluate P s alpha).total_latency = (evalR3 P s).2.2 := rfl
  have hofq : Q2.ofQ (maxPossibleCost P) ≠ 0 := ofQ_ne_zero _ hmc
  have hnR : ((P.devices.length : ℚ) : ℝ) * 1000 ≠ 0 := by
    have h1 : ((P.devices.length : ℚ) : ℝ) ≠ 0 := by
      push_cast
      exact Nat.cast_ne_zero.mpr hn
    exact mul_ne_zero h1 (by norm_num)
  have hden2 : (Q2.ofQ ((P.devices.length : ℚ) * 1000) * Q2.sqrt2) ≠ 0 := by
    intro hc
    have h0 : Q2.toReal (Q2.ofQ ((P.devices.length : ℚ) * 1000) * Q2.sqrt2) = 0 := by
      rw [hc, Q2.toReal_zero]
    rw [Q2.toReal_mul, Q2.toReal_ofQ, Q2.toReal_sqrt2] at h0
    have hcast : (((P.devices.length : ℚ) * 1000 : ℚ) : ℝ) ≠ 0 := by
      push_cast at hnR ⊢
      exact hnR
    exact absurd h0 (mul_ne_zero hcast (ne_of_gt sqrt2R_pos))
  constructor
  · intro hfeas
    rw [hflag] at hfeas
    rw [hre, if_pos hfeas]
    refine ⟨_, rfl, ?_⟩
    rw [Q2.toReal_add, Q2.toReal_mul, Q2.toReal_mul,
      Q2.toReal_div _ _ hofq, Q2.toReal_div _ _ hden2, Q2.toReal_sub,
      Q2.toReal_mul, Q2.toReal_sqrt2]
    simp only [Q2.toReal_ofQ]
    rw [hcost, hlat]
    push_cast
    ring
  · intro hinfeas
    rw [hflag] at hinfeas
    rw [hre, if_neg (by rw [hinfeas]; exact Bool.false_ne_true)]

theorem C2_fitness_formula_witness :
    maxPossibleCost w1P ≠ 0 ∧ w1P.devices.length ≠ 0 ∧
      (((evaluate w1P w1Sol (1 / 2)).is_feasible = true →
        ∃ f, (evaluate w1P w1Sol (1 / 2)).fitness = some f ∧
          f.toReal = ((1 / 2 : ℚ) : ℝ)
              * ((evaluate w1P w1Sol (1 / 2)).total_cost / (maxPossibleCost w1P : ℝ))
            + (1 - ((1 / 2 : ℚ) : ℝ)) * ((evaluate w1P w1Sol (1 / 2)).total_latency
              / ((w1P.devices.length : ℝ) * 1000 * sqrt2R))) ∧
      ((evaluate w1P w1Sol (1 / 2)).is_feasible = false →
        (evaluate w1P w1Sol (1 / 2)).fitness = none)) :=
  ⟨by norm_num [maxPossibleCost, w1P, w1Type], by norm_num [w1P],
    C2_fitness_formula w1P w1Sol (1 / 2) (by norm_num [maxPossibleCost, w1P, w1Type])
      (by norm_num [w1P])⟩

/-- C2, counterexample: on a scenario whose maximum site multiplier is 2,
the evaluated fitness (5/3 at alpha = 1, from the hard-coded 1.2
normalizer) differs from the claimed formula taken at the scenario's own
maximum multiplier and diagonal (which gives 1). -/
theorem C2_normalizer_counterexample :
    (evaluate c2P c2Sol 1).is_feasible = true ∧
    (evaluate c2P c2Sol 1).fitness = some ⟨5 / 3, 0⟩ ∧
    Q2.toReal ⟨5 / 3, 0⟩ ≠ specFitness c2P (evaluate c2P c2Sol 1) 1 := by
  refine ⟨?_, ?_, ?_⟩
  · norm_num [evaluate, evalFeas5, evalR3, evalFeas1, evalOcc, evalStep, dget, dmem,
      c2P, c2Sol, typeIdx, siteFind, uAdd, Problem.get_distance, capEntryOk, devOkB,
      List.filterMap_cons, Option.map_some', Option.map_none', List.getD, List.find?]
  · norm_num [evaluate, evalFeas5, evalR3, evalFeas1, evalOcc, evalStep, evalCost, dget, dmem,
      c2P, c2Sol, typeIdx, siteFind, uAdd, Problem.get_distance, capEntryOk, devOkB,
      maxPossibleCost, Q2.hadd_def, Q2.hmul_def, Q2.hsub_def, Q2.hinv_def, Q2.hdiv_def,
      Q2.ofQ_def, Q2.sqrt2_def, List.filterMap_cons, Option.map_some', Option.map_none',
      List.getD, List.find?, List.foldl_cons, List.foldl_nil]
  · have hc : (evaluate c2P c2Sol 1).total_cost = 200 := by
      norm_num [evaluate, evalCost, evalOcc, c2P, c2Sol, typeIdx, siteFind,
        List.filterMap_cons, Option.map_some', Option.map_none', List.getD, List.find?,
        List.foldl_cons, List.foldl_nil]
    have hsum : (c2P.cloudlet_types.map
        (fun ct => ct.base_cost * maxSiteMultiplier c2P)).sum = (200 : ℚ) := by
      norm_num [c2P, maxSiteMultiplier]
    have hs : specFitness c2P (evaluate c2P c2Sol 1) 1 = 1 := by
      unfold specFitness
      rw [hc, hsum]
      push_cast
      ring_nf
    rw [hs]
    simp only [Q2.toReal]
    norm_num

/-
Claim C7: neutral-rate identities of crossover and mutate.
-/

theorem mBind_def {α β : Type} (x : M α) (f : α → M β) : x >>= f = mBind x f := rfl

theorem mPure_def {α : Type} (a : α) : (pure a : M α) = mPure a := rfl

theorem crossover_rate_zero (P : Problem) (cfg : GAConfig) (g : Orc)
    (p1 p2 : Sol) (n : Nat) (hrate : cfg.crossover_rate = 0) (hor : 0 ≤ g.oq n) :
    crossover P cfg g p1 p2 n =
      some ((evaluate P p1 cfg.alpha, evaluate P p2 cfg.alpha), n + 1) := by
  have hnlt : ¬ (g.oq n < cfg.crossover_rate) := by
    rw [hrate]
    exact not_lt.mpr hor
  unfold crossover
  simp only [mBind_def, mPure_def, mBind, mPure, randomM, Sol.clone_eq, hnlt, if_false]

theorem mutate_rate_zero (P : Problem) (cfg : GAConfig) (g : Orc)
    (s : Sol) (n : Nat) (hrate : cfg.mutation_rate = 0) (hor : 0 ≤ g.oq n) :
    mutate P cfg g s n = some (evaluate P s cfg.alpha, n + 1) := by
  have hnlt : ¬ (g.oq n < cfg.mutation_rate) := by
    rw [hrate]
    exact not_lt.mpr hor
  unfold mutate
  simp only [mBind_def, mPure_def, mBind, mPure, randomM, Sol.clone_eq, hnlt, if_false]

/-- C7: with crossoverRate = 0, for parents whose stored fitness equals
what evaluate(alpha) computes on their mappings, crossover returns two
children whose placement mapping, assignment mapping and fitness equal
those of their respective parents; with mutationRate = 0, mutate likewise
returns a solution identical to its input in placement, assignment and
fitness. -/
theorem C7_neutral_rate_identities (P : Problem) (cfg : GAConfig) (g : Orc) (n : Nat) :
    (∀ p1 p2 : Sol, cfg.crossover_rate = 0 → 0 ≤ g.oq n →
      p1.fitness = (evaluate P p1 cfg.alpha).fitness →
      p2.fitness = (evaluate P p2 cfg.alpha).fitness →
      ∃ c1 c2, crossover P cfg g p1 p2 n = some ((c1, c2), n + 1) ∧
        c1.placement_map = p1.placement_map ∧ c1.assignment_map = p1.assignment_map ∧
        c1.fitness = p1.fitness ∧
        c2.placement_map = p2.placement_map ∧ c2.assignment_map = p2.assignment_map ∧
        c2.fitness = p2.fitness) ∧
    (∀ s : Sol, cfg.mutation_rate = 0 → 0 ≤ g.oq n →
      s.fitness = (evaluate P s cfg.alpha).fitness →
      ∃ m, mutate P cfg g s n = some (m, n + 1) ∧
        m.placement_map = s.placement_map ∧ m.assignment_map = s.assignment_map ∧
        m.fitness = s.fitness) := by
  constructor
  · intro p1 p2 hrate hor hf1 hf2
    refine ⟨evaluate P p1 cfg.alpha, evaluate P p2 cfg.alpha,
      crossover_rate_zero P cfg g p1 p2 n hrate hor,
      evaluate_placement_map P p1 cfg.alpha, evaluate_assignment_map P p1 cfg.alpha,
      hf1.symm, evaluate_placement_map P p2 cfg.alpha,
      evaluate_assignment_map P p2 cfg.alpha, hf2.symm⟩
  · intro s hrate hor hf
    exact ⟨evaluate P s cfg.alpha, mutate_rate_zero P cfg g s n hrate hor,
      evaluate_placement_map P s cfg.alpha, evaluate_assignment_map P s cfg.alpha,
      hf.symm⟩

theorem C7_neutral_rate_identities_witness :
    (∃ c1 c2, crossover w1P cfg7 g7 s7 s7 0 = some ((c1, c2), 0 + 1) ∧
      c1.placement_map = s7.placement_map ∧ c1.assignment_map = s7.assignment_map ∧
      c1.fitness = s7.fitness ∧
      c2.placement_map = s7.placement_map ∧ c2.assignment_map = s7.assignment_map ∧
      c2.fitness = s7.fitness) ∧
    (∃ m, mutate w1P cfg7 g7 s7 0 = some (m, 0 + 1) ∧
      m.placement_map = s7.placement_map ∧ m.assignment_map = s7.assignment_map ∧
      m.fitness = s7.fitness) :=
  ⟨(C7_neutral_rate_identities w1P cfg7 g7 0).1 s7 s7 rfl (le_refl 0) rfl rfl,
    (C7_neutral_rate_identities w1P cfg7 g7 0).2 s7 rfl (le_refl 0) rfl⟩

/-
Claim C6: incumbent tracking.
-/

theorem fitLtP_asymm {x y : Fit} (h : fitLtP x y) : ¬ fitLtP y x :=
  fun h2 => fitLtP_irrefl x (fitLtP_trans h h2)

/-- Totality transfer: `a < b` and `b ≤ c` give `a < c` (with `none` as
`+∞`). -/
theorem fitLtP_of_lt_of_nlt {a b c : Fit} (h1 : fitLtP a b) (h2 : ¬ fitLtP c b) :
    fitLtP a c := by
  cases a <;> cases b <;> cases c <;> simp_all [fitLtP] <;> linarith

theorem foldMin_mem (xs : List Sol) : ∀ x : Sol,
    xs.foldl (fun b y => if fitLtB y.fitness b.fitness then y else b) x ∈ x :: xs := by
  induction xs with
  | nil => intro x; simp
  | cons y ys ih =>
    intro x
    simp only [List.foldl_cons]
    by_cases h : fitLtB y.fitness x.fitness = true
    · rw [if_pos h]
      exact List.mem_cons_of_mem x (ih y)
    · rw [if_neg h]
      rcases List.mem_cons.mp (ih x) with h1 | h1
      · rw [h1]
        exact List.mem_cons_self x _
      · exact List.mem_cons_of_mem x (List.mem_cons_of_mem y h1)

theorem foldMin_le (xs : List Sol) : ∀ (x z : Sol), z ∈ x :: xs →
    fitLeP (xs.foldl (fun b y => if fitLtB y.fitness b.fitness then y else b) x).fitness
      z.fitness := by
  induction xs with
  | nil =>
    intro x z hz
    rcases List.mem_cons.mp hz with h1 | h1
    · rw [List.foldl_nil, h1]
      exact fitLtP_irrefl _
    · cases h1
  | cons y ys ih =>
    intro x z hz
    simp only [List.foldl_cons]
    by_cases h : fitLtB y.fitness x.fitness = true
    · rw [if_pos h]
      rcases List.mem_cons.mp hz with h1 | h1
      · subst h1
        have hyz : fitLtP y.fitness z.fitness := (fitLtB_iff _ _).mp h
        have hres := ih y y (List.mem_cons_self y ys)
        intro hlt
        exact hres (fitLtP_trans hyz hlt)
      · exact ih y z h1
    · rw [if_neg h]
      rcases List.mem_cons.mp hz with h1 | h1
      · subst h1
        exact ih z z (List.mem_cons_self z ys)
      · rcases List.mem_cons.mp h1 with h2 | h2
        · subst h2
          have hnyx : ¬ fitLtP z.fitness x.fitness :=
            fun hp => h ((fitLtB_iff _ _).mpr hp)
          have hres := ih x x (List.mem_cons_self x ys)
          intro hlt
          exact hnyx (fitLtP_of_lt_of_nlt hlt hres)
        · exact ih x z (List.mem_cons_of_mem x h2)

theorem minByFit_mem {l : List Sol} {b : Sol} (h : minByFit l = some b) : b ∈ l := by
  cases l with
  | nil => cases h
  | cons x xs =>
    unfold minByFit at h
    have hb := Option.some.inj h
    rw [← hb]
    exact foldMin_mem xs x

theorem minByFit_le {l : List Sol} {b : Sol} (h : minByFit l = some b) :
    ∀ z ∈ l, fitLeP b.fitness z.fitness := by
  cases l with
  | nil => cases h
  | cons x xs =>
    unfold minByFit at h
    have hb := Option.some.inj h
    intro z hz
    rw [← hb]
    exact foldMin_le xs x z hz

/-- `update_best_solution` keeps the incumbent's fitness non-increasing. -/
theorem update_best_mono (pop : List Sol) (best : Option Sol) (b : Sol)
    (hb : best = some b) :
    ∃ b2, update_best_solution pop best = some b2 ∧ fitLeP b2.fitness b.fitness := by
  subst hb
  unfold update_best_solution
  cases hmin : minByFit (pop.filter (·.is_feasible)) with
  | none => exact ⟨b, rfl, fitLtP_irrefl _⟩
  | some cb =>
    by_cases hlt : fitLtB cb.fitness b.fitness = true
    · refine ⟨cb.clone, ?_, ?_⟩
      · show (if fitLtB cb.fitness b.fitness = true then some cb.clone else some b) =
          some cb.clone
        rw [if_pos hlt]
      · rw [Sol.clone_eq]
        exact fitLtP_asymm ((fitLtB_iff _ _).mp hlt)
    · refine ⟨b, ?_, fitLtP_irrefl _⟩
      show (if fitLtB cb.fitness b.fitness = true then some cb.clone else some b) = some b
      rw [if_neg hlt]

/-- `update_best_solution` changes the incumbent only to a defensive copy
of a strictly better feasible population member (or the first feasible one
when no incumbent exists). -/
theorem update_best_change (pop : List Sol) (best : Option Sol)
    (hne : update_best_solution pop best ≠ best) :
    ∃ c, c ∈ pop ∧ c.is_feasible = true ∧
      update_best_solution pop best = some c.clone ∧
      (best = none ∨ ∀ b, best = some b → fitLtP c.fitness b.fitness) := by
  unfold update_best_solution at hne ⊢
  cases hmin : minByFit (pop.filter (·.is_feasible)) with
  | none =>
    rw [hmin] at hne
    exact absurd rfl hne
  | some cb =>
    rw [hmin] at hne
    have hmem := minByFit_mem hmin
    have hcmem : cb ∈ pop := List.mem_of_mem_filter hmem
    have hcfeas : cb.is_feasible = true := by
      have := List.of_mem_filter hmem
      simpa using this
    cases hbest : best with
    | none =>
      exact ⟨cb, hcmem, hcfeas, rfl, Or.inl rfl⟩
    | some b =>
      rw [hbest] at hne
      by_cases hlt : fitLtB cb.fitness b.fitness = true
      · refine ⟨cb, hcmem, hcfeas, ?_, Or.inr ?_⟩
        · show (if fitLtB cb.fitness b.fitness = true then some cb.clone else some b) =
            some cb.clone
          rw [if_pos hlt]
        · intro b2 hb2
          rw [← Option.some.inj hb2]
          exact (fitLtB_iff _ _).mp hlt
      · exfalso
        apply hne
        show (if fitLtB cb.fitness b.fitness = true then some cb.clone else some b) = some b
        rw [if_neg hlt]

theorem genRecordCore_best (st : GAState) (population : List Sol) (best : Option Sol) :
    (genRecordCore st population best).best_solution = best := by
  unfold genRecordCore
  split
  · rfl
  · split <;> rfl

theorem genRecord_best (cfg : GAConfig) (st : GAState) (npop : List Sol) :
    (genRecord cfg st npop).best_solution =
      update_best_solution (npop.take cfg.population_size) st.best_solution := by
  unfold genRecord
  exact genRecordCore_best st _ _

theorem mBind_some {α β : Type} {x : M α} {f : α → M β} {n : Nat} {r : β × Nat}
    (h : mBind x f n = some r) : ∃ a n2, x n = some (a, n2) ∧ f a n2 = some r := by
  unfold mBind at h
  cases hx : x n with
  | none => rw [hx] at h; cases h
  | some p =>
    obtain ⟨a, n2⟩ := p
    rw [hx] at h
    exact ⟨a, n2, rfl, h⟩

/-- Inside one generation, the incumbent field of the produced state is an
`update_best_solution` of the truncated new population against the old
incumbent. -/
theorem genStep_best (P : Problem) (cfg : GAConfig) (g : Orc) (gen : Nat)
    (st st' : GAState) (n0 n1 : Nat)
    (h : genStep P cfg g gen st n0 = some (st', n1)) :
    ∃ npop : List Sol, st'.best_solution =
      update_best_solution (npop.take cfg.population_size) st.best_solution := by
  unfold genStep at h
  simp only [mBind_def, mPure_def] at h
  obtain ⟨npop, n2, hb, h2⟩ := mBind_some h
  refine ⟨npop, ?_⟩
  have h5 := Option.some.inj h2
  rw [Prod.mk.injEq] at h5
  rw [← h5.1]
  exact genRecord_best cfg st npop

/-- C6: across the generational loop the tracked incumbent's fitness is
non-increasing; `update_best_solution` replaces the incumbent only by a
defensive copy of a strictly better feasible member (or the first feasible
minimum when none exists), and each generation step keeps the incumbent's
fitness non-increasing. -/
theorem C6_incumbent_monotonic :
    (∀ (pop : List Sol) (best : Option Sol) (b : Sol), best = some b →
      ∃ b2, update_best_solution pop best = some b2 ∧ fitLeP b2.fitness b.fitness) ∧
    (∀ (pop : List Sol) (best : Option Sol),
      update_best_solution pop best ≠ best →
      ∃ c, c ∈ pop ∧ c.is_feasible = true ∧
        update_best_solution pop best = some c.clone ∧
        (best = none ∨ ∀ b, best = some b → fitLtP c.fitness b.fitness)) ∧
    (∀ (P : Problem) (cfg : GAConfig) (g : Orc) (gen : Nat) (st st' : GAState)
        (n0 n1 : Nat) (b : Sol),
      genStep P cfg g gen st n0 = some (st', n1) → st.best_solution = some b →
      ∃ b2, st'.best_solution = some b2 ∧ fitLeP b2.fitness b.fitness) := by
  refine ⟨update_best_mono, update_best_change, ?_⟩
  intro P cfg g gen st st' n0 n1 b h hbest
  obtain ⟨npop, hup⟩ := genStep_best P cfg g gen st st' n0 n1 h
  obtain ⟨b2, hb2, hle⟩ :=
    update_best_mono (npop.take cfg.population_size) st.best_solution b hbest
  exact ⟨b2, by rw [hup, hb2], hle⟩

theorem C6_incumbent_monotonic_witness :
    ∃ b2, update_best_solution [] (some w1Sol) = some b2 ∧
      fitLeP b2.fitness w1Sol.fitness :=
  C6_incumbent_monotonic.1 [] (some w1Sol) w1Sol rfl

/-
Claim C4: capacity after repair.  Dictionary-update and filtered-sum
infrastructure.
-/

theorem dset_cons_ne (p : Nat × Option Nat) (m : List (Nat × Option Nat))
    (k : Nat) (v : Option Nat) (hp : (p.1 == k) = false) :
    dset (p :: m) k v = p :: dset m k v := by
  unfold dset dmem
  simp only [List.find?, hp]
  by_cases hm : (m.find? (fun q => q.1 == k)).isSome = true
  · rw [if_pos hm, if_pos hm, List.map_cons, if_neg (by simp [hp])]
  · rw [if_neg hm, if_neg hm]
    rfl

theorem dset_cons_eq (p : Nat × Option Nat) (m : List (Nat × Option Nat))
    (k : Nat) (v : Option Nat) (hp : (p.1 == k) = true) :
    dset (p :: m) k v =
      (p.1, v) :: m.map (fun q => if q.1 == k then (q.1, v) else q) := by
  unfold dset dmem
  simp only [List.find?, hp]
  rw [if_pos (by simp), List.map_cons, if_pos hp]

theorem dget_map_upd_ne (m : List (Nat × Option Nat)) (k : Nat) (v : Option Nat)
    (k2 : Nat) (h : k2 ≠ k) :
    dget (m.map (fun q => if q.1 == k then (q.1, v) else q)) k2 = dget m k2 := by
  induction m with
  | nil => rfl
  | cons q m ih =>
    by_cases hq : (q.1 == k) = true
    · have hq1 : q.1 = k := by simpa using hq
      have hq2 : (q.1 == k2) = false := by
        simp only [beq_eq_false_iff_ne, ne_eq]
        rw [hq1]
        exact fun hc => h hc.symm
      simp only [List.map_cons, if_pos hq, dget, List.find?, hq2]
      exact ih
    · simp only [List.map_cons, if_neg hq, dget, List.find?]
      by_cases hq2 : (q.1 == k2) = true
      · rw [hq2]
      · rw [Bool.not_eq_true] at hq2
        rw [hq2]
        exact ih

theorem dget_dset_self (m : List (Nat × Option Nat)) (k : Nat) (v : Option Nat) :
    dget (dset m k v) k = v := by
  induction m with
  | nil =>
    simp [dset, dmem, dget, List.find?]
  | cons p m ih =>
    by_cases hp : (p.1 == k) = true
    · rw [dset_cons_eq p m k v hp]
      unfold dget
      rw [List.find?_cons_of_pos _ (by simpa using hp)]
    · rw [dset_cons_ne p m k v (by simpa using hp)]
      simp only [dget, List.find?]
      rw [show (p.1 == k) = false from by simpa using hp]
      exact ih

theorem dget_dset_ne (m : List (Nat × Option Nat)) (k : Nat) (v : Option Nat)
    (k2 : Nat) (h : k2 ≠ k) :
    dget (dset m k v) k2 = dget m k2 := by
  induction m with
  | nil =>
    simp only [dset, dmem, List.find?_nil, Option.isSome_none, Bool.false_eq_true,
      if_false, List.nil_append]
    simp [dget, List.find?, show (k == k2) = false from by
      simp only [beq_eq_false_iff_ne, ne_eq]
      exact fun hc => h hc.symm]
  | cons p m ih =>
    by_cases hp : (p.1 == k) = true
    · rw [dset_cons_eq p m k v hp]
      have hp1 : p.1 = k := by simpa using hp
      have hne : (p.1 == k2) = false := by
        simp only [beq_eq_false_iff_ne, ne_eq]
        rw [hp1]
        exact fun hc => h hc.symm
      simp only [dget, List.find?, hne]
      exact dget_map_upd_ne m k v k2 h
    · rw [dset_cons_ne p m k v (by simpa using hp)]
      simp only [dget, List.find?]
      by_cases hq2 : (p.1 == k2) = true
      · rw [hq2]
      · rw [Bool.not_eq_true] at hq2
        rw [hq2]
        exact ih

theorem dset_keys (m : List (Nat × Option Nat)) (k : Nat) (v : Option Nat)
    (hm : dmem m k = true) : (dset m k v).map (·.1) = m.map (·.1) := by
  unfold dset
  rw [if_pos hm, List.map_map]
  apply List.map_congr_left
  intro p hp
  by_cases hq : (p.1 == k) = true
  · simp [Function.comp, hq]
  · simp [Function.comp, hq]

theorem id_inj_of_nodup {l : List Device} (h : (l.map (·.id)).Nodup) :
    ∀ x ∈ l, ∀ y ∈ l, x.id = y.id → x = y := by
  induction l with
  | nil => intro x hx; cases hx
  | cons z l ih =>
    rw [List.map_cons] at h
    have hz : z.id ∉ l.map (·.id) := (List.nodup_cons.mp h).1
    have hl : (l.map (·.id)).Nodup := (List.nodup_cons.mp h).2
    intro x hx y hy he
    rcases List.mem_cons.mp hx with rfl | hx2
    · rcases List.mem_cons.mp hy with rfl | hy2
      · rfl
      · exfalso
        apply hz
        have hmem : y.id ∈ l.map (·.id) := List.mem_map_of_mem _ hy2
        rwa [← he] at hmem
    · rcases List.mem_cons.mp hy with rfl | hy2
      · exfalso
        apply hz
        have hmem : x.id ∈ l.map (·.id) := List.mem_map_of_mem _ hx2
        rwa [he] at hmem
      · exact ih hl x hx2 y hy2 he

theorem sum_map_filter_le (f : Device → ℚ) (p q : Device → Bool) (l : List Device)
    (hf : ∀ x ∈ l, 0 ≤ f x) (h : ∀ x ∈ l, p x = true → q x = true) :
    ((l.filter p).map f).sum ≤ ((l.filter q).map f).sum := by
  induction l with
  | nil => simp
  | cons x xs ih =>
    have hf2 : ∀ y ∈ xs, 0 ≤ f y := fun y hy => hf y (List.mem_cons_of_mem x hy)
    have h2 : ∀ y ∈ xs, p y = true → q y = true :=
      fun y hy => h y (List.mem_cons_of_mem x hy)
    have hih := ih hf2 h2
    rw [List.filter_cons, List.filter_cons]
    by_cases hp : p x = true
    · rw [if_pos hp, if_pos (h x (List.mem_cons_self x xs) hp)]
      simp only [List.map_cons, List.sum_cons]
      linarith
    · rw [if_neg hp]
      by_cases hq : q x = true
      · rw [if_pos hq]
        simp only [List.map_cons, List.sum_cons]
        have := hf x (List.mem_cons_self x xs)
        linarith
      · rw [if_neg hq]
        exact hih

theorem sum_map_filter_update (f : Device → ℚ) (p q : Device → Bool)
    (l : List Device) (hnd : (l.map (·.id)).Nodup) (d : Device) (hd : d ∈ l)
    (hpd : p d = false) (hqd : q d = true)
    (hsame : ∀ x ∈ l, x.id ≠ d.id → q x = p x) :
    ((l.filter q).map f).sum = ((l.filter p).map f).sum + f d := by
  induction l with
  | nil => cases hd
  | cons x xs ih =>
    rw [List.map_cons] at hnd
    have hz : x.id ∉ xs.map (·.id) := (List.nodup_cons.mp hnd).1
    have hl : (xs.map (·.id)).Nodup := (List.nodup_cons.mp hnd).2
    rcases List.mem_cons.mp hd with rfl | hd2
    · rw [List.filter_cons, List.filter_cons, if_pos hqd,
        if_neg (by rw [hpd]; exact Bool.false_ne_true)]
      have hcong : xs.filter q = xs.filter p := by
        apply List.filter_congr
        intro y hy
        refine hsame y (List.mem_cons_of_mem d hy) ?_
        intro he
        apply hz
        have hmem : y.id ∈ xs.map (·.id) := List.mem_map_of_mem _ hy
        rwa [he] at hmem
      rw [hcong]
      simp only [List.map_cons, List.sum_cons]
      ring
    · have hne : x.id ≠ d.id := by
        intro he
        apply hz
        have hmem : d.id ∈ xs.map (·.id) := List.mem_map_of_mem _ hd2
        rwa [← he] at hmem
      have hx : q x = p x := hsame x (List.mem_cons_self x xs) hne
      have hih := ih hl hd2
        (fun y hy hyne => hsame y (List.mem_cons_of_mem x hy) hyne)
      rw [List.filter_cons, List.filter_cons, hx]
      by_cases hp : p x = true
      · rw [if_pos hp, if_pos hp]
        simp only [List.map_cons, List.sum_cons, hih]
        ring
      · rw [if_neg hp, if_neg hp]
        exact hih

theorem dget_eq_some_mem {m : List (Nat × Option Nat)} {k v : Nat}
    (h : dget m k = some v) : ∃ p ∈ m, p.1 = k ∧ p.2 = some v := by
  unfold dget at h
  cases hf : m.find? (fun p => p.1 == k) with
  | none => rw [hf] at h; cases h
  | some p =>
    rw [hf] at h
    refine ⟨p, List.mem_of_find?_eq_some hf, ?_, h⟩
    have := List.find?_some hf
    simpa using this

theorem gdat_filter (P : Problem) (s : Sol)
    (hkeys : s.assignment_map.map (·.1) = P.devices.map (·.id))
    (hnd : (P.devices.map (·.id)).Nodup) (cid : Nat) :
    get_devices_assigned_to P s cid =
      P.devices.filter (fun d => dget s.assignment_map d.id == some cid) := by
  unfold get_devices_assigned_to
  apply List.filter_congr
  intro d hd
  rw [Bool.eq_iff_iff]
  simp only [decide_eq_true_eq, beq_iff_eq]
  constructor
  · intro hmem
    obtain ⟨p, hpmem, hp1⟩ := List.mem_map.mp hmem
    have hp2 : p ∈ s.assignment_map := List.mem_of_mem_filter hpmem
    have hpv : p.2 = some cid := by
      have := List.of_mem_filter hpmem
      simpa using this
    have hnd2 : (s.assignment_map.map (·.1)).Nodup := by rw [hkeys]; exact hnd
    have hdg := dget_of_mem_nodup hp2 hnd2
    rw [hp1] at hdg
    rw [hdg, hpv]
  · intro hdg
    obtain ⟨p, hpmem, hp1, hp2⟩ := dget_eq_some_mem hdg
    refine List.mem_map.mpr ⟨p, ?_, hp1⟩
    exact List.mem_filter.mpr ⟨hpmem, by simp [hp2]⟩

theorem gdat_sum (P : Problem) (s : Sol) (f : Device → ℚ)
    (hkeys : s.assignment_map.map (·.1) = P.devices.map (·.id))
    (hnd : (P.devices.map (·.id)).Nodup) (cid : Nat) :
    ((get_devices_assigned_to P s cid).map f).sum = siteLoadF P s.assignment_map f cid := by
  rw [gdat_filter P s hkeys hnd cid]
  rfl

/-- Assigning a previously elsewhere-or-unassigned device to `cid` raises
the target site's load by exactly its demand. -/
theorem siteLoadF_assign_target (P : Problem) (am : List (Nat × Option Nat))
    (f : Device → ℚ) (d : Device) (cid : Nat)
    (hnd : (P.devices.map (·.id)).Nodup) (hd : d ∈ P.devices)
    (hprev : dget am d.id ≠ some cid) :
    siteLoadF P (dset am d.id (some cid)) f cid = siteLoadF P am f cid + f d := by
  unfold siteLoadF
  apply sum_map_filter_update _ _ _ _ hnd d hd
  · simp only [beq_eq_false_iff_ne, ne_eq]
    exact hprev
  · simp [dget_dset_self]
  · intro x hx hne
    rw [dget_dset_ne am d.id (some cid) x.id hne]

/-- Any other site's load does not increase when a device is assigned to
`cid`. -/
theorem siteLoadF_assign_le (P : Problem) (am : List (Nat × Option Nat))
    (f : Device → ℚ) (d : Device) (cid c2 : Nat) (h2 : c2 ≠ cid)
    (hnn : ∀ x ∈ P.devices, 0 ≤ f x) :
    siteLoadF P (dset am d.id (some cid)) f c2 ≤ siteLoadF P am f c2 := by
  unfold siteLoadF
  apply sum_map_filter_le _ _ _ _ hnn
  intro x hx hpx
  by_cases hxe : x.id = d.id
  · rw [hxe, dget_dset_self] at hpx
    simp only [beq_iff_eq, Option.some.injEq] at hpx
    exact absurd hpx.symm h2
  · rwa [dget_dset_ne am d.id (some cid) x.id hxe] at hpx

/-- Any other site's load is unchanged when the assigned device was not
serving it before. -/
theorem siteLoadF_assign_other (P : Problem) (am : List (Nat × Option Nat))
    (f : Device → ℚ) (d : Device) (cid c2 : Nat) (h2 : c2 ≠ cid)
    (hold : dget am d.id ≠ some c2) :
    siteLoadF P (dset am d.id (some cid)) f c2 = siteLoadF P am f c2 := by
  unfold siteLoadF
  congr 1
  congr 1
  apply List.filter_congr
  intro x hx
  by_cases hxe : x.id = d.id
  · rw [hxe, dget_dset_self]
    rw [Bool.eq_iff_iff]
    simp only [beq_iff_eq, Option.some.injEq]
    constructor
    · intro hc
      exact absurd hc.symm h2
    · intro hc
      exact absurd hc hold
  · rw [dget_dset_ne am d.id (some cid) x.id hxe]

theorem mem_dset {m : List (Nat × Option Nat)} {k : Nat} {v : Option Nat}
    {p : Nat × Option Nat} (hm : dmem m k = true) (hp : p ∈ dset m k v) :
    (p.1 = k ∧ p.2 = v) ∨ (p ∈ m ∧ p.1 ≠ k) := by
  unfold dset at hp
  rw [if_pos hm] at hp
  obtain ⟨q, hq, hqe⟩ := List.mem_map.mp hp
  by_cases hqk : (q.1 == k) = true
  · rw [if_pos hqk] at hqe
    left
    rw [← hqe]
    exact ⟨by simpa using hqk, rfl⟩
  · rw [if_neg hqk] at hqe
    right
    rw [← hqe]
    exact ⟨hq, by simpa using hqk⟩

theorem assign_device_eq (s : Sol) (did cid : Nat)
    (h1 : dmem s.placement_map cid = true)
    (h2 : (dget s.placement_map cid).isSome = true) :
    assign_device s did cid =
      { s with assignment_map := dset s.assignment_map did (some cid) } := by
  unfold assign_device
  rw [h1, h2]
  rfl

theorem place_cloudlet_eq (s : Sol) (cid tid : Nat)
    (h1 : dmem s.placement_map cid = true) :
    place_cloudlet s cid tid =
      { s with placement_map := dset s.placement_map cid (some tid) } := by
  unfold place_cloudlet
  rw [h1]
  rfl

theorem cpuLoad_eq (P : Problem) (s : Sol) (cid : Nat) :
    cpuLoad P s cid = siteLoadF P s.assignment_map (fun d => d.cpu_demand) cid := rfl

theorem memLoad_eq (P : Problem) (s : Sol) (cid : Nat) :
    memLoad P s cid = siteLoadF P s.assignment_map (fun d => d.memory_demand) cid := rfl

theorem storLoad_eq (P : Problem) (s : Sol) (cid : Nat) :
    storLoad P s cid = siteLoadF P s.assignment_map (fun d => d.storage_demand) cid := rfl

theorem dmem_of_dget_isSome {m : List (Nat × Option Nat)} {k : Nat}
    (h : (dget m k).isSome = true) : dmem m k = true := by
  unfold dget at h
  unfold dmem
  cases hf : m.find? (fun p => p.1 == k) with
  | none => rw [hf] at h; cases h
  | some p => rfl

theorem foldl_choice_mem {α : Type} (g : α → α → α) (hg : ∀ b c, g b c = b ∨ g b c = c) :
    ∀ (cs : List α) (c : α), cs.foldl g c ∈ c :: cs := by
  intro cs
  induction cs with
  | nil => intro c; simp
  | cons x xs ih =>
    intro c
    rw [List.foldl_cons]
    have h := ih (g c x)
    rcases List.mem_cons.mp h with he | hm
    · rw [he]
      rcases hg c x with h1 | h1 <;> rw [h1] <;> simp
    · exact List.mem_cons_of_mem _ (List.mem_cons_of_mem _ hm)

theorem minByDist_mem (P : Problem) (did : Nat) (l : List CandidatePoint)
    (best : CandidatePoint) (h : minByDist P did l = some best) : best ∈ l := by
  cases l with
  | nil => cases h
  | cons c cs =>
    unfold minByDist at h
    have he := Option.some.inj h
    rw [← he]
    exact foldl_choice_mem _ (fun b c2 => by
      by_cases hlt : optLtB (P.get_distance did c2.id) (P.get_distance did b.id) = true
      · right; simp [hlt]
      · left; simp [hlt]) cs c

theorem foldl_id_of_cond {α β : Type} (f : α → β → α) (s : α) :
    ∀ l : List β, (∀ x ∈ l, f s x = s) → l.foldl f s = s := by
  intro l
  induction l with
  | nil => intro _; rfl
  | cons c cs ih =>
    intro h
    rw [List.foldl_cons, h c (List.mem_cons_self c cs)]
    exact ih (fun x hx => h x (List.mem_cons_of_mem c hx))

/-- When every candidate site is already occupied, the forced-placement
fallback finds no empty site and leaves the solution unchanged. -/
theorem repairFallback_noop (P : Problem) (d : Device) (s : Sol)
    (hocc : ∀ c ∈ P.candidate_points, (dget s.placement_map c.id).isSome = true) :
    repairFallback P d s = s := by
  unfold repairFallback
  apply foldl_id_of_cond
  intro c hc
  have h := hocc c hc
  have hfalse : (dget s.placement_map c.id).isNone = false := by
    cases hcase : dget s.placement_map c.id with
    | none => rw [hcase] at h; cases h
    | some a => rfl
  simp only [hfalse, Bool.false_eq_true, if_false]

theorem repairPrimary_spec (P : Problem) (s : Sol) (d : Device) (c : CandidatePoint)
    (h : c ∈ repairPrimary P s d) :
    c ∈ P.candidate_points ∧ ∃ tid, dget s.placement_map c.id = some tid ∧
      ((get_devices_assigned_to P s c.id).map (·.cpu_demand)).sum + d.cpu_demand
          ≤ (typeIdx P tid).cpu_capacity ∧
      ((get_devices_assigned_to P s c.id).map (·.memory_demand)).sum + d.memory_demand
          ≤ (typeIdx P tid).memory_capacity ∧
      ((get_devices_assigned_to P s c.id).map (·.storage_demand)).sum + d.storage_demand
          ≤ (typeIdx P tid).storage_capacity := by
  unfold repairPrimary at h
  rcases List.mem_filter.mp h with ⟨h1, h2⟩
  refine ⟨List.mem_of_mem_filter h1, ?_⟩
  cases hpm : dget s.placement_map c.id with
  | none => rw [hpm] at h2; cases h2
  | some tid =>
    rw [hpm] at h2
    cases hq : P.get_distance d.id c.id with
    | none => rw [hq] at h2; cases h2
    | some q =>
      rw [hq] at h2
      simp only [Bool.and_eq_true, decide_eq_true_eq] at h2
      exact ⟨tid, rfl, h2.1.1.2, h2.1.2, h2.2⟩

/-- Invariant of `repair_solution`'s fold over the unassigned devices when
every candidate site is already occupied (so the fallback never fires):
the placement map is untouched, the assignment keys stay the device ids,
later devices stay unassigned, and no occupied site goes over capacity. -/
theorem repair_fold_inv (P : Problem) (pm0 : List (Nat × Option Nat))
    (hndD : (P.devices.map (·.id)).Nodup)
    (hndP : (pm0.map (·.1)).Nodup)
    (hocc : ∀ c ∈ P.candidate_points, (dget pm0 c.id).isSome = true) :
    ∀ (l : List Device) (s : Sol),
      (∀ x ∈ l, x ∈ P.devices) →
      (l.map (·.id)).Nodup →
      (∀ x ∈ l, dget s.assignment_map x.id = none) →
      s.placement_map = pm0 →
      s.assignment_map.map (·.1) = P.devices.map (·.id) →
      SiteCapOk P s →
      (l.foldl (repairStep P) s).placement_map = pm0 ∧
      (l.foldl (repairStep P) s).assignment_map.map (·.1) = P.devices.map (·.id) ∧
      SiteCapOk P (l.foldl (repairStep P) s) := by
  intro l
  induction l with
  | nil => intro s _ _ _ hpm hkeys hcap; exact ⟨hpm, hkeys, hcap⟩
  | cons d l ih =>
    intro s hsub hnd hun hpm hkeys hcap
    rw [List.map_cons] at hnd
    have hdl : d.id ∉ l.map (·.id) := (List.nodup_cons.mp hnd).1
    have hndl : (l.map (·.id)).Nodup := (List.nodup_cons.mp hnd).2
    have hdP : d ∈ P.devices := hsub d (List.mem_cons_self d l)
    have hsubl : ∀ x ∈ l, x ∈ P.devices := fun x hx => hsub x (List.mem_cons_of_mem d hx)
    have hd0 : dget s.assignment_map d.id = none := hun d (List.mem_cons_self d l)
    rw [List.foldl_cons]
    have hstep : (repairStep P s d).placement_map = pm0 ∧
        (∀ x ∈ l, dget (repairStep P s d).assignment_map x.id = none) ∧
        (repairStep P s d).assignment_map.map (·.1) = P.devices.map (·.id) ∧
        SiteCapOk P (repairStep P s d) := by
      cases hmb : minByDist P d.id (repairPrimary P s d) with
      | none =>
        have hred : repairStep P s d = repairFallback P d s := by
          unfold repairStep
          rw [hmb]
        rw [hred, repairFallback_noop P d s (by rw [hpm]; exact hocc)]
        exact ⟨hpm, fun x hx => hun x (List.mem_cons_of_mem d hx), hkeys, hcap⟩
      | some best =>
        have hbestmem := minByDist_mem P d.id _ best hmb
        obtain ⟨hcmem, tid, hptid, hcpu, hmem2, hsto⟩ := repairPrimary_spec P s d best hbestmem
        have hdmemP : dmem s.placement_map best.id = true :=
          dmem_of_dget_isSome (by rw [hptid]; rfl)
        have hdmemA : dmem s.assignment_map d.id = true := by
          rw [dmem_iff, hkeys]
          exact List.mem_map_of_mem _ hdP
        have hred : repairStep P s d = assign_device s d.id best.id := by
          unfold repairStep
          rw [hmb]
        rw [hred, assign_device_eq s d.id best.id hdmemP (by rw [hptid]; rfl)]
        refine ⟨hpm, ?_, ?_, ?_⟩
        · intro x hx
          have hne : x.id ≠ d.id := by
            intro he
            apply hdl
            have hmem : x.id ∈ l.map (·.id) := List.mem_map_of_mem _ hx
            rwa [he] at hmem
          show dget (dset s.assignment_map d.id (some best.id)) x.id = none
          rw [dget_dset_ne _ _ _ _ hne]
          exact hun x (List.mem_cons_of_mem d hx)
        · show (dset s.assignment_map d.id (some best.id)).map (·.1) = _
          rw [dset_keys _ _ _ hdmemA]
          exact hkeys
        · intro p hp tid2 hp2
          have hp' : p ∈ s.placement_map := hp
          have hpnd : (s.placement_map.map (·.1)).Nodup := by rw [hpm]; exact hndP
          have hdgp : dget s.placement_map p.1 = some tid2 := by
            rw [dget_of_mem_nodup hp' hpnd]; exact hp2
          have hnew : ∀ f : Device → ℚ,
              siteLoadF P (dset s.assignment_map d.id (some best.id)) f p.1 ≤
                siteLoadF P s.assignment_map f p.1 + (if p.1 = best.id then f d else 0) := by
            intro f
            by_cases hpb : p.1 = best.id
            · rw [if_pos hpb, hpb]
              rw [siteLoadF_assign_target P s.assignment_map f d best.id hndD hdP
                (by rw [hd0]; exact fun hcon => Option.noConfusion hcon)]
            · rw [if_neg hpb]
              rw [siteLoadF_assign_other P s.assignment_map f d best.id p.1 hpb
                (by rw [hd0]; exact fun hcon => Option.noConfusion hcon)]
              simp
          obtain ⟨hc1, hc2, hc3⟩ := hcap p hp' tid2 hp2
          by_cases hpb : p.1 = best.id
          · have htid2 : tid2 = tid := by
              rw [hpb] at hdgp
              rw [hdgp] at hptid
              exact Option.some.inj hptid
            rw [htid2]
            have hg1 := gdat_sum P s (fun x => x.cpu_demand) hkeys hndD best.id
            have hg2 := gdat_sum P s (fun x => x.memory_demand) hkeys hndD best.id
            have hg3 := gdat_sum P s (fun x => x.storage_demand) hkeys hndD best.id
            refine ⟨?_, ?_, ?_⟩
            · have h1 := hnew (fun x => x.cpu_demand)
              rw [if_pos hpb] at h1
              rw [cpuLoad_eq]
              rw [cpuLoad_eq] at hc1
              calc siteLoadF P (dset s.assignment_map d.id (some best.id))
                    (fun x => x.cpu_demand) p.1
                  ≤ siteLoadF P s.assignment_map (fun x => x.cpu_demand) p.1 + d.cpu_demand := h1
                _ ≤ (typeIdx P tid).cpu_capacity := by rw [hpb, ← hg1]; exact hcpu
            · have h1 := hnew (fun x => x.memory_demand)
              rw [if_pos hpb] at h1
              rw [memLoad_eq]
              calc siteLoadF P (dset s.assignment_map d.id (some best.id))
                    (fun x => x.memory_demand) p.1
                  ≤ siteLoadF P s.assignment_map (fun x => x.memory_demand) p.1 + d.memory_demand := h1
                _ ≤ (typeIdx P tid).memory_capacity := by rw [hpb, ← hg2]; exact hmem2
            · have h1 := hnew (fun x => x.storage_demand)
              rw [if_pos hpb] at h1
              rw [storLoad_eq]
              calc siteLoadF P (dset s.assignment_map d.id (some best.id))
                    (fun x => x.storage_demand) p.1
                  ≤ siteLoadF P s.assignment_map (fun x => x.storage_demand) p.1 + d.storage_demand := h1
                _ ≤ (typeIdx P tid).storage_capacity := by rw [hpb, ← hg3]; exact hsto
          · refine ⟨?_, ?_, ?_⟩
            · have h1 := hnew (fun x => x.cpu_demand)
              rw [if_neg hpb, add_zero] at h1
              rw [cpuLoad_eq]
              rw [cpuLoad_eq] at hc1
              exact le_trans h1 hc1
            · have h1 := hnew (fun x => x.memory_demand)
              rw [if_neg hpb, add_zero] at h1
              rw [memLoad_eq]
              rw [memLoad_eq] at hc2
              exact le_trans h1 hc2
            · have h1 := hnew (fun x => x.storage_demand)
              rw [if_neg hpb, add_zero] at h1
              rw [storLoad_eq]
              rw [storLoad_eq] at hc3
              exact le_trans h1 hc3
    exact ih (repairStep P s d) hsubl hndl hstep.2.1 hstep.1 hstep.2.2.1 hstep.2.2.2

theorem SiteCapOk_maps (P : Problem) (s t : Sol)
    (hp : t.placement_map = s.placement_map) (ha : t.assignment_map = s.assignment_map) :
    SiteCapOk P t ↔ SiteCapOk P s := by
  unfold SiteCapOk cpuLoad memLoad storLoad
  rw [hp, ha]

/-- C4: after `repair_solution`, no occupied site is over its placed
type's cpu, memory or storage capacity — provided the input solution
already satisfies the capacity bounds (repair never removes a pre-existing
violation) and every candidate site is already occupied, so the
capacity-ignoring forced-placement fallback never fires and every repaired
device goes through the capacity-checked greedy branch, which leaves a
device unassigned rather than assigning it in violation of capacity. -/
theorem C4_repair_capacity (P : Problem) (alpha : ℚ) (s : Sol)
    (hndD : (P.devices.map (·.id)).Nodup)
    (hndC : (P.candidate_points.map (·.id)).Nodup)
    (hkeysA : s.assignment_map.map (·.1) = P.devices.map (·.id))
    (hkeysP : s.placement_map.map (·.1) = P.candidate_points.map (·.id))
    (hocc : ∀ c ∈ P.candidate_points, (dget s.placement_map c.id).isSome = true)
    (hcap : SiteCapOk P s) :
    SiteCapOk P (repair_solution P alpha s) := by
  have hres : repair_solution P alpha s =
      evaluate P ((P.devices.filter
        (fun d => (dget s.assignment_map d.id).isNone)).foldl (repairStep P) s) alpha := rfl
  rw [hres]
  rw [SiteCapOk_maps P _ _ (evaluate_placement_map P _ alpha) (evaluate_assignment_map P _ alpha)]
  have hmain := repair_fold_inv P s.placement_map hndD (by rw [hkeysP]; exact hndC) hocc
    (P.devices.filter (fun d => (dget s.assignment_map d.id).isNone)) s
    (fun x hx => List.mem_of_mem_filter hx)
    (List.Nodup.sublist (List.Sublist.map _ (List.filter_sublist _)) hndD)
    (fun x hx => by
      have h := List.of_mem_filter hx
      simpa [Option.isNone_iff_eq_none] using h)
    rfl hkeysA hcap
  exact hmain.2.2

/-- C4 counterexamples.  (a) `c4aSol` assigns two cpu-demand-1 devices to a
site whose placed type has cpu capacity 1; repair finds no unassigned
device, returns the solution as-is, and the pre-existing violation
persists.  (b) On `c4bP` the greedy branch finds no site, so the fallback
force-places a type and force-assigns a device of cpu demand 10 to it
against a cpu capacity of 1, without any capacity check. -/
theorem C4_repair_capacity_counterexample :
    ¬ SiteCapOk c4aP (repair_solution c4aP (1 / 2) c4aSol) ∧
    ¬ SiteCapOk c4bP (repair_solution c4bP (1 / 2) c4bSol) := by
  constructor
  · intro h
    have hpmv : (repair_solution c4aP (1 / 2) c4aSol).placement_map = [(0, some 0)] := rfl
    have hamv : (repair_solution c4aP (1 / 2) c4aSol).assignment_map =
        [(0, some 0), (1, some 0)] := rfl
    have hm : ((0 : Nat), (some 0 : Option Nat)) ∈
        (repair_solution c4aP (1 / 2) c4aSol).placement_map := by
      rw [hpmv]
      exact List.mem_singleton.mpr rfl
    have hb := (h _ hm 0 rfl).1
    have hfil : c4aP.devices.filter
        (fun d => dget [(0, some 0), (1, some 0)] d.id == some 0) = c4aP.devices := rfl
    have hc : cpuLoad c4aP (repair_solution c4aP (1 / 2) c4aSol) 0 = 2 := by
      unfold cpuLoad
      rw [hamv, hfil]
      norm_num [c4aP, List.map_cons, List.map_nil, List.sum_cons, List.sum_nil]
    have hcap1 : (typeIdx c4aP 0).cpu_capacity = 1 := rfl
    rw [hc, hcap1] at hb
    norm_num at hb
  · intro h
    have hpmv : (repair_solution c4bP (1 / 2) c4bSol).placement_map = [(0, some 0)] := rfl
    have hamv : (repair_solution c4bP (1 / 2) c4bSol).assignment_map = [(0, some 0)] := rfl
    have hm : ((0 : Nat), (some 0 : Option Nat)) ∈
        (repair_solution c4bP (1 / 2) c4bSol).placement_map := by
      rw [hpmv]
      exact List.mem_singleton.mpr rfl
    have hb := (h _ hm 0 rfl).1
    have hfil : c4bP.devices.filter
        (fun d => dget [(0, some 0)] d.id == some 0) = c4bP.devices := rfl
    have hc : cpuLoad c4bP (repair_solution c4bP (1 / 2) c4bSol) 0 = 10 := by
      unfold cpuLoad
      rw [hamv, hfil]
      norm_num [c4bP, List.map_cons, List.map_nil, List.sum_cons, List.sum_nil]
    have hcap1 : (typeIdx c4bP 0).cpu_capacity = 1 := rfl
    rw [hc, hcap1] at hb
    norm_num at hb

/-- C4 witness: the repaired scenario with one device, one occupied site
and ample capacity satisfies the capacity bounds. -/
theorem C4_repair_capacity_witness :
    SiteCapOk w1P (repair_solution w1P (1 / 2) w1Sol) :=
  C4_repair_capacity w1P (1 / 2) w1Sol (by decide) (by decide) rfl rfl (by decide)
    (by
      intro p hp tid hp2
      have hp' : p = (0, some 0) := List.mem_singleton.mp hp
      subst hp'
      have ht : tid = 0 := (Option.some.inj hp2).symm
      subst ht
      refine ⟨?_, ?_, ?_⟩ <;>
        norm_num [cpuLoad, memLoad, storLoad, dget, typeIdx, w1P, w1Sol, w1Type,
          List.filter, List.find?])

/-
Claim C5: the simulated-annealing walk.  Boolean-equality bridge and
projection values of the concrete walk states let the mutation runs reduce.
-/

theorem beq_eq_decideEq {α : Type} [DecidableEq α] [BEq α] [LawfulBEq α] (a b : α) :
    (a == b) = decide (a = b) := by
  by_cases h : a = b <;> simp [h]

theorem c5s0_pm : c5s0.placement_map = [(0, some 1)] := rfl

theorem c5s0_am : c5s0.assignment_map = [(0, some 0)] := rfl

theorem c5n1_pm : c5n1.placement_map = [(0, some 0)] := rfl

theorem c5n1_am : c5n1.assignment_map = [(0, some 0)] := rfl

theorem c5n2_pm : c5n2.placement_map = [(0, some 1)] := rfl

theorem c5n2_am : c5n2.assignment_map = [(0, some 0)] := rfl

theorem someEqNoneFalse {α : Type} (a : α) : ((some a : Option α) = none) = False :=
  eq_false (fun h => Option.noConfusion h)

theorem noneEqSomeFalse {α : Type} (a : α) : ((none : Option α) = some a) = False :=
  eq_false (fun h => Option.noConfusion h)

theorem c5_mut1 : mutate c5P c5cfg c5g c5s0 0 = some (c5n1, 4) := by
  unfold mutate
  norm_num [mBind_def, mPure_def, mBind, mPure, randomM, choiceM, Sol.clone_eq,
    c5cfg, c5g, c5s0_pm, c5s0_am, beq_eq_decideEq,
    dget, dmem, dset, place_cloudlet, remove_cloudlet, reassign_devices, reassignStep,
    assign_device, get_devices_assigned_to, typeIdx, Problem.get_distance, c5P, optLtB,
    someEqNoneFalse, noneEqSomeFalse,
    List.filter, List.find?, List.foldl_cons, List.foldl_nil, List.getD, c5n1, c5m1]

theorem c5_mut2 : mutate c5P c5cfg c5g c5n1 4 = some (c5n2, 8) := by
  unfold mutate
  norm_num [mBind_def, mPure_def, mBind, mPure, randomM, choiceM, Sol.clone_eq,
    c5cfg, c5g, c5n1_pm, c5n1_am, beq_eq_decideEq,
    dget, dmem, dset, place_cloudlet, remove_cloudlet, reassign_devices, reassignStep,
    assign_device, get_devices_assigned_to, typeIdx, Problem.get_distance, c5P, optLtB,
    someEqNoneFalse, noneEqSomeFalse,
    List.filter, List.find?, List.foldl_cons, List.foldl_nil, List.getD, c5n2, c5m2]

theorem c5_mut3 : mutate c5P c5cfg c5g c5n2 9 = some (c5n3, 12) := by
  unfold mutate
  norm_num [mBind_def, mPure_def, mBind, mPure, randomM, choiceM, Sol.clone_eq,
    c5cfg, c5g, c5n2_pm, c5n2_am, beq_eq_decideEq,
    dget, dmem, dset, place_cloudlet, remove_cloudlet, reassign_devices, reassignStep,
    assign_device, get_devices_assigned_to, typeIdx, Problem.get_distance, c5P, optLtB,
    someEqNoneFalse, noneEqSomeFalse,
    List.filter, List.find?, List.foldl_cons, List.foldl_nil, List.getD, c5n3, c5m3]

theorem c5_mut4 : mutate c5P c5cfg c5g c5n2 13 = some (c5n3, 16) := by
  unfold mutate
  norm_num [mBind_def, mPure_def, mBind, mPure, randomM, choiceM, Sol.clone_eq,
    c5cfg, c5g, c5n2_pm, c5n2_am, beq_eq_decideEq,
    dget, dmem, dset, place_cloudlet, remove_cloudlet, reassign_devices, reassignStep,
    assign_device, get_devices_assigned_to, typeIdx, Problem.get_distance, c5P, optLtB,
    someEqNoneFalse, noneEqSomeFalse,
    List.filter, List.find?, List.foldl_cons, List.foldl_nil, List.getD, c5n3, c5m3]

theorem c5_mut5 : mutate c5P c5cfg c5g c5n2 17 = some (c5n3, 20) := by
  unfold mutate
  norm_num [mBind_def, mPure_def, mBind, mPure, randomM, choiceM, Sol.clone_eq,
    c5cfg, c5g, c5n2_pm, c5n2_am, beq_eq_decideEq,
    dget, dmem, dset, place_cloudlet, remove_cloudlet, reassign_devices, reassignStep,
    assign_device, get_devices_assigned_to, typeIdx, Problem.get_distance, c5P, optLtB,
    someEqNoneFalse, noneEqSomeFalse,
    List.filter, List.find?, List.foldl_cons, List.foldl_nil, List.getD, c5n3, c5m3]

theorem c5s0_fit : c5s0.fitness = some ⟨5 / 8, 0⟩ := by
  norm_num [c5s0, c5raw, evaluate, evalFeas5, evalR3, evalFeas1, evalOcc, evalStep, evalCost,
    dget, dmem, dset, typeIdx, siteFind, uAdd, Problem.get_distance, capEntryOk, devOkB,
    maxPossibleCost, c5P, Q2.hadd_def, Q2.hmul_def, Q2.hsub_def, Q2.hinv_def, Q2.hdiv_def,
    Q2.ofQ_def, Q2.sqrt2_def, List.filterMap_cons, Option.map_some', Option.map_none',
    List.getD, List.find?, List.foldl_cons, List.foldl_nil]

theorem c5n1_fit : c5n1.fitness = some ⟨5 / 24, 0⟩ := by
  norm_num [c5n1, c5m1, evaluate, evalFeas5, evalR3, evalFeas1, evalOcc, evalStep, evalCost,
    dget, dmem, dset, typeIdx, siteFind, uAdd, Problem.get_distance, capEntryOk, devOkB,
    maxPossibleCost, c5P, Q2.hadd_def, Q2.hmul_def, Q2.hsub_def, Q2.hinv_def, Q2.hdiv_def,
    Q2.ofQ_def, Q2.sqrt2_def, List.filterMap_cons, Option.map_some', Option.map_none',
    List.getD, List.find?, List.foldl_cons, List.foldl_nil]

theorem c5n2_fit : c5n2.fitness = some ⟨5 / 8, 0⟩ := by
  norm_num [c5n2, c5m2, evaluate, evalFeas5, evalR3, evalFeas1, evalOcc, evalStep, evalCost,
    dget, dmem, dset, typeIdx, siteFind, uAdd, Problem.get_distance, capEntryOk, devOkB,
    maxPossibleCost, c5P, Q2.hadd_def, Q2.hmul_def, Q2.hsub_def, Q2.hinv_def, Q2.hdiv_def,
    Q2.ofQ_def, Q2.sqrt2_def, List.filterMap_cons, Option.map_some', Option.map_none',
    List.getD, List.find?, List.foldl_cons, List.foldl_nil]

theorem c5n3_fit : c5n3.fitness = none := by
  norm_num [c5n3, c5m3, evaluate, evalFeas5, evalR3, evalFeas1, evalOcc, evalStep, evalCost,
    dget, dmem, dset, typeIdx, siteFind, uAdd, Problem.get_distance, capEntryOk, devOkB,
    maxPossibleCost, c5P, Q2.hadd_def, Q2.hmul_def, Q2.hsub_def, Q2.hinv_def, Q2.hdiv_def,
    Q2.ofQ_def, Q2.sqrt2_def, List.filterMap_cons, Option.map_some', Option.map_none',
    List.getD, List.find?, List.foldl_cons, List.foldl_nil]

theorem mBind_eval {α β : Type} {x : M α} {f : α → M β} {n n2 : Nat} {a : α}
    (hx : x n = some (a, n2)) : (x >>= f) n = f a n2 := by
  show mBind x f n = f a n2
  unfold mBind
  rw [hx]

/-- A Metropolis draw of 0 accepts any finite-fitness neighbor: the
exponential is positive. -/
theorem metAccept_zero (nq cq : Q2) (T : ℚ) : metAccept 0 (some nq) (some cq) T = true := by
  unfold metAccept
  simp only [decide_eq_true_eq]
  push_cast
  exact Real.exp_pos _

/-- An infeasible neighbor (infinite fitness) is never Metropolis-accepted. -/
theorem metAccept_inf (r : ℚ) (cf : Fit) (T : ℚ) : metAccept r none cf T = false := rfl

theorem c5_step1 : saStep c5P c5cfg c5g 1 c5s0 0 = some (c5n1, 4) := by
  have hlt : fitLtB c5n1.fitness c5s0.fitness = true := by
    rw [c5n1_fit, c5s0_fit]
    norm_num [fitLtB, Q2.ltB]
  unfold saStep
  rw [mBind_eval c5_mut1]
  simp only [hlt, if_true]
  rfl

theorem c5_step2 : saStep c5P c5cfg c5g 1 c5n1 4 = some (c5n2, 9) := by
  have hlt : fitLtB c5n2.fitness c5n1.fitness = false := by
    rw [c5n2_fit, c5n1_fit]
    norm_num [fitLtB, Q2.ltB]
  have hacc : metAccept 0 c5n2.fitness c5n1.fitness 1 = true := by
    rw [c5n2_fit, c5n1_fit]
    exact metAccept_zero _ _ _
  unfold saStep
  rw [mBind_eval c5_mut2]
  simp only [hlt, Bool.false_eq_true, if_false]
  rw [mBind_eval (show randomM c5g 8 = some (0, 9) from rfl)]
  simp only [hacc, if_true]
  rfl

theorem c5_step3 : saStep c5P c5cfg c5g 1 c5n2 9 = some (c5n2, 13) := by
  have hlt : fitLtB c5n3.fitness c5n2.fitness = false := by
    rw [c5n3_fit, c5n2_fit]
    norm_num [fitLtB]
  have hacc : metAccept 0 c5n3.fitness c5n2.fitness 1 = false := by
    rw [c5n3_fit]
    exact metAccept_inf _ _ _
  unfold saStep
  rw [mBind_eval c5_mut3]
  simp only [hlt, Bool.false_eq_true, if_false]
  rw [mBind_eval (show randomM c5g 12 = some (0, 13) from rfl)]
  simp only [hacc, Bool.false_eq_true, if_false]
  rfl

theorem c5_step4 : saStep c5P c5cfg c5g 1 c5n2 13 = some (c5n2, 17) := by
  have hlt : fitLtB c5n3.fitness c5n2.fitness = false := by
    rw [c5n3_fit, c5n2_fit]
    norm_num [fitLtB]
  have hacc : metAccept 0 c5n3.fitness c5n2.fitness 1 = false := by
    rw [c5n3_fit]
    exact metAccept_inf _ _ _
  unfold saStep
  rw [mBind_eval c5_mut4]
  simp only [hlt, Bool.false_eq_true, if_false]
  rw [mBind_eval (show randomM c5g 16 = some (0, 17) from rfl)]
  simp only [hacc, Bool.false_eq_true, if_false]
  rfl

theorem c5_step5 : saStep c5P c5cfg c5g 1 c5n2 17 = some (c5n2, 21) := by
  have hlt : fitLtB c5n3.fitness c5n2.fitness = false := by
    rw [c5n3_fit, c5n2_fit]
    norm_num [fitLtB]
  have hacc : metAccept 0 c5n3.fitness c5n2.fitness 1 = false := by
    rw [c5n3_fit]
    exact metAccept_inf _ _ _
  unfold saStep
  rw [mBind_eval c5_mut5]
  simp only [hlt, Bool.false_eq_true, if_false]
  rw [mBind_eval (show randomM c5g 20 = some (0, 21) from rfl)]
  simp only [hacc, Bool.false_eq_true, if_false]
  rfl

/-- The full 5-step walk of the counterexample returns the second (worse)
neighbor accepted at step 2, not the strictly better first neighbor. -/
theorem c5_run : simulated_annealing_improvement c5P c5cfg c5g c5s0 1 0 = some (c5n2, 21) := by
  have hcond : (!c5cfg.use_sa || decide ((1 : ℚ) < 1 / 10)) = false := by norm_num [c5cfg]
  unfold simulated_annealing_improvement
  rw [hcond]
  show List.foldlM (fun cur _ => saStep c5P c5cfg c5g 1 cur) c5s0.clone (List.range 5) 0 =
    some (c5n2, 21)
  rw [Sol.clone_eq, show List.range 5 = [0, 1, 2, 3, 4] from rfl]
  rw [List.foldlM_cons, mBind_eval c5_step1]
  show List.foldlM (fun cur _ => saStep c5P c5cfg c5g 1 cur) c5n1 [1, 2, 3, 4] 4 =
    some (c5n2, 21)
  rw [List.foldlM_cons, mBind_eval c5_step2]
  show List.foldlM (fun cur _ => saStep c5P c5cfg c5g 1 cur) c5n2 [2, 3, 4] 9 =
    some (c5n2, 21)
  rw [List.foldlM_cons, mBind_eval c5_step3]
  show List.foldlM (fun cur _ => saStep c5P c5cfg c5g 1 cur) c5n2 [3, 4] 13 =
    some (c5n2, 21)
  rw [List.foldlM_cons, mBind_eval c5_step4]
  show List.foldlM (fun cur _ => saStep c5P c5cfg c5g 1 cur) c5n2 [4] 17 =
    some (c5n2, 21)
  rw [List.foldlM_cons, mBind_eval c5_step5]
  rfl

/-- During the walk a strictly better solution than the returned one was
encountered (the step-1 neighbor). -/
theorem c5_lt : fitLtP c5n1.fitness c5n2.fitness := by
  rw [c5n1_fit, c5n2_fit]
  show Q2.toReal ⟨5 / 24, 0⟩ < Q2.toReal ⟨5 / 8, 0⟩
  simp only [Q2.toReal]
  norm_num

/-- C5: `simulated_annealing_improvement` returns its input unchanged when
SA is disabled or the temperature is below 0.1; otherwise it performs
exactly 5 neighbor steps starting from a clone of the input, each step
accepting an improving neighbor unconditionally and a non-improving one
exactly when the Metropolis draw against exp(-delta/temperature) passes,
and it returns the final state of the walk — not, as claimed, the
lowest-fitness solution encountered along it (see the counterexample). -/
theorem C5_simulated_annealing :
    (∀ (P : Problem) (cfg : GAConfig) (g : Orc) (s : Sol) (T : ℚ) (n : Nat),
      cfg.use_sa = false ∨ T < 1 / 10 →
      simulated_annealing_improvement P cfg g s T n = some (s, n)) ∧
    (∀ (P : Problem) (cfg : GAConfig) (g : Orc) (s : Sol) (T : ℚ) (n : Nat)
        (res : Sol) (k : Nat),
      cfg.use_sa = true → ¬ T < 1 / 10 →
      simulated_annealing_improvement P cfg g s T n = some (res, k) →
      ∃ s1 n1 s2 n2 s3 n3 s4 n4,
        saStep P cfg g T s.clone n = some (s1, n1) ∧
        saStep P cfg g T s1 n1 = some (s2, n2) ∧
        saStep P cfg g T s2 n2 = some (s3, n3) ∧
        saStep P cfg g T s3 n3 = some (s4, n4) ∧
        saStep P cfg g T s4 n4 = some (res, k)) ∧
    (∀ (P : Problem) (cfg : GAConfig) (g : Orc) (T : ℚ) (cur : Sol) (n : Nat)
        (next : Sol) (k : Nat),
      saStep P cfg g T cur n = some (next, k) →
      ∃ nb m, mutate P cfg g cur n = some (nb, m) ∧
        ((fitLtP nb.fitness cur.fitness ∧ next = nb ∧ k = m) ∨
         (¬ fitLtP nb.fitness cur.fitness ∧ k = m + 1 ∧
           ((metAccept (g.oq m) nb.fitness cur.fitness T = true ∧ next = nb) ∨
            (metAccept (g.oq m) nb.fitness cur.fitness T = false ∧ next = cur))))) := by
  refine ⟨?_, ?_, ?_⟩
  · intro P cfg g s T n h
    have hcond : (!cfg.use_sa || decide (T < 1 / 10)) = true := by
      rcases h with h | h
      · rw [h]
        rfl
      · rw [decide_eq_true h]
        simp
    unfold simulated_annealing_improvement
    rw [hcond]
    rfl
  · intro P cfg g s T n res k h1 h2 h
    have hcond : (!cfg.use_sa || decide (T < 1 / 10)) = false := by
      rw [h1, decide_eq_false h2]
      rfl
    unfold simulated_annealing_improvement at h
    rw [hcond] at h
    simp only [Bool.false_eq_true, if_false,
      show List.range 5 = [0, 1, 2, 3, 4] from rfl,
      List.foldlM_cons, List.foldlM_nil, mBind_def, mPure_def] at h
    obtain ⟨s1, n1, hs1, h⟩ := mBind_some h
    obtain ⟨s2, n2, hs2, h⟩ := mBind_some h
    obtain ⟨s3, n3, hs3, h⟩ := mBind_some h
    obtain ⟨s4, n4, hs4, h⟩ := mBind_some h
    obtain ⟨s5, n5, hs5, h⟩ := mBind_some h
    unfold mPure at h
    have h5 := Option.some.inj h
    rw [Prod.mk.injEq] at h5
    refine ⟨s1, n1, s2, n2, s3, n3, s4, n4, hs1, hs2, hs3, hs4, ?_⟩
    rw [← h5.1, ← h5.2]
    exact hs5
  · intro P cfg g T cur n next k h
    unfold saStep at h
    simp only [mBind_def, mPure_def] at h
    obtain ⟨nb, m, hmut, h⟩ := mBind_some h
    refine ⟨nb, m, hmut, ?_⟩
    by_cases hb : fitLtB nb.fitness cur.fitness = true
    · simp only [hb, if_true] at h
      unfold mPure at h
      have h5 := Option.some.inj h
      rw [Prod.mk.injEq] at h5
      exact Or.inl ⟨(fitLtB_iff _ _).mp hb, h5.1.symm, h5.2.symm⟩
    · rw [Bool.not_eq_true] at hb
      simp only [hb, Bool.false_eq_true, if_false, mBind_def] at h
      obtain ⟨r, m2, hr, h⟩ := mBind_some h
      unfold randomM at hr
      have hr5 := Option.some.inj hr
      rw [Prod.mk.injEq] at hr5
      have hnp : ¬ fitLtP nb.fitness cur.fitness := fun hp =>
        absurd ((fitLtB_iff _ _).mpr hp) (by rw [hb]; exact Bool.false_ne_true)
      by_cases hm : metAccept r nb.fitness cur.fitness T = true
      · simp only [hm, if_true] at h
        unfold mPure at h
        have h5 := Option.some.inj h
        rw [Prod.mk.injEq] at h5
        refine Or.inr ⟨hnp, by rw [← h5.2, ← hr5.2], Or.inl ⟨?_, h5.1.symm⟩⟩
        rw [hr5.1]
        exact hm
      · rw [Bool.not_eq_true] at hm
        simp only [hm, Bool.false_eq_true, if_false] at h
        unfold mPure at h
        have h5 := Option.some.inj h
        rw [Prod.mk.injEq] at h5
        refine Or.inr ⟨hnp, by rw [← h5.2, ← hr5.2], Or.inr ⟨?_, h5.1.symm⟩⟩
        rw [hr5.1]
        exact hm

/-- C5 counterexample: on the scripted walk the returned solution is the
worse neighbor Metropolis-accepted at step 2, while the walk's own first
step produced (and then abandoned) a strictly better solution — so the
routine does not return the lowest-fitness solution encountered. -/
theorem C5_simulated_annealing_counterexample :
    ∃ res mid : Sol, ∃ k m : Nat,
      simulated_annealing_improvement c5P c5cfg c5g c5s0 1 0 = some (res, k) ∧
      saStep c5P c5cfg c5g 1 c5s0.clone 0 = some (mid, m) ∧
      fitLtP mid.fitness res.fitness :=
  ⟨c5n2, c5n1, 21, 4, c5_run, by rw [Sol.clone_eq]; exact c5_step1, c5_lt⟩

/-- C5 witness: the disabled-SA identity at a concrete run, and the
acceptance characterization of the concrete first walk step. -/
theorem C5_simulated_annealing_witness :
    simulated_annealing_improvement c5P c5cfgOff c5g c5s0 1 0 = some (c5s0, 0) ∧
    (∃ nb m, mutate c5P c5cfg c5g c5s0 0 = some (nb, m) ∧
      ((fitLtP nb.fitness c5s0.fitness ∧ c5n1 = nb ∧ 4 = m) ∨
       (¬ fitLtP nb.fitness c5s0.fitness ∧ 4 = m + 1 ∧
         ((metAccept (c5g.oq m) nb.fitness c5s0.fitness 1 = true ∧ c5n1 = nb) ∨
          (metAccept (c5g.oq m) nb.fitness c5s0.fitness 1 = false ∧ c5n1 = c5s0))))) :=
  ⟨C5_simulated_annealing.1 c5P c5cfgOff c5g c5s0 1 0 (Or.inl rfl),
   C5_simulated_annealing.2.2 c5P c5cfg c5g 1 c5s0 0 c5n1 4 c5_step1⟩

/-
Claim C9: totality of `evolve`.  Combinators for the totality predicate.
-/

theorem mTotal_bind2 {α β : Type} {x : M α} {f : α → M β} (hx : MTotal x)
    (hf : ∀ n a n2, x n = some (a, n2) → ∃ r, f a n2 = some r) : MTotal (x >>= f) := by
  intro n
  obtain ⟨⟨a, n2⟩, hx2⟩ := hx n
  obtain ⟨r, hf2⟩ := hf n a n2 hx2
  refine ⟨r, ?_⟩
  rw [mBind_eval hx2]
  exact hf2

theorem mTotal_bind {α β : Type} {x : M α} {f : α → M β} (hx : MTotal x)
    (hf : ∀ a, MTotal (f a)) : MTotal (x >>= f) :=
  mTotal_bind2 hx (fun _ a n2 _ => hf a n2)

theorem mTotal_pure {α : Type} (a : α) : MTotal (pure a : M α) :=
  fun n => ⟨(a, n), rfl⟩

theorem mTotal_randomM (g : Orc) : MTotal (randomM g) :=
  fun n => ⟨(g.oq n, n + 1), rfl⟩

theorem mTotal_randintM (g : Orc) {lo hi : Nat} (h : lo ≤ hi) :
    MTotal (randintM g lo hi) := by
  intro n
  refine ⟨(lo + g.onat n % (hi - lo + 1), n + 1), ?_⟩
  unfold randintM
  rw [if_neg (not_lt.mpr h)]

theorem mTotal_choiceM {α : Type} (g : Orc) {l : List α} (h : l ≠ []) :
    MTotal (choiceM g l) := by
  intro n
  cases l with
  | nil => exact absurd rfl h
  | cons x xs =>
    exact ⟨((x :: xs).getD (g.onat n % (x :: xs).length) x, n + 1), rfl⟩

theorem mTotal_sampleM {α : Type} (g : Orc) {l : List α} {k : Nat} (h : k ≤ l.length) :
    MTotal (sampleM g l k) := by
  intro n
  refine ⟨pickSeq g k l n, ?_⟩
  unfold sampleM
  rw [if_neg (not_lt.mpr h)]

theorem mTotal_shuffleM {α : Type} (g : Orc) (l : List α) : MTotal (shuffleM g l) :=
  fun n => ⟨pickSeq g l.length l n, rfl⟩

theorem mTotal_ite {α : Type} {c : Prop} [Decidable c] {x y : M α}
    (hx : c → MTotal x) (hy : ¬ c → MTotal y) : MTotal (if c then x else y) := by
  by_cases h : c
  · rw [if_pos h]
    exact hx h
  · rw [if_neg h]
    exact hy h

theorem mTotal_foldlM {α β : Type} (f : α → β → M α) (l : List β)
    (hf : ∀ a b, MTotal (f a b)) : ∀ a, MTotal (l.foldlM f a) := by
  induction l with
  | nil =>
    intro a
    simp only [List.foldlM_nil]
    exact mTotal_pure a
  | cons b bs ih =>
    intro a
    simp only [List.foldlM_cons]
    exact mTotal_bind (hf a b) (fun a2 => ih a2)

theorem pickSeq_length {α : Type} (g : Orc) :
    ∀ (k : Nat) (l : List α) (n : Nat), (pickSeq g k l n).1.length = min k l.length := by
  intro k
  induction k with
  | zero => intro l n; simp [pickSeq]
  | succ k ih =>
    intro l n
    cases l with
    | nil => simp [pickSeq]
    | cons x xs =>
      have hidx : g.onat n % (x :: xs).length < (x :: xs).length :=
        Nat.mod_lt _ (by simp)
      unfold pickSeq
      simp only [List.length_cons]
      rw [ih]
      rw [List.length_eraseIdx_of_lt (by simpa using hidx)]
      simp only [List.length_cons]
      omega

theorem sampleM_length {α : Type} {g : Orc} {l : List α} {k n : Nat} {res : List α}
    {n2 : Nat} (h : sampleM g l k n = some (res, n2)) : res.length = min k l.length := by
  unfold sampleM at h
  by_cases hk : l.length < k
  · rw [if_pos hk] at h; cases h
  · rw [if_neg hk] at h
    have h2 := Option.some.inj h
    rw [Prod.ext_iff] at h2
    have h3 : (pickSeq g k l n).1 = res := h2.1
    rw [← h3]
    exact pickSeq_length g k l n

theorem randintM_le {g : Orc} {lo hi n a n2 : Nat}
    (h : randintM g lo hi n = some (a, n2)) : a ≤ hi := by
  unfold randintM at h
  by_cases hlt : hi < lo
  · rw [if_pos hlt] at h; cases h
  · rw [if_neg hlt] at h
    have h2 := Option.some.inj h
    rw [Prod.mk.injEq] at h2
    have hmod : g.onat n % (hi - lo + 1) ≤ hi - lo :=
      Nat.lt_succ_iff.mp (Nat.mod_lt _ (Nat.succ_pos _))
    omega

theorem bind_pure_eval {α β : Type} (a : α) (f : α → M β) (n : Nat) :
    (pure a >>= f) n = f a n := rfl

theorem mutate_total (P : Problem) (cfg : GAConfig) (g : Orc) (s : Sol)
    (hct : P.cloudlet_types ≠ []) : MTotal (mutate P cfg g s) := by
  unfold mutate
  apply mTotal_bind (mTotal_randomM g)
  intro r
  dsimp only []
  apply mTotal_ite
  · intro _
    apply mTotal_bind (mTotal_choiceM g (by simp))
    intro mt
    cases mt with
    | add =>
      apply mTotal_ite
      · intro _
        exact mTotal_bind (mTotal_pure _)
          (fun y => mTotal_bind (mTotal_pure _) (fun y2 => mTotal_pure _))
      · intro h
        apply mTotal_bind (mTotal_choiceM g (fun he => h (by rw [he]; rfl)))
        intro c
        apply mTotal_bind (mTotal_choiceM g hct)
        intro ct
        exact mTotal_bind (mTotal_pure _)
          (fun y => mTotal_bind (mTotal_pure _) (fun y2 => mTotal_pure _))
    | remove =>
      apply mTotal_ite
      · intro _
        exact mTotal_bind (mTotal_pure _)
          (fun y => mTotal_bind (mTotal_pure _) (fun y2 => mTotal_pure _))
      · intro h
        apply mTotal_bind (mTotal_choiceM g (fun he => h (by rw [he]; rfl)))
        intro cid
        exact mTotal_bind (mTotal_pure _)
          (fun y => mTotal_bind (mTotal_pure _) (fun y2 => mTotal_pure _))
    | change =>
      apply mTotal_ite
      · intro _
        exact mTotal_bind (mTotal_pure _)
          (fun y => mTotal_bind (mTotal_pure _) (fun y2 => mTotal_pure _))
      · intro h
        apply mTotal_bind (mTotal_choiceM g (fun he => h (by rw [he]; rfl)))
        intro cid
        apply mTotal_ite
        · intro _
          exact mTotal_bind (mTotal_pure _)
            (fun y => mTotal_bind (mTotal_pure _) (fun y2 => mTotal_pure _))
        · intro h2
          apply mTotal_bind (mTotal_choiceM g (fun he => h2 (by rw [he]; rfl)))
          intro tid
          exact mTotal_bind (mTotal_pure _)
            (fun y => mTotal_bind (mTotal_pure _) (fun y2 => mTotal_pure _))
    | swap =>
      apply mTotal_ite
      · intro _
        exact mTotal_bind (mTotal_pure _)
          (fun y => mTotal_bind (mTotal_pure _) (fun y2 => mTotal_pure _))
      · intro h
        apply mTotal_bind2 (mTotal_sampleM g (le_of_not_lt h))
        intro n a n2 hs
        have hlen : a.length = 2 := by
          rw [sampleM_length hs]
          omega
        cases a with
        | nil => simp at hlen
        | cons c1 rest =>
          cases rest with
          | nil => simp at hlen
          | cons c2 rest2 =>
            cases rest2 with
            | nil =>
              exact (mTotal_bind (mTotal_pure _)
                (fun y => mTotal_bind (mTotal_pure _) (fun y2 => mTotal_pure _))) n2
            | cons c3 rest3 => simp at hlen
  · intro _
    exact mTotal_bind (mTotal_pure _) (fun y => mTotal_pure _)

theorem crossover_total (P : Problem) (cfg : GAConfig) (g : Orc) (p1 p2 : Sol) :
    MTotal (crossover P cfg g p1 p2) := by
  unfold crossover
  apply mTotal_bind (mTotal_randomM g)
  intro r
  dsimp only []
  apply mTotal_ite
  · intro _
    apply mTotal_ite
    · intro h2
      apply mTotal_bind2 (mTotal_randintM g (Nat.zero_le _))
      intro n q1 n2 hq1
      have hle := randintM_le hq1
      exact (mTotal_bind (mTotal_randintM g (by omega))
        (fun q2 => mTotal_bind (mTotal_pure _) (fun y => mTotal_pure _))) n2
    · intro _
      exact mTotal_bind (mTotal_pure _) (fun y => mTotal_pure _)
  · intro _
    exact mTotal_bind (mTotal_pure _) (fun y => mTotal_pure _)

theorem sa_total (P : Problem) (cfg : GAConfig) (g : Orc) (s : Sol) (T : ℚ)
    (hct : P.cloudlet_types ≠ []) :
    MTotal (simulated_annealing_improvement P cfg g s T) := by
  unfold simulated_annealing_improvement
  apply mTotal_ite
  · intro _
    exact mTotal_pure _
  · intro _
    apply mTotal_foldlM
    intro a b
    unfold saStep
    apply mTotal_bind (mutate_total P cfg g a hct)
    intro nb
    apply mTotal_ite
    · intro _
      exact mTotal_pure _
    · intro _
      apply mTotal_bind (mTotal_randomM g)
      intro rr
      apply mTotal_ite
      · intro _
        exact mTotal_pure _
      · intro _
        exact mTotal_pure _

theorem tournament_total (g : Orc) (pop : List Sol) (hpop : 3 ≤ pop.length) :
    MTotal (tournament_selection g pop 3) := by
  unfold tournament_selection
  apply mTotal_bind2 (mTotal_sampleM g hpop)
  intro n t n2 hs
  have hlen : t.length = 3 := by
    rw [sampleM_length hs]
    omega
  cases t with
  | nil => simp at hlen
  | cons x xs => exact ⟨_, rfl⟩

theorem create_total (P : Problem) (cfg : GAConfig) (g : Orc)
    (hcp : P.candidate_points ≠ []) (hct : P.cloudlet_types ≠ []) :
    MTotal (create_random_solution P cfg g) := by
  have hcp1 : 1 ≤ P.candidate_points.length := List.length_pos.mpr hcp
  have hct1 : 1 ≤ P.cloudlet_types.length := List.length_pos.mpr hct
  unfold create_random_solution
  apply mTotal_bind2 (mTotal_randintM g (le_min hcp1 (by omega)))
  intro n num n2 hnum
  have hle : num ≤ P.candidate_points.length :=
    le_trans (randintM_le hnum) (min_le_left _ _)
  refine (?_ : MTotal _) n2
  apply mTotal_bind (mTotal_sampleM g hle)
  intro selected
  apply mTotal_bind (mTotal_foldlM _ _ ?_ _)
  · intro s2
    apply mTotal_bind (mTotal_shuffleM g _)
    intro devs
    exact mTotal_pure _
  · intro a b
    exact mTotal_bind (mTotal_choiceM g hct) (fun ct => mTotal_pure _)

theorem genRecordCore_pop (st : GAState) (pop : List Sol) (best : Option Sol) :
    (genRecordCore st pop best).population = pop := by
  unfold genRecordCore
  split
  · rfl
  · split <;> rfl

theorem genRecord_pop (cfg : GAConfig) (st : GAState) (np : List Sol) :
    (genRecord cfg st np).population = np.take cfg.population_size := by
  unfold genRecord
  rw [genRecordCore_pop]

/-- Totality and minimum size of the child-production loop: with a
population of at least 3 (so tournaments succeed) and a nonempty type list
(so mutation draws succeed), the loop always returns a list at least as
long as the population size. -/
theorem buildLoop_total (P : Problem) (cfg : GAConfig) (g : Orc) (pop : List Sol)
    (T : ℚ) (hpop : 3 ≤ pop.length) (hct : P.cloudlet_types ≠ []) :
    ∀ (np : List Sol) (n : Nat),
      ∃ res n2, buildLoop P cfg g pop T np n = some (res, n2) ∧
        cfg.population_size ≤ res.length := by
  suffices h : ∀ fuel np, cfg.population_size - np.length = fuel → ∀ n,
      ∃ res n2, buildLoop P cfg g pop T np n = some (res, n2) ∧
        cfg.population_size ≤ res.length by
    intro np n
    exact h _ np rfl n
  intro fuel
  induction fuel using Nat.strong_induction_on with
  | _ fuel ih =>
    intro np hfuel n
    by_cases hstop : cfg.population_size ≤ np.length
    · refine ⟨np, n, ?_, hstop⟩
      unfold buildLoop
      rw [dif_pos hstop]
      rfl
    · obtain ⟨⟨q1, n1⟩, h1⟩ := tournament_total g pop hpop n
      obtain ⟨⟨q2, n2⟩, h2⟩ := tournament_total g pop hpop n1
      obtain ⟨⟨cpair, n3⟩, h3⟩ := crossover_total P cfg g q1 q2 n2
      obtain ⟨⟨c1, n4⟩, h4⟩ := mutate_total P cfg g cpair.1 hct n3
      obtain ⟨⟨c2, n5⟩, h5⟩ := mutate_total P cfg g cpair.2 hct n4
      by_cases hsa : cfg.use_sa = true
      · obtain ⟨⟨c1s, n6⟩, h6⟩ := sa_total P cfg g c1 T hct n5
        obtain ⟨⟨c2s, n7⟩, h7⟩ := sa_total P cfg g c2 T hct n6
        obtain ⟨res, n8, h8, hlen⟩ := ih (cfg.population_size - (np.length + 2)) (by omega)
          (np ++ [if c1s.is_feasible = true then c1s else repair_solution P cfg.alpha c1s,
                  if c2s.is_feasible = true then c2s else repair_solution P cfg.alpha c2s])
          (by simp only [List.length_append, List.length_cons, List.length_nil]) n7
        refine ⟨res, n8, ?_, hlen⟩
        unfold buildLoop
        rw [dif_neg hstop]
        simp only [hsa, if_true, mBind_eval h1, mBind_eval h2, mBind_eval h3,
          mBind_eval h4, mBind_eval h5, mBind_eval h6, mBind_eval h7, bind_pure_eval]
        exact h8
      · rw [Bool.not_eq_true] at hsa
        obtain ⟨res, n8, h8, hlen⟩ := ih (cfg.population_size - (np.length + 2)) (by omega)
          (np ++ [if c1.is_feasible = true then c1 else repair_solution P cfg.alpha c1,
                  if c2.is_feasible = true then c2 else repair_solution P cfg.alpha c2])
          (by simp only [List.length_append, List.length_cons, List.length_nil]) n5
        refine ⟨res, n8, ?_, hlen⟩
        unfold buildLoop
        rw [dif_neg hstop]
        simp only [hsa, Bool.false_eq_true, if_false, mBind_eval h1, mBind_eval h2,
          mBind_eval h3, mBind_eval h4, mBind_eval h5, bind_pure_eval]
        exact h8

theorem genStep_total (P : Problem) (cfg : GAConfig) (g : Orc) (gen : Nat)
    (st : GAState) (hpop : 3 ≤ st.population.length) (hct : P.cloudlet_types ≠ [])
    (n : Nat) :
    ∃ st2 n2, genStep P cfg g gen st n = some (st2, n2) ∧
      st2.population.length = min cfg.population_size cfg.population_size := by
  obtain ⟨res, n2, hb, hlen⟩ := buildLoop_total P cfg g st.population
    (1 - (gen : ℚ) / (cfg.generations : ℚ)) hpop hct
    ((sortFit (st.population.filter (·.is_feasible))).take (max 2 (cfg.population_size / 10))) n
  refine ⟨genRecord cfg st res, n2, ?_, ?_⟩
  · unfold genStep
    simp only [mBind_eval hb]
    rfl
  · rw [genRecord_pop, List.length_take]
    omega

theorem init_run (P : Problem) (cfg : GAConfig) (g : Orc)
    (hcp : P.candidate_points ≠ []) (hct : P.cloudlet_types ≠ []) (n : Nat) :
    ∃ st n2, initialize_population P cfg g n = some (st, n2) ∧
      st.population.length = cfg.population_size := by
  have hfold : ∀ (l : List Nat) (acc : List Sol) (m : Nat),
      ∃ res n2, (l.foldlM (fun acc _ =>
          create_random_solution P cfg g >>= fun s => pure (acc ++ [s])) acc) m =
        some (res, n2) ∧ res.length = acc.length + l.length := by
    intro l
    induction l with
    | nil =>
      intro acc m
      refine ⟨acc, m, ?_, by simp⟩
      simp only [List.foldlM_nil]
      rfl
    | cons b bs ih =>
      intro acc m
      obtain ⟨⟨s, m1⟩, hs⟩ := create_total P cfg g hcp hct m
      obtain ⟨res, n2, hrest, hlen⟩ := ih (acc ++ [s]) m1
      have hstep : ((create_random_solution P cfg g >>=
          fun s => pure (acc ++ [s])) : M (List Sol)) m = some (acc ++ [s], m1) := by
        rw [mBind_eval hs]
        rfl
      refine ⟨res, n2, ?_, ?_⟩
      · simp only [List.foldlM_cons, mBind_eval hstep]
        exact hrest
      · rw [hlen]
        simp only [List.length_append, List.length_cons, List.length_nil]
        omega
  obtain ⟨res, n2, hrun, hlen⟩ := hfold (List.range cfg.population_size) [] n
  refine ⟨{ population := res, best_solution := update_best_solution res none,
            fitness_history := [], cost_history := [], latency_history := [] }, n2, ?_, ?_⟩
  · unfold initialize_population
    simp only [mBind_eval hrun]
    rfl
  · rw [hlen]
    simp

/-- C9: with a population size of at least 3 (so every tournament's
3-element sample fits), nonempty site and type lists (so the random
draws of solution construction never face an empty range), a nonempty
device list and a nonzero cost normalizer (so the two divisions of the
evaluator, which raise `ZeroDivisionError` in the source when the
normalizers are zero, always have nonzero denominators), and every type id
a valid index of the type list (so `cloudlet_types[ct_id]`, which raises
`IndexError` out of range, always stays in range), `evolve` runs to
completion from every oracle counter.  The last three hypotheses confine
the statement to the regime where the model's total indexing (`typeIdx`)
and total field division coincide with the source's raising operations;
the claimed contract (merely positive sizes and rates in [0,1]) is not
sufficient: see the counterexample. -/
theorem C9_evolve_totality (P : Problem) (cfg : GAConfig) (g : Orc)
    (hps : 3 ≤ cfg.population_size)
    (hcp : P.candidate_points ≠ [])
    (hct : P.cloudlet_types ≠ [])
    (hdev : P.devices ≠ [])
    (hid : ∀ ct ∈ P.cloudlet_types, ct.id < P.cloudlet_types.length)
    (hmc : maxPossibleCost P ≠ 0) (n : Nat) :
    ∃ r, evolve P cfg g n = some r := by
  have hgen : ∀ (l : List Nat) (st : GAState),
      st.population.length = cfg.population_size → ∀ m,
      ∃ st2 n2, (l.foldlM (fun st gen => genStep P cfg g gen st) st) m = some (st2, n2) ∧
        st2.population.length = cfg.population_size := by
    intro l
    induction l with
    | nil =>
      intro st hst m
      refine ⟨st, m, ?_, hst⟩
      simp only [List.foldlM_nil]
      rfl
    | cons gen gens ih =>
      intro st hst m
      obtain ⟨st1, m1, h1, hlen1⟩ := genStep_total P cfg g gen st (by omega) hct m
      have hlen1b : st1.population.length = cfg.population_size := by
        rw [hlen1]
        simp
      obtain ⟨st2, n2, h2, hlen2⟩ := ih st1 hlen1b m1
      refine ⟨st2, n2, ?_, hlen2⟩
      simp only [List.foldlM_cons, mBind_eval h1]
      exact h2
  obtain ⟨st0, n0, hinit, hlen0⟩ := init_run P cfg g hcp hct n
  obtain ⟨st2, n2, hrun, _⟩ := hgen (List.range cfg.generations) st0 hlen0 n0
  refine ⟨(st2, n2), ?_⟩
  unfold evolve evolvePre
  simp only [mBind_eval hinit]
  exact hrun

theorem c9_evb :
    (evaluate c9P
      { placement_map := [(0, some 0)], assignment_map := [(0, none)], total_cost := 0,
        total_latency := 0, fitness := some (Q2.ofQ 0), is_feasible := false }
      1).is_feasible = false := by
  norm_num [evaluate, evalFeas5, evalR3, evalFeas1, evalOcc, evalStep, evalCost, dget, dmem, dset,
    typeIdx, siteFind, uAdd, Problem.get_distance, capEntryOk, devOkB, c9P,
    List.filterMap_cons, Option.map_some', Option.map_none', List.getD, List.find?,
    List.foldl_cons, List.foldl_nil]

theorem c9P_devs : c9P.devices = [⟨0, 0, 0, 1, 1, 1⟩] := rfl

theorem c9P_cp : c9P.candidate_points = [⟨0, 5, 0, 1⟩] := rfl

theorem c9P_ct : c9P.cloudlet_types = [⟨0, 10, 10, 10, 1, 100⟩] := rfl

theorem c9P_dist (d c : Nat) :
    Problem.get_distance c9P d c = if c = 0 then some 5 else none := rfl

theorem c9_create : create_random_solution c9P c9cfg g7 0 = some (c9s, 4) := by
  unfold create_random_solution
  norm_num [mBind_def, mPure_def, mBind, mPure, randintM, sampleM, choiceM, shuffleM, pickSeq,
    newSolution, c9P_devs, c9P_cp, c9P_ct, c9P_dist, c9cfg, g7, place_cloudlet, assign_device,
    dget, dmem, dset, minByDist,
    crsFeasibleSites, typeIdx, optLtB, beq_eq_decideEq, someEqNoneFalse,
    noneEqSomeFalse, c9_evb, c9s, c9built,
    List.filter, List.find?, List.foldl_cons, List.foldl_nil, List.getD, List.eraseIdx]

theorem bind_none_eval {α β : Type} {x : M α} {f : α → M β} {n : Nat}
    (hx : x n = none) : (x >>= f) n = none := by
  show mBind x f n = none
  unfold mBind
  rw [hx]

theorem c9s_feas : c9s.is_feasible = false := by
  norm_num [c9s, repair_solution, Sol.clone_eq, repairPrimary, repairFallback, minByDist,
    evaluate_assignment_map, evaluate_placement_map, c9built,
    evaluate, evalFeas5, evalR3, evalFeas1, evalOcc, evalStep, evalCost, dget, dmem, dset,
    typeIdx, siteFind, uAdd, capEntryOk, devOkB, c9P_devs, c9P_cp, c9P_ct, c9P_dist, optLtB,
    List.filterMap_cons, Option.map_some', Option.map_none', List.getD, List.find?,
    List.foldl_cons, List.foldl_nil, List.filter]

theorem c9_init : initialize_population c9P c9cfg g7 0 =
    some
      ({ population := [c9s], best_solution := none, fitness_history := [],
         cost_history := [], latency_history := [] },
       4) := by
  have hstep : ((create_random_solution c9P c9cfg g7 >>=
      fun s => pure (([] : List Sol) ++ [s])) : M (List Sol)) 0 = some ([c9s], 4) := by
    rw [mBind_eval c9_create]
    rfl
  have hupd : update_best_solution [c9s] none = none := by
    simp [update_best_solution, minByFit, c9s_feas, List.filter]
  have hstep2 : ((create_random_solution c9P c9cfg g7 >>=
      fun s => pure (([] : List Sol) ++ [s])) >>=
      fun init => (pure init : M (List Sol))) 0 = some ([c9s], 4) := by
    rw [mBind_eval hstep]
    rfl
  unfold initialize_population
  rw [show List.range c9cfg.population_size = [0] from rfl]
  simp only [List.foldlM_cons, List.foldlM_nil]
  rw [mBind_eval hstep2]
  simp only [hupd]
  rfl

theorem c9_tournament : tournament_selection g7 [c9s] 3 4 = none := by
  unfold tournament_selection
  apply bind_none_eval
  unfold sampleM
  rw [if_pos (by simp)]

theorem c9_buildLoop (T : ℚ) : buildLoop c9P c9cfg g7 [c9s] T [] 4 = none := by
  unfold buildLoop
  rw [dif_neg (by decide : ¬ (c9cfg.population_size ≤ ([] : List Sol).length))]
  exact bind_none_eval c9_tournament

theorem c9_genStep (st : GAState) (hpop : st.population = [c9s]) :
    genStep c9P c9cfg g7 0 st 4 = none := by
  unfold genStep
  rw [hpop]
  simp only [List.filter_cons, List.filter_nil, c9s_feas, Bool.false_eq_true, if_false]
  show (buildLoop c9P c9cfg g7 [c9s] _ ((sortFit []).take _) >>= _) 4 = none
  exact bind_none_eval (c9_buildLoop _)

/-- C9 counterexample: the configuration satisfies the claimed contract
(positive population and generation counts, rates and alpha in [0,1]), yet
`evolve` raises: its population of size 1 cannot supply `random.sample`'s
tournament of 3. -/
theorem C9_evolve_totality_counterexample :
    (0 < c9cfg.population_size ∧ 0 < c9cfg.generations ∧
     0 ≤ c9cfg.crossover_rate ∧ c9cfg.crossover_rate ≤ 1 ∧
     0 ≤ c9cfg.mutation_rate ∧ c9cfg.mutation_rate ≤ 1 ∧
     0 ≤ c9cfg.alpha ∧ c9cfg.alpha ≤ 1) ∧
    evolve c9P c9cfg g7 0 = none := by
  refine ⟨by norm_num [c9cfg], ?_⟩
  unfold evolve evolvePre
  rw [show List.range c9cfg.generations = [0] from rfl]
  rw [mBind_eval c9_init]
  simp only [List.foldlM_cons]
  exact bind_none_eval (c9_genStep _ rfl)

/-- C9 witness: the totality theorem at a concrete 3-member configuration
with one device, one site, one in-range type of base cost 100. -/
theorem C9_evolve_totality_witness :
    ∃ r, evolve w1P cfg93 g7 0 = some r :=
  C9_evolve_totality w1P cfg93 g7 (by decide) (by decide) (by decide) (by decide)
    (by decide) (by norm_num [maxPossibleCost, w1P, w1Type]) 0

/-
Claim C3: per-generation history entries.  The stable-sort head, the
first-minimal fold, and the incumbent invariant.
-/

theorem foldMin_stay (xs : List Sol) : ∀ (x : Sol),
    (∀ y ∈ xs, fitLtB y.fitness x.fitness = false) →
    xs.foldl (fun b y => if fitLtB y.fitness b.fitness then y else b) x = x := by
  induction xs with
  | nil => intro x _; rfl
  | cons y ys ih =>
    intro x h
    rw [List.foldl_cons,
      if_neg (by rw [h y (List.mem_cons_self y ys)]; exact Bool.false_ne_true)]
    exact ih x (fun z hz => h z (List.mem_cons_of_mem y hz))

/-- When the first-minimal fold strictly improves on its accumulator, the
result does not depend on any other accumulator it also improves on. -/
theorem foldMin_switch (zs : List Sol) : ∀ (a b : Sol),
    fitLtB (zs.foldl (fun b y => if fitLtB y.fitness b.fitness then y else b) a).fitness
      a.fitness = true →
    fitLtB (zs.foldl (fun b y => if fitLtB y.fitness b.fitness then y else b) a).fitness
      b.fitness = true →
    zs.foldl (fun b y => if fitLtB y.fitness b.fitness then y else b) b =
      zs.foldl (fun b y => if fitLtB y.fitness b.fitness then y else b) a := by
  induction zs with
  | nil =>
    intro a b ha hb
    rw [List.foldl_nil] at ha
    exact absurd ((fitLtB_iff _ _).mp ha) (fitLtP_irrefl _)
  | cons w ws ih =>
    intro a b ha hb
    simp only [List.foldl_cons] at ha hb ⊢
    by_cases hwa : fitLtB w.fitness a.fitness = true
    · rw [if_pos hwa] at ha hb ⊢
      by_cases hwb : fitLtB w.fitness b.fitness = true
      · rw [if_pos hwb]
      · rw [if_neg hwb]
        have hvw : fitLtB ((ws.foldl
            (fun b y => if fitLtB y.fitness b.fitness then y else b) w).fitness)
            w.fitness = true :=
          (fitLtB_iff _ _).mpr (fitLtP_of_lt_of_nlt ((fitLtB_iff _ _).mp hb)
            (fun hp => hwb ((fitLtB_iff _ _).mpr hp)))
        exact ih w b hvw hb
    · rw [if_neg hwa] at ha hb ⊢
      by_cases hwb : fitLtB w.fitness b.fitness = true
      · rw [if_pos hwb]
        have hvw : fitLtB ((ws.foldl
            (fun b y => if fitLtB y.fitness b.fitness then y else b) a).fitness)
            w.fitness = true :=
          (fitLtB_iff _ _).mpr (fitLtP_of_lt_of_nlt ((fitLtB_iff _ _).mp ha)
            (fun hp => hwa ((fitLtB_iff _ _).mpr hp)))
        exact ih a w ha hvw
      · rw [if_neg hwb]
        exact ih a b ha hb

theorem minByFit_cons_of_lt {xs : List Sol} {B : Sol} (x : Sol)
    (h : minByFit xs = some B) (hlt : fitLtB B.fitness x.fitness = true) :
    minByFit (x :: xs) = some B := by
  cases xs with
  | nil => cases h
  | cons z zs =>
    simp only [minByFit] at h ⊢
    have hB := Option.some.inj h
    rw [List.foldl_cons]
    by_cases hzx : fitLtB z.fitness x.fitness = true
    · rw [if_pos hzx, hB]
    · rw [if_neg hzx]
      have hBz : fitLtB B.fitness z.fitness = true := (fitLtB_iff _ _).mpr
        (fitLtP_of_lt_of_nlt ((fitLtB_iff _ _).mp hlt)
          (fun hp => hzx ((fitLtB_iff _ _).mpr hp)))
      have hswitch := foldMin_switch zs z x (by rw [hB]; exact hBz) (by rw [hB]; exact hlt)
      rw [hswitch, hB]

theorem minByFit_cons_self {xs : List Sol} (x : Sol)
    (h : ∀ y ∈ xs, fitLtB y.fitness x.fitness = false) :
    minByFit (x :: xs) = some x := by
  simp only [minByFit]
  rw [foldMin_stay xs x h]

theorem insFit_ne_nil (x : Sol) (l : List Sol) : insFit x l ≠ [] := by
  cases l with
  | nil => simp [insFit]
  | cons y ys =>
    unfold insFit
    by_cases h : fitLtB y.fitness x.fitness = true
    · rw [if_pos h]
      simp
    · rw [if_neg h]
      simp

theorem insFit_mem {x : Sol} {l : List Sol} {y : Sol} (h : y ∈ insFit x l) :
    y = x ∨ y ∈ l := by
  induction l with
  | nil =>
    simp [insFit] at h
    exact Or.inl h
  | cons z zs ih =>
    unfold insFit at h
    by_cases hc : fitLtB z.fitness x.fitness = true
    · rw [if_pos hc] at h
      rcases List.mem_cons.mp h with h1 | h1
      · exact Or.inr (h1 ▸ List.mem_cons_self z zs)
      · rcases ih h1 with h2 | h2
        · exact Or.inl h2
        · exact Or.inr (List.mem_cons_of_mem z h2)
    · rw [if_neg hc] at h
      rcases List.mem_cons.mp h with h1 | h1
      · exact Or.inl h1
      · exact Or.inr h1

theorem sortFit_mem {l : List Sol} {y : Sol} : y ∈ sortFit l → y ∈ l := by
  induction l with
  | nil => intro h; cases h
  | cons x xs ih =>
    intro h
    unfold sortFit at h
    rcases insFit_mem h with h1 | h1
    · exact h1 ▸ List.mem_cons_self x xs
    · exact List.mem_cons_of_mem x (ih h1)

/-- The head of the stable sort is the first-minimal member of the list. -/
theorem sortFit_head : ∀ {l : List Sol} {A : Sol} {S : List Sol},
    sortFit l = A :: S → minByFit l = some A := by
  intro l
  induction l with
  | nil => intro A S h; cases h
  | cons x xs ih =>
    intro A S h
    unfold sortFit at h
    cases hs : sortFit xs with
    | nil =>
      have hxs : xs = [] := by
        cases xs with
        | nil => rfl
        | cons x2 xs2 => exact absurd hs (by unfold sortFit; exact insFit_ne_nil _ _)
      subst hxs
      rw [hs] at h
      have h2 : ([x] : List Sol) = A :: S := h
      have hA : A = x := ((List.cons.injEq _ _ _ _).mp h2).1.symm
      rw [hA]
      rfl
    | cons B T =>
      rw [hs] at h
      have hmin := ih hs
      unfold insFit at h
      by_cases hc : fitLtB B.fitness x.fitness = true
      · rw [if_pos hc] at h
        have hA : A = B := ((List.cons.injEq _ _ _ _).mp h).1.symm
        rw [hA]
        exact minByFit_cons_of_lt x hmin hc
      · rw [if_neg hc] at h
        have hA : A = x := ((List.cons.injEq _ _ _ _).mp h).1.symm
        rw [hA]
        apply minByFit_cons_self
        intro y hy
        by_contra hyx
        rw [Bool.not_eq_false] at hyx
        have hyB : fitLtP y.fitness B.fitness := fitLtP_of_lt_of_nlt
          ((fitLtB_iff _ _).mp hyx) (fun hp => hc ((fitLtB_iff _ _).mpr hp))
        exact (minByFit_le hmin y hy) hyB

/-- With no incumbent the update simply installs the population's
first-minimal feasible member (a clone, which carries the same data). -/
theorem update_best_none (pop : List Sol) :
    update_best_solution pop none = minByFit (pop.filter (·.is_feasible)) := by
  unfold update_best_solution
  cases h : minByFit (pop.filter (·.is_feasible)) with
  | none => rfl
  | some cb =>
    show some cb.clone = some cb
    rw [Sol.clone_eq]

/-- When the incumbent heads the population and is feasible, the update
yields exactly the population's first-minimal feasible member. -/
theorem update_best_head (A : Sol) (rest : List Sol) (hAf : A.is_feasible = true) :
    update_best_solution (A :: rest) (some A) =
      minByFit ((A :: rest).filter (·.is_feasible)) := by
  have hfl : (A :: rest).filter (·.is_feasible) = A :: rest.filter (·.is_feasible) := by
    rw [List.filter_cons, if_pos (by simpa using hAf)]
  cases hmin : minByFit ((A :: rest).filter (·.is_feasible)) with
  | none =>
    rw [hfl] at hmin
    simp only [minByFit] at hmin
    cases hmin
  | some cb =>
    have hle := minByFit_le hmin
    unfold update_best_solution
    rw [hmin]
    show (if fitLtB cb.fitness A.fitness = true then some cb.clone else some A) = some cb
    by_cases hlt : fitLtB cb.fitness A.fitness = true
    · rw [if_pos hlt, Sol.clone_eq]
    · rw [if_neg hlt]
      have hcb : cb = A := by
        rw [hfl] at hmin
        simp only [minByFit] at hmin
        have hstay : (rest.filter (·.is_feasible)).foldl
            (fun b y => if fitLtB y.fitness b.fitness then y else b) A = A := by
          apply foldMin_stay
          intro y hy
          by_contra hyA
          rw [Bool.not_eq_false] at hyA
          have hyc : fitLtP y.fitness cb.fitness := fitLtP_of_lt_of_nlt
            ((fitLtB_iff _ _).mp hyA) (fun hp => hlt ((fitLtB_iff _ _).mpr hp))
          have hy2 : y ∈ (A :: rest).filter (·.is_feasible) := by
            rw [hfl]
            exact List.mem_cons_of_mem A hy
          exact (hle y hy2) hyc
        rw [hstay] at hmin
        exact (Option.some.inj hmin).symm
      rw [hcb]

theorem foldMinVal (xs : List Sol) : ∀ x : Sol,
    xs.foldl (fun b y => if fitLtB y.fitness b then y.fitness else b) x.fitness =
      (xs.foldl (fun b y => if fitLtB y.fitness b.fitness then y else b) x).fitness := by
  induction xs with
  | nil => intro x; rfl
  | cons y ys ih =>
    intro x
    simp only [List.foldl_cons]
    by_cases h : fitLtB y.fitness x.fitness = true
    · rw [if_pos h, if_pos h]
      exact ih y
    · rw [if_neg h, if_neg h]
      exact ih x

/-- `min(s.fitness for s in l)` is the fitness of the first-minimal member. -/
theorem minFitVal_eq {l : List Sol} {b : Sol} (h : minByFit l = some b) :
    minFitVal l = b.fitness := by
  cases l with
  | nil => cases h
  | cons x xs =>
    simp only [minByFit] at h
    simp only [minFitVal]
    rw [foldMinVal, Option.some.inj h]

theorem take_cons_append {α : Type} (A : α) (S kids : List α) (e ps : Nat)
    (he : 1 ≤ e) (hps : 1 ≤ ps) :
    (((A :: S).take e) ++ kids).take ps = A :: ((S.take (e - 1) ++ kids).take (ps - 1)) := by
  obtain ⟨e2, rfl⟩ : ∃ e2, e = e2 + 1 := ⟨e - 1, by omega⟩
  obtain ⟨ps2, rfl⟩ : ∃ ps2, ps = ps2 + 1 := ⟨ps - 1, by omega⟩
  rw [List.take_succ_cons, List.cons_append, List.take_succ_cons,
    Nat.add_sub_cancel, Nat.add_sub_cancel]

/-- The production loop only appends: its result extends the elite seed. -/
theorem buildLoop_prefix (P : Problem) (cfg : GAConfig) (g : Orc) (pop : List Sol)
    (T : ℚ) :
    ∀ (np : List Sol) (n : Nat) (res : List Sol) (n2 : Nat),
      buildLoop P cfg g pop T np n = some (res, n2) → ∃ kids, res = np ++ kids := by
  suffices h : ∀ fuel np, cfg.population_size - np.length = fuel → ∀ n res n2,
      buildLoop P cfg g pop T np n = some (res, n2) → ∃ kids, res = np ++ kids by
    intro np n res n2 hb
    exact h _ np rfl n res n2 hb
  intro fuel
  induction fuel using Nat.strong_induction_on with
  | _ fuel ih =>
    intro np hfuel n res n2 hb
    unfold buildLoop at hb
    by_cases hstop : cfg.population_size ≤ np.length
    · rw [dif_pos hstop] at hb
      have h2 := Option.some.inj hb
      rw [Prod.mk.injEq] at h2
      exact ⟨[], by rw [← h2.1, List.append_nil]⟩
    · rw [dif_neg hstop] at hb
      simp only [mBind_def, mPure_def] at hb
      obtain ⟨p1, m1, h1, hb⟩ := mBind_some hb
      obtain ⟨p2, m2, h2, hb⟩ := mBind_some hb
      obtain ⟨cpair, m3, h3, hb⟩ := mBind_some hb
      obtain ⟨c1, m4, h4, hb⟩ := mBind_some hb
      obtain ⟨c2, m5, h5, hb⟩ := mBind_some hb
      by_cases hsa : cfg.use_sa = true
      · rw [if_pos hsa] at hb
        obtain ⟨c1s, m6, h6, hb⟩ := mBind_some hb
        obtain ⟨c2s, m7, h7, hb⟩ := mBind_some hb
        obtain ⟨y, m8, h8, hb⟩ := mBind_some hb
        obtain ⟨kids, hk⟩ := ih (cfg.population_size - (np.length + 2)) (by omega)
          (np ++ [if y.1.is_feasible = true then y.1 else repair_solution P cfg.alpha y.1,
                  if y.2.is_feasible = true then y.2 else repair_solution P cfg.alpha y.2])
          (by simp only [List.length_append, List.length_cons, List.length_nil]) m8 res n2 hb
        refine ⟨[if y.1.is_feasible = true then y.1 else repair_solution P cfg.alpha y.1,
          if y.2.is_feasible = true then y.2 else repair_solution P cfg.alpha y.2] ++ kids, ?_⟩
        rw [hk, List.append_assoc]
      · rw [if_neg hsa] at hb
        obtain ⟨y, m8, h8, hb⟩ := mBind_some hb
        obtain ⟨kids, hk⟩ := ih (cfg.population_size - (np.length + 2)) (by omega)
          (np ++ [if y.1.is_feasible = true then y.1 else repair_solution P cfg.alpha y.1,
                  if y.2.is_feasible = true then y.2 else repair_solution P cfg.alpha y.2])
          (by simp only [List.length_append, List.length_cons, List.length_nil]) m8 res n2 hb
        refine ⟨[if y.1.is_feasible = true then y.1 else repair_solution P cfg.alpha y.1,
          if y.2.is_feasible = true then y.2 else repair_solution P cfg.alpha y.2] ++ kids, ?_⟩
        rw [hk, List.append_assoc]

theorem genStep_run (P : Problem) (cfg : GAConfig) (g : Orc) (gen : Nat) (st : GAState)
    (st' : GAState) (n n2 : Nat) (h : genStep P cfg g gen st n = some (st', n2)) :
    ∃ npop n', buildLoop P cfg g st.population (1 - (gen : ℚ) / (cfg.generations : ℚ))
        ((sortFit (st.population.filter (·.is_feasible))).take
          (max 2 (cfg.population_size / 10))) n = some (npop, n') ∧
      st' = genRecord cfg st npop := by
  unfold genStep at h
  simp only [mBind_def, mPure_def] at h
  obtain ⟨npop, n', hb, h2⟩ := mBind_some h
  unfold mPure at h2
  have h3 := Option.some.inj h2
  rw [Prod.mk.injEq] at h3
  exact ⟨npop, n', hb, h3.1.symm⟩

theorem genRecordCore_empty (st : GAState) (pop : List Sol) (best : Option Sol)
    (h : (pop.filter (·.is_feasible)).isEmpty = true) :
    genRecordCore st pop best =
      { population := pop, best_solution := best,
        fitness_history := st.fitness_history ++ [none],
        cost_history := st.cost_history ++ [none],
        latency_history := st.latency_history ++ [none] } := by
  unfold genRecordCore
  rw [if_pos h]

theorem genRecordCore_some (st : GAState) (pop : List Sol) (b : Sol)
    (h : (pop.filter (·.is_feasible)).isEmpty = false) :
    genRecordCore st pop (some b) =
      { population := pop, best_solution := some b,
        fitness_history := st.fitness_history ++ [minFitVal (pop.filter (·.is_feasible))],
        cost_history := st.cost_history ++ [some b.total_cost],
        latency_history := st.latency_history ++ [some b.total_latency] } := by
  unfold genRecordCore
  rw [if_neg (by rw [h]; exact Bool.false_ne_true)]

/-- One generation step: the incumbent invariant (incumbent = first-minimal
feasible member of the current population) is preserved, and the three
history series each gain exactly the entry the claim describes. -/
theorem genStep_step (P : Problem) (cfg : GAConfig) (g : Orc) (gen : Nat)
    (st st' : GAState) (n n2 : Nat) (hps : 1 ≤ cfg.population_size)
    (hinv : st.best_solution = minByFit (st.population.filter (·.is_feasible)))
    (h : genStep P cfg g gen st n = some (st', n2)) :
    (st'.best_solution = minByFit (st'.population.filter (·.is_feasible))) ∧
    ((st'.population.filter (·.is_feasible) = [] ∧
      st'.fitness_history = st.fitness_history ++ [none] ∧
      st'.cost_history = st.cost_history ++ [none] ∧
      st'.latency_history = st.latency_history ++ [none]) ∨
     (∃ b, minByFit (st'.population.filter (·.is_feasible)) = some b ∧
       b ∈ st'.population ∧ b.is_feasible = true ∧
       (∀ x ∈ st'.population, x.is_feasible = true → fitLeP b.fitness x.fitness) ∧
       st'.fitness_history = st.fitness_history ++ [b.fitness] ∧
       st'.cost_history = st.cost_history ++ [some b.total_cost] ∧
       st'.latency_history = st.latency_history ++ [some b.total_latency])) := by
  obtain ⟨npop, n', hb, hst'⟩ := genStep_run P cfg g gen st st' n n2 h
  have hbest' : update_best_solution (npop.take cfg.population_size) st.best_solution =
      minByFit ((npop.take cfg.population_size).filter (·.is_feasible)) := by
    cases hfe : st.population.filter (·.is_feasible) with
    | nil =>
      have hbn : st.best_solution = none := by
        rw [hinv, hfe]
        rfl
      rw [hbn]
      exact update_best_none _
    | cons F Fr =>
      cases hsf : sortFit (st.population.filter (·.is_feasible)) with
      | nil =>
        rw [hfe] at hsf
        exact absurd hsf (by unfold sortFit; exact insFit_ne_nil _ _)
      | cons A S =>
        have hminA := sortFit_head hsf
        have hbA : st.best_solution = some A := by rw [hinv, hminA]
        have hAfeas : A.is_feasible = true := by
          have hmem : A ∈ st.population.filter (·.is_feasible) :=
            sortFit_mem (by rw [hsf]; exact List.mem_cons_self A S)
          have h2 := List.of_mem_filter hmem
          simpa using h2
        obtain ⟨kids, hkids⟩ := buildLoop_prefix P cfg g st.population _ _ n npop n' hb
        rw [hsf] at hkids
        have hshape := take_cons_append A S kids (max 2 (cfg.population_size / 10))
          cfg.population_size (by omega) hps
        rw [hbA, hkids, hshape]
        exact update_best_head A _ hAfeas
  have hpop' : st'.population = npop.take cfg.population_size := by
    rw [hst', genRecord_pop]
  have hbsts : st'.best_solution =
      update_best_solution (npop.take cfg.population_size) st.best_solution := by
    rw [hst', genRecord_best]
  constructor
  · rw [hbsts, hpop']
    exact hbest'
  · by_cases hem : ((npop.take cfg.population_size).filter (·.is_feasible)).isEmpty = true
    · left
      have hrec : st' =
          { population := npop.take cfg.population_size,
            best_solution := update_best_solution (npop.take cfg.population_size)
              st.best_solution,
            fitness_history := st.fitness_history ++ [none],
            cost_history := st.cost_history ++ [none],
            latency_history := st.latency_history ++ [none] } := by
        rw [hst']
        unfold genRecord
        exact genRecordCore_empty st _ _ hem
      rw [hrec]
      exact ⟨List.isEmpty_iff.mp hem, rfl, rfl, rfl⟩
    · right
      have hne : (npop.take cfg.population_size).filter (·.is_feasible) ≠ [] := by
        intro he2
        rw [he2] at hem
        exact hem rfl
      cases hmb : minByFit ((npop.take cfg.population_size).filter (·.is_feasible)) with
      | none =>
        cases hfl : (npop.take cfg.population_size).filter (·.is_feasible) with
        | nil => exact absurd hfl hne
        | cons q qs =>
          rw [hfl] at hmb
          simp only [minByFit] at hmb
          cases hmb
      | some b =>
        have hrec : st' =
            { population := npop.take cfg.population_size, best_solution := some b,
              fitness_history := st.fitness_history ++
                [minFitVal ((npop.take cfg.population_size).filter (·.is_feasible))],
              cost_history := st.cost_history ++ [some b.total_cost],
              latency_history := st.latency_history ++ [some b.total_latency] } := by
          rw [hst']
          unfold genRecord
          rw [hbest', hmb]
          exact genRecordCore_some st _ b (by rwa [Bool.not_eq_true] at hem)
        refine ⟨b, ?_, ?_, ?_, ?_, ?_, ?_, ?_⟩
        · rw [hrec]
          exact hmb
        · rw [hrec]
          exact List.mem_of_mem_filter (minByFit_mem hmb)
        · have h2 := List.of_mem_filter (minByFit_mem hmb)
          simpa using h2
        · intro x hx hxf
          rw [hrec] at hx
          exact minByFit_le hmb x (List.mem_filter.mpr ⟨hx, by simpa using hxf⟩)
        · rw [hrec]
          show st.fitness_history ++
            [minFitVal ((npop.take cfg.population_size).filter (·.is_feasible))] =
            st.fitness_history ++ [b.fitness]
          rw [minFitVal_eq hmb]
        · rw [hrec]
        · rw [hrec]

/-- Run-level history lengths: every generation appends exactly one entry
to each of the three series. -/
theorem evolvePre_lengths (P : Problem) (cfg : GAConfig) (g : Orc)
    (hps : 1 ≤ cfg.population_size) :
    ∀ (k n : Nat) (st : GAState) (n2 : Nat),
      evolvePre P cfg g k n = some (st, n2) →
      st.fitness_history.length = k ∧ st.cost_history.length = k ∧
        st.latency_history.length = k := by
  have hfold : ∀ (l : List Nat) (st0 : GAState),
      st0.best_solution = minByFit (st0.population.filter (·.is_feasible)) →
      ∀ (m : Nat) (st : GAState) (n2 : Nat),
        (l.foldlM (fun st gen => genStep P cfg g gen st) st0) m = some (st, n2) →
        st.fitness_history.length = st0.fitness_history.length + l.length ∧
        st.cost_history.length = st0.cost_history.length + l.length ∧
        st.latency_history.length = st0.latency_history.length + l.length := by
    intro l
    induction l with
    | nil =>
      intro st0 hinv m st n2 h
      simp only [List.foldlM_nil] at h
      have h2 := Option.some.inj h
      rw [Prod.mk.injEq] at h2
      rw [← h2.1]
      exact ⟨by simp, by simp, by simp⟩
    | cons gen gens ih =>
      intro st0 hinv m st n2 h
      simp only [List.foldlM_cons, mBind_def] at h
      obtain ⟨st1, m1, h1, h⟩ := mBind_some h
      obtain ⟨hinv1, hcontent⟩ := genStep_step P cfg g gen st0 st1 m m1 hps hinv h1
      have hlen1 : st1.fitness_history.length = st0.fitness_history.length + 1 ∧
          st1.cost_history.length = st0.cost_history.length + 1 ∧
          st1.latency_history.length = st0.latency_history.length + 1 := by
        rcases hcontent with ⟨hx, hf, hc, hl⟩ | ⟨b, hx1, hx2, hx3, hx4, hf, hc, hl⟩ <;>
          exact ⟨by rw [hf]; simp, by rw [hc]; simp, by rw [hl]; simp⟩
      obtain ⟨ha1, ha2, ha3⟩ := hlen1
      obtain ⟨hf2, hc2, hl2⟩ := ih st1 hinv1 m1 st n2 h
      simp only [List.length_cons]
      exact ⟨by omega, by omega, by omega⟩
  intro k n st n2 h
  unfold evolvePre at h
  simp only [mBind_def] at h
  obtain ⟨st0, n0, hinit, h⟩ := mBind_some h
  unfold initialize_population at hinit
  simp only [mBind_def, mPure_def] at hinit
  obtain ⟨pop, n1, hp, h2⟩ := mBind_some hinit
  unfold mPure at h2
  have h3 := Option.some.inj h2
  rw [Prod.mk.injEq] at h3
  have hst0 : st0 =
      { population := pop, best_solution := update_best_solution pop none,
        fitness_history := [], cost_history := [], latency_history := [] } := h3.1.symm
  have hinv0 : st0.best_solution = minByFit (st0.population.filter (·.is_feasible)) := by
    rw [hst0]
    exact update_best_none pop
  obtain ⟨hf, hc, hl⟩ := hfold (List.range k) st0 hinv0 n0 st n2 h
  rw [hst0] at hf hc hl
  simp only [List.length_nil, List.length_range, Nat.zero_add] at hf hc hl
  exact ⟨hf, hc, hl⟩

/-- C3: after `evolve` runs all generations, the three history series have
one entry per generation (equal lengths); each generation appends, to all
three series at once, either the fitness, total cost and total latency of
that generation's best feasible individual (its first feasible member of
minimal fitness), or `+inf` (`none`) in all three when the generation has
no feasible member.  The recording goes through the tracked incumbent, but
elitism, the stable sort, and keep-on-tie updating make the incumbent
coincide with the generation's best feasible individual. -/
theorem C3_history_series :
    (∀ (P : Problem) (cfg : GAConfig) (g : Orc), 1 ≤ cfg.population_size →
      ∀ (n : Nat) (st : GAState) (n2 : Nat), evolve P cfg g n = some (st, n2) →
      st.fitness_history.length = cfg.generations ∧
      st.cost_history.length = cfg.generations ∧
      st.latency_history.length = cfg.generations) ∧
    (∀ (P : Problem) (cfg : GAConfig) (g : Orc) (gen : Nat) (st st' : GAState) (n n2 : Nat),
      1 ≤ cfg.population_size →
      st.best_solution = minByFit (st.population.filter (·.is_feasible)) →
      genStep P cfg g gen st n = some (st', n2) →
      (st'.best_solution = minByFit (st'.population.filter (·.is_feasible))) ∧
      ((st'.population.filter (·.is_feasible) = [] ∧
        st'.fitness_history = st.fitness_history ++ [none] ∧
        st'.cost_history = st.cost_history ++ [none] ∧
        st'.latency_history = st.latency_history ++ [none]) ∨
       (∃ b, minByFit (st'.population.filter (·.is_feasible)) = some b ∧
         b ∈ st'.population ∧ b.is_feasible = true ∧
         (∀ x ∈ st'.population, x.is_feasible = true → fitLeP b.fitness x.fitness) ∧
         st'.fitness_history = st.fitness_history ++ [b.fitness] ∧
         st'.cost_history = st.cost_history ++ [some b.total_cost] ∧
         st'.latency_history = st.latency_history ++ [some b.total_latency]))) := by
  refine ⟨?_, ?_⟩
  · intro P cfg g hps n st n2 h
    exact evolvePre_lengths P cfg g hps cfg.generations n st n2 h
  · intro P cfg g gen st st' n n2 hps hinv h
    exact genStep_step P cfg g gen st st' n n2 hps hinv h

theorem w1P_devs : w1P.devices = [⟨0, 0, 0, 1, 1, 1⟩] := rfl

theorem w1P_cp : w1P.candidate_points = [⟨0, 10, 0, 1⟩] := rfl

theorem w1P_ct : w1P.cloudlet_types = [w1Type] := rfl

theorem w1P_dist (d c : Nat) :
    Problem.get_distance w1P d c = if d = 0 ∧ c = 0 then some 10 else none := rfl

theorem c3_feas : s7.is_feasible = true := by
  norm_num [s7, w1Sol, evaluate, evalFeas5, evalR3, evalFeas1, evalOcc, evalStep, evalCost,
    dget, dmem, dset, typeIdx, siteFind, uAdd, Problem.get_distance, capEntryOk, devOkB,
    w1P, w1Type, List.filterMap_cons, Option.map_some', Option.map_none', List.getD,
    List.find?, List.foldl_cons, List.foldl_nil]

theorem c3_evb :
    (evaluate w1P
      { placement_map := [(0, some 0)], assignment_map := [(0, some 0)], total_cost := 0,
        total_latency := 0, fitness := some (Q2.ofQ 0), is_feasible := false }
      (1 / 2)).is_feasible = true := c3_feas

theorem c3_create : create_random_solution w1P cfg7 g7 0 = some (s7, 4) := by
  unfold create_random_solution
  norm_num [mBind_def, mPure_def, mBind, mPure, randintM, sampleM, choiceM, shuffleM, pickSeq,
    newSolution, w1P_devs, w1P_cp, w1P_ct, w1P_dist, cfg7, g7, place_cloudlet, assign_device,
    dget, dmem, dset, minByDist, w1Type,
    crsFeasibleSites, typeIdx, optLtB, beq_eq_decideEq, someEqNoneFalse,
    noneEqSomeFalse, c3_evb, s7, w1Sol,
    List.filter, List.find?, List.foldl_cons, List.foldl_nil, List.getD, List.eraseIdx]

theorem c3_init : initialize_population w1P cfg7 g7 0 = some (c3st0, 4) := by
  have hstep : ((create_random_solution w1P cfg7 g7 >>=
      fun s => pure (([] : List Sol) ++ [s])) : M (List Sol)) 0 = some ([s7], 4) := by
    rw [mBind_eval c3_create]
    rfl
  have hstep2 : ((create_random_solution w1P cfg7 g7 >>=
      fun s => pure (([] : List Sol) ++ [s])) >>=
      fun init => (pure init : M (List Sol))) 0 = some ([s7], 4) := by
    rw [mBind_eval hstep]
    rfl
  have hupd : update_best_solution [s7] none = some s7 := by
    have hmin : minByFit ([s7].filter (·.is_feasible)) = some s7 := by
      simp [List.filter, c3_feas, minByFit]
    unfold update_best_solution
    rw [hmin]
    show some s7.clone = some s7
    rw [Sol.clone_eq]
  unfold initialize_population
  rw [show List.range cfg7.population_size = [0] from rfl]
  simp only [List.foldlM_cons, List.foldlM_nil]
  rw [mBind_eval hstep2]
  show some
      (({ population := [s7], best_solution := update_best_solution [s7] none,
          fitness_history := [], cost_history := [], latency_history := [] } : GAState),
       4) =
    some (c3st0, 4)
  rw [hupd]
  rfl

theorem c3_buildLoop (T : ℚ) : buildLoop w1P cfg7 g7 [s7] T [s7] 4 = some ([s7], 4) := by
  unfold buildLoop
  rw [dif_pos (by decide : cfg7.population_size ≤ ([s7] : List Sol).length)]
  rfl

theorem c3_genStep : genStep w1P cfg7 g7 0 c3st0 4 = some (c3st1, 4) := by
  unfold genStep
  have hnp : (sortFit (c3st0.population.filter (·.is_feasible))).take
      (max 2 (cfg7.population_size / 10)) = [s7] := by
    simp [c3st0, List.filter, c3_feas, sortFit, insFit, cfg7, List.take]
  rw [hnp, show c3st0.population = [s7] from rfl]
  rw [mBind_eval (c3_buildLoop _)]
  rfl

theorem c3_evolve : evolve w1P cfg7 g7 0 = some (c3st1, 4) := by
  unfold evolve evolvePre
  rw [show List.range cfg7.generations = [0] from rfl]
  rw [mBind_eval c3_init]
  simp only [List.foldlM_cons]
  rw [mBind_eval c3_genStep]
  rfl

theorem c3_inv : c3st0.best_solution = minByFit (c3st0.population.filter (·.is_feasible)) := by
  simp [c3st0, List.filter, c3_feas, minByFit]

/-- C3 witness: the one-generation, one-member run records exactly one
entry per series, and the recorded entries are those of the generation's
best feasible individual. -/
theorem C3_history_series_witness :
    (c3st1.fitness_history.length = cfg7.generations ∧
     c3st1.cost_history.length = cfg7.generations ∧
     c3st1.latency_history.length = cfg7.generations) ∧
    ((c3st1.best_solution = minByFit (c3st1.population.filter (·.is_feasible))) ∧
     ((c3st1.population.filter (·.is_feasible) = [] ∧
       c3st1.fitness_history = c3st0.fitness_history ++ [none] ∧
       c3st1.cost_history = c3st0.cost_history ++ [none] ∧
       c3st1.latency_history = c3st0.latency_history ++ [none]) ∨
      (∃ b, minByFit (c3st1.population.filter (·.is_feasible)) = some b ∧
        b ∈ c3st1.population ∧ b.is_feasible = true ∧
        (∀ x ∈ c3st1.population, x.is_feasible = true → fitLeP b.fitness x.fitness) ∧
        c3st1.fitness_history = c3st0.fitness_history ++ [b.fitness] ∧
        c3st1.cost_history = c3st0.cost_history ++ [some b.total_cost] ∧
        c3st1.latency_history = c3st0.latency_history ++ [some b.total_latency]))) :=
  ⟨C3_history_series.1 w1P cfg7 g7 (by decide) 0 c3st1 4 c3_evolve,
   C3_history_series.2 w1P cfg7 g7 0 c3st0 c3st1 4 4 (by decide) c3_inv c3_genStep⟩

/-
Claim C10: the five operators never modify the solutions passed to them,
each working on a clone and returning a distinct object.
-/

/-- Frame fact of an allocation: appending cells leaves every existing
cell readable with its old value. -/
theorem sget_append_lt (sigma l : List Sol) (r : Nat) (h : r < sigma.length) :
    sget (sigma ++ l) r = sget sigma r := by
  unfold sget
  rw [List.getD_eq_getElem?_getD, List.getD_eq_getElem?_getD,
    List.getElem?_append_left h]

/-- C10: on the object store, `crossover`, `mutate`, `repair_solution`,
`reassign_devices`, and the active simulated-annealing walk leave every
pre-existing object (in particular each input solution) unchanged and
return freshly allocated result objects, distinct from every input; but
`simulated_annealing_improvement` with SA disabled, or with temperature
below 0.1, returns the input reference itself with no allocation at all,
so its result is not a distinct object. -/
theorem C10_operator_aliasing :
    (∀ P cfg g sigma r1 r2 n sigma2 c1 c2 n2,
        crossoverH P cfg g sigma r1 r2 n = some ((sigma2, c1, c2), n2) →
        (∀ q, q < sigma.length → sget sigma2 q = sget sigma q) ∧
          sigma.length ≤ c1 ∧ sigma.length ≤ c2 ∧ c1 ≠ c2) ∧
    (∀ P cfg g sigma r n sigma2 r2 n2,
        mutateH P cfg g sigma r n = some ((sigma2, r2), n2) →
        (∀ q, q < sigma.length → sget sigma2 q = sget sigma q) ∧
          sigma.length ≤ r2) ∧
    (∀ P alpha sigma r,
        (∀ q, q < sigma.length → sget (repairH P alpha sigma r).1 q = sget sigma q) ∧
          sigma.length ≤ (repairH P alpha sigma r).2) ∧
    (∀ P sigma r,
        (∀ q, q < sigma.length → sget (reassignH P sigma r).1 q = sget sigma q) ∧
          sigma.length ≤ (reassignH P sigma r).2) ∧
    (∀ P cfg g sigma r T n sigma2 r2 n2,
        cfg.use_sa = true → ¬ T < 1 / 10 →
        saH P cfg g sigma r T n = some ((sigma2, r2), n2) →
        (∀ q, q < sigma.length → sget sigma2 q = sget sigma q) ∧
          sigma.length ≤ r2) ∧
    (∀ P cfg g sigma r T n,
        cfg.use_sa = false ∨ T < 1 / 10 →
        saH P cfg g sigma r T n = some ((sigma, r), n)) := by
  refine ⟨?_, ?_, ?_, ?_, ?_, ?_⟩
  · intro P cfg g sigma r1 r2 n sigma2 c1 c2 n2 h
    unfold crossoverH at h
    cases hm : crossover P cfg g (sget sigma r1) (sget sigma r2) n with
    | none => rw [hm] at h; exact absurd h (by simp)
    | some v =>
      obtain ⟨⟨v1, v2⟩, m⟩ := v
      rw [hm] at h
      simp only [Option.some.injEq, Prod.mk.injEq] at h
      obtain ⟨⟨hsig, hc1, hc2⟩, hn⟩ := h
      subst hsig
      refine ⟨fun q hq => sget_append_lt sigma _ q hq, ?_, ?_, ?_⟩
      · omega
      · omega
      · omega
  · intro P cfg g sigma r n sigma2 r2 n2 h
    unfold mutateH at h
    cases hm : mutate P cfg g (sget sigma r) n with
    | none => rw [hm] at h; exact absurd h (by simp)
    | some v =>
      obtain ⟨v1, m⟩ := v
      rw [hm] at h
      simp only [Option.some.injEq, Prod.mk.injEq] at h
      obtain ⟨⟨hsig, hr2⟩, hn⟩ := h
      subst hsig
      exact ⟨fun q hq => sget_append_lt sigma _ q hq, by omega⟩
  · intro P alpha sigma r
    exact ⟨fun q hq => sget_append_lt sigma _ q hq, le_refl _⟩
  · intro P sigma r
    exact ⟨fun q hq => sget_append_lt sigma _ q hq, le_refl _⟩
  · intro P cfg g sigma r T n sigma2 r2 n2 hsa hT h
    unfold saH at h
    rw [if_neg (by simp only [hsa, Bool.not_true, Bool.false_or, decide_eq_true_eq]; exact hT)] at h
    cases hm : simulated_annealing_improvement P cfg g (sget sigma r) T n with
    | none => rw [hm] at h; exact absurd h (by simp)
    | some v =>
      obtain ⟨v1, m⟩ := v
      rw [hm] at h
      simp only [Option.some.injEq, Prod.mk.injEq] at h
      obtain ⟨⟨hsig, hr2⟩, hn⟩ := h
      subst hsig
      exact ⟨fun q hq => sget_append_lt sigma _ q hq, by omega⟩
  · intro P cfg g sigma r T n hd
    unfold saH
    rw [if_pos (by cases hd with
      | inl h => simp [h]
      | inr h =>
        simp only [Bool.or_eq_true, Bool.not_eq_true', decide_eq_true_eq]
        exact Or.inr h)]

/-- C10 counterexample: with SA disabled, `saH` on a one-object store
returns reference 0 — the very input object — and allocates nothing, so
the returned object is not distinct from the input (the fresh-allocation
bound `length ≤ result` fails). -/
theorem C10_operator_aliasing_counterexample :
    saH c5P c5cfgOff g7 [c5s0] 0 1 0 = some (([c5s0], 0), 0) ∧
      ¬ ([c5s0] : List Sol).length ≤ 0 :=
  ⟨rfl, by decide⟩

/-- C10 witness: a concrete successful `mutate` on a one-object store
leaves the input cell unchanged and returns the fresh reference 1; and the
disabled simulated-annealing walk hands the input reference back. -/
theorem C10_operator_aliasing_witness :
    ((∀ q, q < ([c5s0] : List Sol).length → sget [c5s0, c5n1] q = sget [c5s0] q) ∧
      ([c5s0] : List Sol).length ≤ 1) ∧
      saH c5P c5cfgOff g7 [c5s0] 0 (1 / 20) 0 = some (([c5s0], 0), 0) := by
  have h : mutateH c5P c5cfg c5g [c5s0] 0 0 = some (([c5s0, c5n1], 1), 4) := by
    unfold mutateH
    rw [show sget [c5s0] 0 = c5s0 from rfl, c5_mut1]
    rfl
  exact ⟨C10_operator_aliasing.2.1 c5P c5cfg c5g [c5s0] 0 0 [c5s0, c5n1] 1 4 h,
    C10_operator_aliasing.2.2.2.2.2 c5P c5cfgOff g7 [c5s0] 0 (1 / 20) 0
      (Or.inr (by norm_num))⟩
